import Mathlib

/-!
# AudioFaceROIs: the audio/face fusion core of `CFaceBasics`

A shallow embedding of `src/FaceBasics.cpp` / `src/FaceBasics.h`.

Conventions of the embedding:
* every C++ `float` is a real number (arithmetic is exact, no rounding);
* every C++ `int` is an unbounded integer (`ℤ`), with `%` the truncating C remainder;
* `ULONGLONG` is a natural number, reduced modulo `2 ^ 64` after each operation;
* an array is a list; a `memcpy_s` that would leave its source array yields `none`;
* each `HRESULT` is the Boolean `SUCCEEDED (hr)`.
-/

namespace CFaceBasics

/-! ## Constants of `FaceBasics.h` -/

/-- Audio samples per second in Kinect audio stream. -/
def cAudioSamplesPerSecond : ℤ := 16000

/-- Number of audio samples accumulated into a single energy measurement. -/
def cAudioSamplesPerEnergySample : ℤ := 40

/-- Number of energy samples visible in the display at any given time. -/
def cEnergySamplesToDisplay : ℤ := 780

/-- Number of energy samples stored in the circular buffer. -/
def cEnergyBufferLength : ℤ := 1000

/-- Minimum energy of audio to display, in dB (0 dB is full scale). -/
def cMinEnergy : ℤ := -90

/-! ## The members of `CFaceBasics` that the fusion core reads and writes -/

/-- The audio/energy members of `CFaceBasics`. -/
@[ext]
structure State where
  /-- Latest audio beam angle in radians. -/
  m_fBeamAngle : ℝ
  /-- Latest audio beam angle confidence. -/
  m_fBeamAngleConfidence : ℝ
  /-- Circular buffer of energy values, `cEnergyBufferLength` long. -/
  m_fEnergyBuffer : List ℝ
  /-- Energy values ready to be displayed, `cEnergySamplesToDisplay` long. -/
  m_fEnergyDisplayBuffer : List ℝ
  /-- Sum of squares of the audio samples accumulated for the next energy value. -/
  m_fAccumulatedSquareSum : ℝ
  /-- Error between the time slice wanted and the time slice displayed. -/
  m_fEnergyError : ℝ
  /-- Number of audio samples accumulated so far for the next energy value. -/
  m_nAccumulatedSampleCount : ℤ
  /-- Index of the next element available in the energy buffer. -/
  m_nEnergyIndex : ℤ
  /-- Number of energy values that have not yet been displayed. -/
  m_nNewEnergyAvailable : ℤ
  /-- Index of the first energy element that has never been displayed. -/
  m_nEnergyRefreshIndex : ℤ
  /-- Last time the energy visualization was refreshed (`NULL`, i.e. 0, before the first). -/
  m_nLastEnergyRefreshTime : ℕ

/-- The state the constructor `CFaceBasics::CFaceBasics` leaves. The two beam members are
not initialised by the constructor; they are parameters here. -/
def construct (fBeamAngle fBeamAngleConfidence : ℝ) : State where
  m_fBeamAngle := fBeamAngle
  m_fBeamAngleConfidence := fBeamAngleConfidence
  m_fEnergyBuffer := List.replicate cEnergyBufferLength.toNat 0
  m_fEnergyDisplayBuffer := List.replicate cEnergySamplesToDisplay.toNat 0
  m_fAccumulatedSquareSum := 0
  m_fEnergyError := 0
  m_nAccumulatedSampleCount := 0
  m_nEnergyIndex := 0
  m_nNewEnergyAvailable := 0
  m_nEnergyRefreshIndex := 0
  m_nLastEnergyRefreshTime := 0

/-! ## `ProcessFaces`: the energy computation

In this section the squares, the sums, the quotients and the logarithm are the reals they
denote: the arithmetic of the code with the rounding of `float` left out. The same
computation with every `float` operation rounding its result is `ingestFloat` further
down. -/

/-- The mean square of a group whose squares add up to `fAccumulatedSquareSum`, capped at 1
(`FaceBasics.cpp` lines 773-780). -/
noncomputable def meanSquare (fAccumulatedSquareSum : ℝ) : ℝ :=
  let fMeanSquare := fAccumulatedSquareSum / (cAudioSamplesPerEnergySample : ℝ)
  if fMeanSquare > 1 then 1 else fMeanSquare

/-- The energy in dB of a capped mean square (`FaceBasics.cpp` lines 782-787). -/
noncomputable def energyDb (fMeanSquare : ℝ) : ℝ :=
  if fMeanSquare > 0 then 10 * Real.logb 10 fMeanSquare else (cMinEnergy : ℝ)

/-- The value stored in the energy buffer for a group whose squares add up to
`fAccumulatedSquareSum` (`FaceBasics.cpp` line 797). -/
noncomputable def energyDisplay (fAccumulatedSquareSum : ℝ) : ℝ :=
  ((cMinEnergy : ℝ) - energyDb (meanSquare fAccumulatedSquareSum)) / (cMinEnergy : ℝ)

/-- One iteration of the sample loop of `ProcessFaces` (`FaceBasics.cpp` lines 759-806) on
the sample `x`, with the beam values read before the loop. -/
noncomputable def ingestSample (fBeamAngle fBeamAngleConfidence : ℝ) (s : State) (x : ℝ) :
    State :=
  let sum := s.m_fAccumulatedSquareSum + x * x
  let count := s.m_nAccumulatedSampleCount + 1
  if count < cAudioSamplesPerEnergySample then
    { s with m_fAccumulatedSquareSum := sum, m_nAccumulatedSampleCount := count }
  else
    { s with
      m_fBeamAngle := fBeamAngle
      m_fBeamAngleConfidence := fBeamAngleConfidence
      m_fEnergyBuffer := s.m_fEnergyBuffer.set s.m_nEnergyIndex.toNat (energyDisplay sum)
      m_nNewEnergyAvailable := s.m_nNewEnergyAvailable + 1
      m_nEnergyIndex := (s.m_nEnergyIndex + 1).tmod cEnergyBufferLength
      m_fAccumulatedSquareSum := 0
      m_nAccumulatedSampleCount := 0 }

/-- The audio part of `ProcessFaces` on the samples one read of the audio stream
delivered (`FaceBasics.cpp` lines 748-807). -/
noncomputable def ingest (s : State) (samples : List ℝ)
    (fBeamAngle fBeamAngleConfidence : ℝ) : State :=
  samples.foldl (ingestSample fBeamAngle fBeamAngleConfidence) s

/-! ## `Update`: the energy section -/

/-- Truncation toward zero: the value of the C conversion `(int) x` of a `float` `x` whose
truncation fits an `int`. The conversion on all of `float` is `floatToInt32` below. -/
noncomputable def floatToInt (x : ℝ) : ℤ := if 0 ≤ x then ⌊x⌋ else ⌈x⌉

/-- The `ULONGLONG` value of `(now - previousRefreshTime) * cAudioSamplesPerSecond`
(`FaceBasics.cpp` line 504); both operations wrap modulo `2 ^ 64`. -/
def elapsedTimesRate (now previousRefreshTime : ℕ) : ℕ :=
  (((now % 2 ^ 64 + 2 ^ 64 - previousRefreshTime % 2 ^ 64) % 2 ^ 64)
    * cAudioSamplesPerSecond.toNat) % 2 ^ 64

/-- The value of `energyToAdvance` (`FaceBasics.cpp` line 504). -/
noncomputable def energyToAdvance (s : State) (now : ℕ) : ℝ :=
  s.m_fEnergyError
    + (((elapsedTimesRate now s.m_nLastEnergyRefreshTime : ℕ) : ℝ) / 1000)
        / (cAudioSamplesPerEnergySample : ℝ)

/-- The value of `energySamplesToAdvance` (`FaceBasics.cpp` line 505). -/
noncomputable def energySamplesToAdvance (s : State) (now : ℕ) : ℤ :=
  min s.m_nNewEnergyAvailable (floatToInt (energyToAdvance s now))

/-- The block guarded by `previousRefreshTime != NULL` (`FaceBasics.cpp` lines 500-509):
the read cursor moves on by `energySamplesToAdvance`. -/
noncomputable def advanceRefreshIndex (s : State) (now : ℕ) : State :=
  { s with
    m_fEnergyError := energyToAdvance s now - (energySamplesToAdvance s now : ℝ)
    m_nEnergyRefreshIndex :=
      (s.m_nEnergyRefreshIndex + energySamplesToAdvance s now).tmod cEnergyBufferLength
    m_nNewEnergyAvailable := s.m_nNewEnergyAvailable - energySamplesToAdvance s now }

/-- The call `memcpy_s (dest + destOffset, destSize, src + srcOffset, count)`, all sizes
counted in `float`s: the array `dest` after the copy, or `none` when `count` exceeds
`destSize` or one of the two ranges leaves its array. -/
def memcpy_s (dest : List ℝ) (destOffset destSize : ℤ) (src : List ℝ)
    (srcOffset count : ℤ) : Option (List ℝ) :=
  if 0 ≤ destOffset ∧ 0 ≤ srcOffset ∧ 0 ≤ count ∧ count ≤ destSize
      ∧ destOffset + destSize ≤ dest.length ∧ srcOffset + count ≤ src.length then
    some (dest.take destOffset.toNat ++ (src.drop srcOffset.toNat).take count.toNat
      ++ dest.drop (destOffset + count).toNat)
  else none

/-- The copy of the energy samples to display out of the circular buffer
(`FaceBasics.cpp` lines 511-524): the display buffer after the copy. -/
def copyEnergyWindow (fEnergyDisplayBuffer fEnergyBuffer : List ℝ)
    (nEnergyRefreshIndex : ℤ) : Option (List ℝ) :=
  let baseIndex :=
    (nEnergyRefreshIndex + cEnergyBufferLength - cEnergySamplesToDisplay).tmod
      cEnergyBufferLength
  let samplesUntilEnd := cEnergyBufferLength - baseIndex
  if samplesUntilEnd > cEnergySamplesToDisplay then
    memcpy_s fEnergyDisplayBuffer 0 cEnergySamplesToDisplay fEnergyBuffer baseIndex
      cEnergySamplesToDisplay
  else
    let samplesFromBeginning := cEnergySamplesToDisplay - samplesUntilEnd
    (memcpy_s fEnergyDisplayBuffer 0 cEnergySamplesToDisplay fEnergyBuffer baseIndex
      samplesUntilEnd).bind fun d =>
    memcpy_s d samplesUntilEnd (cEnergySamplesToDisplay - samplesUntilEnd) fEnergyBuffer 0
      samplesFromBeginning

/-- The energy section of `CFaceBasics::Update` (`FaceBasics.cpp` lines 486-527) at tick
count `now`. The colour-frame section before it, which runs `ProcessFaces` when a frame
is there, is a step of its own in this embedding. The arithmetic on `int` is taken
exactly, which is what the machine computes while every value fits an `int`; `Update32`
below follows the machine beyond that. -/
noncomputable def Update (s : State) (now : ℕ) : Option State :=
  let previousRefreshTime := s.m_nLastEnergyRefreshTime
  let s1 : State := { s with m_nLastEnergyRefreshTime := now }
  if s.m_nNewEnergyAvailable ≤ 0 then some s1
  else
    let s2 : State :=
      if previousRefreshTime ≠ 0 then
        { advanceRefreshIndex s now with m_nLastEnergyRefreshTime := now }
      else s1
    (copyEnergyWindow s2.m_fEnergyDisplayBuffer s2.m_fEnergyBuffer
      s2.m_nEnergyRefreshIndex).map
      fun d => { s2 with m_fEnergyDisplayBuffer := d }

/-- The states the program reaches from the constructed one by reads of the audio stream
and by refreshes whose tick counts do not decrease. -/
inductive Reachable : State → Prop where
  | construct (fBeamAngle fBeamAngleConfidence : ℝ) :
      Reachable (construct fBeamAngle fBeamAngleConfidence)
  | ingest {s : State} (samples : List ℝ) (fBeamAngle fBeamAngleConfidence : ℝ) :
      Reachable s → Reachable (ingest s samples fBeamAngle fBeamAngleConfidence)
  | refresh {s s' : State} (now : ℕ) :
      Reachable s → s.m_nLastEnergyRefreshTime ≤ now → now < 2 ^ 64 →
      Update s now = some s' → Reachable s'

/-! ## `ProcessFaces`: the face loop -/

/-- What the calls on `ppBodies[i]` return in one frame. -/
structure Body where
  /-- `SUCCEEDED` of `get_IsTracked`. -/
  isTrackedOk : Bool
  /-- The flag `get_IsTracked` delivers. -/
  bTracked : Bool
  /-- `SUCCEEDED` of `get_TrackingId`. -/
  trackingIdOk : Bool
  /-- The tracking ID `get_TrackingId` delivers. -/
  bodyTId : ℕ
  /-- `SUCCEEDED` of `GetJoints`. -/
  jointsOk : Bool
  /-- `SUCCEEDED` of `MapCameraPointToColorSpace`. -/
  mapOk : Bool

/-- What the calls on a face frame result return. -/
structure FaceFrameResult where
  /-- `SUCCEEDED` of `get_FaceBoundingBoxInColorSpace`. -/
  boxOk : Bool
  /-- `SUCCEEDED` of `GetFacePointsInColorSpace`. -/
  pointsOk : Bool
  /-- The value of `facePoints[3].X`. -/
  mouthCornerLeftX : ℝ
  /-- The value of `facePoints[4].X`. -/
  mouthCornerRightX : ℝ
  /-- `SUCCEEDED` of `get_FaceRotationQuaternion`. -/
  rotationOk : Bool
  /-- `SUCCEEDED` of `GetFaceProperties`. -/
  propertiesOk : Bool

/-- What the calls on a face frame return. -/
structure FaceFrame where
  /-- `SUCCEEDED` of `get_IsTrackingIdValid`. -/
  trackingIdValidOk : Bool
  /-- The flag `get_IsTrackingIdValid` delivers. -/
  bFaceTracked : Bool
  /-- `SUCCEEDED` of `get_FaceFrameResult`. -/
  resultOk : Bool
  /-- The result `get_FaceFrameResult` delivers, `none` for `nullptr`. -/
  pFaceFrameResult : Option FaceFrameResult

/-- What `m_pFaceFrameReaders[i]->AcquireLatestFrame` returns in one frame. -/
structure FaceReader where
  /-- `SUCCEEDED` of `AcquireLatestFrame`. -/
  acquireOk : Bool
  /-- The frame delivered, `none` for `nullptr`. -/
  pFaceFrame : Option FaceFrame

/-- Everything the face loop of `ProcessFaces` reads from the sensor in one frame. -/
structure FrameInput where
  /-- `SUCCEEDED (UpdateBodyData (ppBodies))`. -/
  bHaveBodyData : Bool
  /-- The array `ppBodies`, `none` for `nullptr`. -/
  ppBodies : ℕ → Option Body
  /-- The face readers, by slot. -/
  readers : ℕ → FaceReader

/-- The calls the face loop makes on the renderer and on the face sources. -/
inductive FaceAction where
  | DrawFaceFrameResults (iFace : ℕ)
  | put_TrackingId (iFace : ℕ) (bodyTId : ℕ)
  | DrawBackgroundA
  deriving DecidableEq

/-- `SUCCEEDED` of `GetFaceTextPositionInColorSpace (pBody, ..)`
(`FaceBasics.cpp` lines 824-860). -/
def GetFaceTextPositionInColorSpace (pBody : Option Body) : Bool :=
  match pBody with
  | none => false
  | some b =>
    if b.isTrackedOk && b.bTracked then
      if b.jointsOk then b.mapOk else false
    else b.isTrackedOk

/-! ## Floating-point rounding -/

/-- Rounding of a real to the nearest integer, a tie going to the even one. -/
noncomputable def roundNearestEven (z : ℝ) : ℤ :=
  if z - ⌊z⌋ < 1 / 2 then ⌊z⌋
  else if 1 / 2 < z - ⌊z⌋ then ⌊z⌋ + 1
  else if ⌊z⌋ % 2 = 0 then ⌊z⌋ else ⌊z⌋ + 1

/-- The exponent of the unit in the last place of `x` in the binary floating-point format
with `p` digits and least exponent `emin`. -/
noncomputable def ulpExponent (p : ℕ) (emin : ℤ) (x : ℝ) : ℤ :=
  max (Int.log 2 |x|) emin - ((p : ℤ) - 1)

/-- The number of the binary floating-point format with `p` digits and least exponent
`emin` that `x` rounds to, to nearest with ties to even (IEEE 754 `roundTiesToEven`);
subnormal numbers included, overflow to infinity left out. -/
noncomputable def roundFloat (p : ℕ) (emin : ℤ) (x : ℝ) : ℝ :=
  (roundNearestEven (x / 2 ^ ulpExponent p emin x) : ℝ) * 2 ^ ulpExponent p emin x

/-- The `float` (binary32) a real result is rounded to. -/
noncomputable def toFloat (x : ℝ) : ℝ := roundFloat 24 (-126) x

/-- The `double` (binary64) a real result is rounded to. -/
noncomputable def toDouble (x : ℝ) : ℝ := roundFloat 53 (-1022) x

/-! ## The angle test -/

/-- The mouth centre `centerMouth.X` of a face result (`FaceBasics.cpp` line 661): the sum
of two `float`s and its half, each rounded to `float`. -/
noncomputable def centerMouthX (r : FaceFrameResult) : ℝ :=
  toFloat (toFloat (r.mouthCornerLeftX + r.mouthCornerRightX) / 2)

/-- The value of `0.000054253472*(pow(centerMouth.X, 2)) - .10416666666666667*centerMouth.X
+ 50` (`FaceBasics.cpp` lines 665 and 669). It is computed in `double`: the literals are the
`double`s nearest to the decimals, `pow` of a `float` and an `int` is the `double` power,
the `float` converts exactly, and every operation rounds its result. -/
noncomputable def calibrationPolynomial (centerMouthX : ℝ) : ℝ :=
  toDouble
    (toDouble
        (toDouble (toDouble 0.000054253472 * toDouble (centerMouthX ^ 2))
          - toDouble (toDouble 0.10416666666666667 * centerMouthX))
      + 50)

/-- The expected beam angle `ang`, in degrees, of a mouth centre at `centerMouthX`
(`FaceBasics.cpp` lines 663-670): the `double` value of the polynomial, negated left of
960, stored in the `float` `ang`. -/
noncomputable def expectedAngle (centerMouthX : ℝ) : ℝ :=
  if centerMouthX < 960 then toFloat (-calibrationPolynomial centerMouthX)
  else toFloat (calibrationPolynomial centerMouthX)

/-- The constant `M_PI` of `math.h`, a `double`. -/
noncomputable def M_PI : ℝ := toDouble 3.14159265358979323846

/-- The beam angle in degrees, `180.0f * m_fBeamAngle / static_cast<float>(M_PI)`
(`FaceBasics.cpp` lines 597 and 689), computed in `float`. -/
noncomputable def beamAngleDegrees (fBeamAngle : ℝ) : ℝ :=
  toFloat (toFloat (180 * fBeamAngle) / toFloat M_PI)

/-- The test of `FaceBasics.cpp` line 689 on the stored beam angle: the difference is
a `float`, and so is its absolute value. -/
def angleTest (fBeamAngle ang : ℝ) : Prop :=
  |toFloat (beamAngleDegrees fBeamAngle - ang)| < 5

/-- The branch of a tracked face (`FaceBasics.cpp` lines 640-697): the calls made. -/
noncomputable def trackedFace (s : State) (pBody : Option Body) (frame : FaceFrame)
    (iFace : ℕ) : List FaceAction :=
  open Classical in
  match frame.pFaceFrameResult with
  | none => []
  | some r =>
    if frame.resultOk && r.boxOk && r.pointsOk && r.rotationOk && r.propertiesOk
        && GetFaceTextPositionInColorSpace pBody then
      if angleTest s.m_fBeamAngle (expectedAngle (centerMouthX r)) then
        [FaceAction.DrawFaceFrameResults iFace]
      else []
    else []

/-- The branch of a face that is not tracked (`FaceBasics.cpp` lines 699-726): the calls
made. -/
def untrackedFace (bHaveBodyData : Bool) (pBody : Option Body) (iFace : ℕ) :
    List FaceAction :=
  if bHaveBodyData then
    match pBody with
    | none => []
    | some b =>
      if b.isTrackedOk && b.bTracked then
        if b.trackingIdOk then [FaceAction.put_TrackingId iFace b.bodyTId] else []
      else []
  else []

/-- One iteration of the face loop (`FaceBasics.cpp` lines 623-729): the calls made for
slot `iFace`. -/
noncomputable def faceIteration (s : State) (f : FrameInput) (iFace : ℕ) :
    List FaceAction :=
  let reader := f.readers iFace
  match reader.acquireOk, reader.pFaceFrame with
  | false, _ => []
  | true, none => untrackedFace f.bHaveBodyData (f.ppBodies iFace) iFace
  | true, some frame =>
    if frame.trackingIdValidOk then
      if frame.bFaceTracked then trackedFace s (f.ppBodies iFace) frame iFace
      else untrackedFace f.bHaveBodyData (f.ppBodies iFace) iFace
    else []

/-- The face loop of `ProcessFaces` behind the confidence gate (`FaceBasics.cpp` lines
617-730): the calls made, in order. `BODY_COUNT` is declared outside the repository and
is a parameter. -/
noncomputable def faceLoop (BODY_COUNT : ℕ) (s : State) (f : FrameInput) :
    List FaceAction :=
  open Classical in
  if s.m_fBeamAngleConfidence < 0.5 then []
  else (List.range BODY_COUNT).flatMap (faceIteration s f)

/-- The flag `foundFace` after the face loop: it is set by the statement before each
`DrawFaceFrameResults` and nowhere else. -/
def foundFace (calls : List FaceAction) : Bool :=
  calls.any fun a =>
    match a with
    | FaceAction.DrawFaceFrameResults _ => true
    | _ => false

/-- What one read of the audio stream delivers to `ProcessFaces`. -/
structure AudioRead where
  /-- The read returned `S_OK` or `E_PENDING`. -/
  readOk : Bool
  /-- The samples read, `cbRead / sizeof (float)` of them. -/
  samples : List ℝ
  /-- The value of `get_BeamAngle`. -/
  fBeamAngle : ℝ
  /-- The value of `get_BeamAngleConfidence`. -/
  fBeamAngleConfidence : ℝ

/-- The function `CFaceBasics::ProcessFaces` (`FaceBasics.cpp` lines 610-815): the calls
made on the renderer and the face sources, and the state left. -/
noncomputable def ProcessFaces (BODY_COUNT : ℕ) (s : State) (f : FrameInput)
    (audio : AudioRead) : List FaceAction × State :=
  let calls := faceLoop BODY_COUNT s f
  let calls := if foundFace calls then calls else calls ++ [FaceAction.DrawBackgroundA]
  (calls,
    if audio.readOk then ingest s audio.samples audio.fBeamAngle audio.fBeamAngleConfidence
    else s)

/-- The slots for which `ProcessFaces` calls `DrawFaceFrameResults`, in call order. -/
def highlighted (calls : List FaceAction) : List ℕ :=
  calls.filterMap fun a =>
    match a with
    | FaceAction.DrawFaceFrameResults i => some i
    | _ => none

/-! ## Notions used to state the properties -/

/-- The sum of the squares of a run of samples, added in order as the sample loop does. -/
def sumSquares (samples : List ℝ) : ℝ :=
  samples.foldl (fun acc x => acc + x * x) 0

/-- Slot `iFace` holds a valid tracked face whose frame data are all retrieved and whose
expected angle is within 5 degrees of the stored beam angle. -/
def slotPasses (s : State) (f : FrameInput) (iFace : ℕ) : Prop :=
  ∃ frame r,
    (f.readers iFace).acquireOk = true ∧ (f.readers iFace).pFaceFrame = some frame
      ∧ frame.trackingIdValidOk = true ∧ frame.bFaceTracked = true
      ∧ frame.resultOk = true ∧ frame.pFaceFrameResult = some r
      ∧ r.boxOk = true ∧ r.pointsOk = true ∧ r.rotationOk = true ∧ r.propertiesOk = true
      ∧ GetFaceTextPositionInColorSpace (f.ppBodies iFace) = true
      ∧ angleTest s.m_fBeamAngle (expectedAngle (centerMouthX r))

/-- The face reader of a slot answers, and what it answers is not a valid tracked face: no
frame, or a frame whose tracking ID is reported not valid. -/
def reportsNoTrackedFace (reader : FaceReader) : Prop :=
  reader.acquireOk = true
    ∧ (reader.pFaceFrame = none
      ∨ ∃ frame, reader.pFaceFrame = some frame ∧ frame.trackingIdValidOk = true
          ∧ frame.bFaceTracked = false)

/-- A body that is tracked under the ID `bodyTId`, every call on it succeeding. -/
def trackedBody (bodyTId : ℕ) : Body :=
  { isTrackedOk := true, bTracked := true, trackingIdOk := true, bodyTId := bodyTId,
    jointsOk := true, mapOk := true }

/-- A reader delivering a valid tracked face with both mouth corners at `x`, every call on
it succeeding. -/
def trackedReaderAt (x : ℝ) : FaceReader :=
  { acquireOk := true
    pFaceFrame := some
      { trackingIdValidOk := true, bFaceTracked := true, resultOk := true
        pFaceFrameResult := some
          { boxOk := true, pointsOk := true, mouthCornerLeftX := x, mouthCornerRightX := x
            rotationOk := true, propertiesOk := true } } }

/-- A reader delivering a frame without a valid tracked face. -/
def untrackedReader : FaceReader :=
  { acquireOk := true
    pFaceFrame := some
      { trackingIdValidOk := true, bFaceTracked := false, resultOk := true
        pFaceFrameResult := none } }

/-- A frame in which every slot shows a tracked face with its mouth at the screen centre,
every body being tracked under the ID `100 + i`. -/
def frameAllCentred : FrameInput :=
  { bHaveBodyData := true
    ppBodies := fun i => some (trackedBody (100 + i))
    readers := fun _ => trackedReaderAt 960 }

/-- A frame in which no slot shows a tracked face while every body is tracked under the ID
`100 + i`. -/
def frameFacesLost : FrameInput :=
  { bHaveBodyData := true
    ppBodies := fun i => some (trackedBody (100 + i))
    readers := fun _ => untrackedReader }

/-- An audio read that delivers no sample. -/
def noAudio : AudioRead :=
  { readOk := true, samples := [], fBeamAngle := 0, fBeamAngleConfidence := 0 }

/-- The state after the constructor and one read of forty silent samples that came with
the given beam angle and confidence. -/
noncomputable def stateWithBeam (fBeamAngle fBeamAngleConfidence : ℝ) : State :=
  ingest (construct 0 0) (List.replicate 40 0) fBeamAngle fBeamAngleConfidence

/-- The window as the modular-index reading of the specification defines it: element `j`
is the buffer element at `(readCursor - N_disp + j) mod N_hist`. -/
def windowSpec (fEnergyBuffer : List ℝ) (readCursor : ℤ) : List ℝ :=
  (List.range cEnergySamplesToDisplay.toNat).map fun (j : ℕ) =>
    fEnergyBuffer.getD
      ((readCursor - cEnergySamplesToDisplay + (j : ℤ)) % cEnergyBufferLength).toNat 0

/-- The number of positions a refresh at tick count `now` moves the read cursor: that many
as `energySamplesToAdvance` says when the advancing block runs, none when `Update` returns
early or skips the block. -/
noncomputable def advanceInt (s : State) (now : ℕ) : ℤ :=
  if 0 < s.m_nNewEnergyAvailable ∧ s.m_nLastEnergyRefreshTime ≠ 0 then
    energySamplesToAdvance s now
  else 0

/-- The facts that hold of every state the program reaches. -/
structure Inv (s : State) : Prop where
  error_nonneg : 0 ≤ s.m_fEnergyError
  count_nonneg : 0 ≤ s.m_nAccumulatedSampleCount
  count_lt : s.m_nAccumulatedSampleCount < cAudioSamplesPerEnergySample
  index_nonneg : 0 ≤ s.m_nEnergyIndex
  index_lt : s.m_nEnergyIndex < cEnergyBufferLength
  refresh_nonneg : 0 ≤ s.m_nEnergyRefreshIndex
  refresh_lt : s.m_nEnergyRefreshIndex < cEnergyBufferLength
  available_nonneg : 0 ≤ s.m_nNewEnergyAvailable
  ring : (s.m_nEnergyRefreshIndex + s.m_nNewEnergyAvailable) % cEnergyBufferLength
    = s.m_nEnergyIndex
  buffer_length : s.m_fEnergyBuffer.length = cEnergyBufferLength.toNat
  display_length : s.m_fEnergyDisplayBuffer.length = cEnergySamplesToDisplay.toNat

/-- The constructed state after a first refresh at tick count 5. -/
def stateFirstRefresh : State :=
  { construct 0 0 with m_nLastEnergyRefreshTime := 5 }

/-- The state after a first refresh at tick count 5 and one read of forty silent samples:
one energy value is waiting to be displayed. -/
noncomputable def statePending : State :=
  ingest stateFirstRefresh (List.replicate 40 0) 0 0

/-- The state after the constructor and 39 silent samples: the next sample completes the
group. -/
def stateGroupAlmostFull : State :=
  { construct 0 0 with m_nAccumulatedSampleCount := 39 }

/-- A face result with both mouth corners at `x`, every call on it succeeding. -/
def faceResultAt (x : ℝ) : FaceFrameResult :=
  { boxOk := true, pointsOk := true, mouthCornerLeftX := x, mouthCornerRightX := x,
    rotationOk := true, propertiesOk := true }

/-- A face frame with a valid tracked face whose mouth corners are at `x`, every call on
it succeeding. -/
def faceFrameAt (x : ℝ) : FaceFrame :=
  { trackingIdValidOk := true, bFaceTracked := true, resultOk := true,
    pFaceFrameResult := some (faceResultAt x) }

/-- The `float` nearest to `10 * π / 180`, a beam angle of 10 degrees in radians. -/
noncomputable def beamTenDegrees : ℝ := 5856353 / 2 ^ 25

/-- The `float` nearest to `-5 * π / 180`, a beam angle of -5 degrees in radians. -/
noncomputable def beamMinusFiveDegrees : ℝ := -(5856353 / 2 ^ 26)

/-- One call on the energy members: a read of the audio stream, or a refresh. -/
inductive Call where
  | ingest (samples : List ℝ) (fBeamAngle fBeamAngleConfidence : ℝ)
  | refresh (now : ℕ)

/-- Runs a sequence of calls in order. Beside the state it keeps the total number of
positions the refreshes have moved the read cursor, counted as the drop of the number of
unread values over each refresh. -/
noncomputable def runCalls : List Call → State × ℤ → Option (State × ℤ)
  | [], p => some p
  | Call.ingest samples a c :: rest, p => runCalls rest (ingest p.1 samples a c, p.2)
  | Call.refresh now :: rest, p =>
    (Update p.1 now).bind fun s' =>
      runCalls rest (s', p.2 + (p.1.m_nNewEnergyAvailable - s'.m_nNewEnergyAvailable))

/-- The tick counts of the refreshes of a sequence of calls, in order. -/
def refreshTimes : List Call → List ℕ
  | [] => []
  | Call.ingest _ _ _ :: rest => refreshTimes rest
  | Call.refresh now :: rest => now :: refreshTimes rest

/-- The samples of the stream `xs` that go into group `k` when the accumulator already
holds `c` samples: the first `K - c` samples for group 0, then blocks of `K` = 40. -/
def groupSamples (c : ℕ) (xs : List ℝ) (k : ℕ) : List ℝ :=
  (xs.drop (40 * k - c)).take (40 * (k + 1) - c - (40 * k - c))

/-! ## `Update` with the 32-bit `int` operations made explicit

`Update` above takes `(int) energyToAdvance` as the truncation and the `int` sums as the
integers they denote, which is what the machine computes as long as every value fits an
`int`. The definitions below follow the machine beyond that. -/

/-- The `int` an arithmetic result `z` is stored as: `z` reduced modulo `2 ^ 32` into
`[-2 ^ 31, 2 ^ 31)`. -/
def wrapInt32 (z : ℤ) : ℤ := (z + 2 ^ 31) % 2 ^ 32 - 2 ^ 31

/-- The conversion `(int) x` of a `float` as the conversion instruction of x86 and x64
performs it: truncation toward zero, and `INT_MIN` when the truncated value does not fit
an `int`. -/
noncomputable def floatToInt32 (x : ℝ) : ℤ :=
  if -2 ^ 31 ≤ floatToInt x ∧ floatToInt x < 2 ^ 31 then floatToInt x else -2 ^ 31

/-- The value of `energySamplesToAdvance` (`FaceBasics.cpp` line 505) as an `int`. -/
noncomputable def energySamplesToAdvance32 (s : State) (now : ℕ) : ℤ :=
  min s.m_nNewEnergyAvailable (floatToInt32 (energyToAdvance s now))

/-- The block guarded by `previousRefreshTime != NULL` (`FaceBasics.cpp` lines 500-509)
with `int` arithmetic. -/
noncomputable def advanceRefreshIndex32 (s : State) (now : ℕ) : State :=
  { s with
    m_fEnergyError := energyToAdvance s now - (energySamplesToAdvance32 s now : ℝ)
    m_nEnergyRefreshIndex :=
      (wrapInt32 (s.m_nEnergyRefreshIndex + energySamplesToAdvance32 s now)).tmod
        cEnergyBufferLength
    m_nNewEnergyAvailable :=
      wrapInt32 (s.m_nNewEnergyAvailable - energySamplesToAdvance32 s now) }

/-- The energy section of `CFaceBasics::Update` (`FaceBasics.cpp` lines 486-527) with `int`
arithmetic. -/
noncomputable def Update32 (s : State) (now : ℕ) : Option State :=
  let previousRefreshTime := s.m_nLastEnergyRefreshTime
  let s1 : State := { s with m_nLastEnergyRefreshTime := now }
  if s.m_nNewEnergyAvailable ≤ 0 then some s1
  else
    let s2 : State :=
      if previousRefreshTime ≠ 0 then
        { advanceRefreshIndex32 s now with m_nLastEnergyRefreshTime := now }
      else s1
    (copyEnergyWindow s2.m_fEnergyDisplayBuffer s2.m_fEnergyBuffer
      s2.m_nEnergyRefreshIndex).map
      fun d => { s2 with m_fEnergyDisplayBuffer := d }

/-- The number of positions a refresh at tick count `now` moves the read cursor, as an
`int`: `energySamplesToAdvance` when the advancing block runs, 0 otherwise. -/
noncomputable def advanceInt32 (s : State) (now : ℕ) : ℤ :=
  if 0 < s.m_nNewEnergyAvailable ∧ s.m_nLastEnergyRefreshTime ≠ 0 then
    energySamplesToAdvance32 s now
  else 0

/-- No `int` overflows in a refresh at tick count `now`: when the advancing block runs, the
advance wanted is below `2 ^ 31`, so that `(int) energyToAdvance` is its truncation, and
so is the sum `m_nEnergyRefreshIndex + energySamplesToAdvance`. -/
def refreshInRange (s : State) (now : ℕ) : Prop :=
  0 < s.m_nNewEnergyAvailable → s.m_nLastEnergyRefreshTime ≠ 0 →
    energyToAdvance s now < 2 ^ 31
      ∧ s.m_nEnergyRefreshIndex + min s.m_nNewEnergyAvailable ⌊energyToAdvance s now⌋
          < 2 ^ 31

/-- The states the program reaches from the constructed one by reads of the audio stream
and by refreshes whose tick counts do not decrease, as long as no `int` overflows: the
number of unread values stays below `2 ^ 31` and each refresh is in range. -/
inductive Reachable32 : State → Prop where
  | construct (fBeamAngle fBeamAngleConfidence : ℝ) :
      Reachable32 (construct fBeamAngle fBeamAngleConfidence)
  | ingest {s : State} (samples : List ℝ) (fBeamAngle fBeamAngleConfidence : ℝ) :
      Reachable32 s →
      (ingest s samples fBeamAngle fBeamAngleConfidence).m_nNewEnergyAvailable < 2 ^ 31 →
      Reachable32 (ingest s samples fBeamAngle fBeamAngleConfidence)
  | refresh {s s' : State} (now : ℕ) :
      Reachable32 s → s.m_nLastEnergyRefreshTime ≤ now → now < 2 ^ 64 →
      refreshInRange s now → Update32 s now = some s' → Reachable32 s'

/-! ## The energy computation in `float` arithmetic

`ingestSample` above takes the squares, the sums, the quotients and the logarithm as the
reals they denote. The definitions below follow the `float` operations of the code, each
rounding its result. `log10f` stands for the `float` logarithm `log10` of the C library,
whose last digit the language does not fix. -/

theorem roundNearestEven_spec (z : ℝ) :
    |z - roundNearestEven z| ≤ 1 / 2
      ∧ (|z - roundNearestEven z| = 1 / 2 → roundNearestEven z % 2 = 0) := by
  have h1 := Int.floor_le z
  have h2 := Int.lt_floor_add_one z
  unfold roundNearestEven
  split_ifs with ha hb hc
  · refine ⟨by rw [abs_le]; constructor <;> linarith, fun h => ?_⟩
    rw [abs_of_nonneg (by linarith)] at h
    linarith
  · push_cast
    refine ⟨by rw [abs_le]; constructor <;> linarith, fun h => ?_⟩
    rw [abs_of_nonpos (by linarith)] at h
    linarith
  · exact ⟨by rw [abs_le]; constructor <;> linarith, fun _ => hc⟩
  · push_cast
    refine ⟨by rw [abs_le]; constructor <;> linarith, fun _ => ?_⟩
    omega

theorem roundNearestEven_unique (z : ℝ) (n : ℤ) (h : |z - n| ≤ 1 / 2)
    (he : |z - n| = 1 / 2 → n % 2 = 0) : roundNearestEven z = n := by
  obtain ⟨s1, s2⟩ := roundNearestEven_spec z
  rw [abs_le] at h s1
  by_contra hne
  have hlt : ((roundNearestEven z : ℤ) : ℝ) - n ≤ 1 := by linarith
  have hgt : (n : ℝ) - (roundNearestEven z : ℤ) ≤ 1 := by linarith
  have hlt' : roundNearestEven z - n ≤ 1 := by exact_mod_cast hlt
  have hgt' : n - roundNearestEven z ≤ 1 := by exact_mod_cast hgt
  rcases (by omega : roundNearestEven z = n + 1 ∨ n = roundNearestEven z + 1) with hc | hc
  · have hr : ((roundNearestEven z : ℤ) : ℝ) = n + 1 := by exact_mod_cast hc
    have e1 : z - n = 1 / 2 := by linarith
    have e2 : z - (roundNearestEven z : ℤ) = -(1 / 2) := by linarith
    have p1 := he (by rw [e1]; norm_num)
    have p2 := s2 (by rw [e2]; norm_num)
    omega
  · have hr : (n : ℝ) = (roundNearestEven z : ℤ) + 1 := by exact_mod_cast hc
    have e1 : z - n = -(1 / 2) := by linarith
    have e2 : z - (roundNearestEven z : ℤ) = 1 / 2 := by linarith
    have p1 := he (by rw [e1]; norm_num)
    have p2 := s2 (by rw [e2]; norm_num)
    omega

theorem roundNearestEven_of_lt (z : ℝ) (n : ℤ) (h : |z - n| < 1 / 2) :
    roundNearestEven z = n :=
  roundNearestEven_unique z n (le_of_lt h) (fun he => absurd he (ne_of_lt h))

theorem roundNearestEven_intCast (n : ℤ) : roundNearestEven (n : ℝ) = n :=
  roundNearestEven_of_lt _ n (by simp)

theorem roundNearestEven_neg (z : ℝ) : roundNearestEven (-z) = -roundNearestEven z := by
  obtain ⟨s1, s2⟩ := roundNearestEven_spec z
  have e : |(-z) - ((-roundNearestEven z : ℤ) : ℝ)| = |z - (roundNearestEven z : ℤ)| := by
    push_cast
    rw [← abs_neg]
    congr 1
    ring
  refine roundNearestEven_unique (-z) (-roundNearestEven z) (by rw [e]; exact s1) ?_
  intro h
  rw [e] at h
  have := s2 h
  omega

theorem roundNearestEven_mono (z w : ℝ) (h : z ≤ w) :
    roundNearestEven z ≤ roundNearestEven w := by
  obtain ⟨s1, s2⟩ := roundNearestEven_spec z
  obtain ⟨t1, t2⟩ := roundNearestEven_spec w
  by_contra hlt
  have hlt' : roundNearestEven w + 1 ≤ roundNearestEven z := by omega
  have hr : ((roundNearestEven w : ℤ) : ℝ) + 1 ≤ (roundNearestEven z : ℤ) := by
    exact_mod_cast hlt'
  have s1' := abs_le.mp s1
  have t1' := abs_le.mp t1
  have e1 : z - (roundNearestEven z : ℤ) = -(1 / 2) := by linarith
  have e2 : w - (roundNearestEven w : ℤ) = 1 / 2 := by linarith
  have hr2 : ((roundNearestEven z : ℤ) : ℝ) ≤ (roundNearestEven w : ℤ) + 1 := by linarith
  have hr2' : roundNearestEven z ≤ roundNearestEven w + 1 := by exact_mod_cast hr2
  have p1 := s2 (by rw [e1]; norm_num)
  have p2 := t2 (by rw [e2]; norm_num)
  omega

theorem two_zpow_pos (e : ℤ) : (0 : ℝ) < 2 ^ e := zpow_pos (by norm_num) e

theorem log_two_eq (r : ℝ) (L : ℤ) (h0 : (2 : ℝ) ^ L ≤ r) (h1 : r < 2 ^ (L + 1)) :
    Int.log 2 r = L := by
  have hr : 0 < r := lt_of_lt_of_le (two_zpow_pos L) h0
  have a := (Int.zpow_le_iff_le_log (by norm_num : 1 < 2) hr).mp (by exact_mod_cast h0)
  have b := (Int.lt_zpow_iff_log_lt (by norm_num : 1 < 2) hr).mp (by exact_mod_cast h1)
  omega

theorem log_two_bounds (r : ℝ) (hr : 0 < r) :
    (2 : ℝ) ^ Int.log 2 r ≤ r ∧ r < 2 ^ (Int.log 2 r + 1) := by
  have a := Int.zpow_log_le_self (by norm_num : 1 < 2) hr
  have b := Int.lt_zpow_succ_log_self (by norm_num : 1 < 2) r
  exact ⟨by exact_mod_cast a, by exact_mod_cast b⟩

theorem roundFloat_zero (p : ℕ) (emin : ℤ) : roundFloat p emin 0 = 0 := by
  unfold roundFloat
  rw [zero_div]
  have h := roundNearestEven_intCast 0
  simp only [Int.cast_zero] at h
  rw [h]
  simp

theorem ulpExponent_neg (p : ℕ) (emin : ℤ) (x : ℝ) :
    ulpExponent p emin (-x) = ulpExponent p emin x := by
  unfold ulpExponent
  rw [abs_neg]

theorem roundFloat_neg (p : ℕ) (emin : ℤ) (x : ℝ) :
    roundFloat p emin (-x) = -roundFloat p emin x := by
  unfold roundFloat
  rw [ulpExponent_neg, neg_div, roundNearestEven_neg]
  push_cast
  ring

theorem roundFloat_nonneg (p : ℕ) (emin : ℤ) (x : ℝ) (h : 0 ≤ x) : 0 ≤ roundFloat p emin x := by
  unfold roundFloat
  have hp := two_zpow_pos (ulpExponent p emin x)
  have h0 : roundNearestEven 0 ≤ roundNearestEven (x / 2 ^ ulpExponent p emin x) :=
    roundNearestEven_mono _ _ (div_nonneg h (le_of_lt hp))
  have hz := roundNearestEven_intCast 0
  simp only [Int.cast_zero] at hz
  rw [hz] at h0
  have : (0 : ℝ) ≤ (roundNearestEven (x / 2 ^ ulpExponent p emin x) : ℤ) := by
    exact_mod_cast h0
  positivity

theorem roundFloat_nonpos (p : ℕ) (emin : ℤ) (x : ℝ) (h : x ≤ 0) : roundFloat p emin x ≤ 0 := by
  have h1 := roundFloat_nonneg p emin (-x) (by linarith)
  rw [roundFloat_neg] at h1
  linarith

theorem two_zpow_eq_intCast (n : ℤ) (hn : 0 ≤ n) :
    (2 : ℝ) ^ n = (((2 : ℤ) ^ n.toNat : ℤ) : ℝ) := by
  obtain ⟨m, rfl⟩ := Int.eq_ofNat_of_zero_le hn
  simp

/-- The rounding error is at most half a unit in the last place. -/
theorem roundFloat_error (p : ℕ) (emin : ℤ) (x : ℝ) :
    |roundFloat p emin x - x| ≤ 2 ^ ulpExponent p emin x / 2 := by
  have hp := two_zpow_pos (ulpExponent p emin x)
  obtain ⟨s1, _⟩ := roundNearestEven_spec (x / 2 ^ ulpExponent p emin x)
  unfold roundFloat
  have e : (roundNearestEven (x / 2 ^ ulpExponent p emin x) : ℝ) * 2 ^ ulpExponent p emin x - x
      = -(x / 2 ^ ulpExponent p emin x - roundNearestEven (x / 2 ^ ulpExponent p emin x))
        * 2 ^ ulpExponent p emin x := by
    field_simp
    ring
  rw [e, abs_mul, abs_neg, abs_of_pos hp]
  nlinarith

/-- The rounding error is at most the relative error `2 ^ -p` plus half the least
subnormal number. -/
theorem roundFloat_error_le (p : ℕ) (emin : ℤ) (x : ℝ) :
    |roundFloat p emin x - x| ≤ |x| * 2 ^ (-(p : ℤ)) + 2 ^ (emin - (p : ℤ)) := by
  by_cases hx : x = 0
  · rw [hx, roundFloat_zero]
    simp only [sub_zero, abs_zero, zero_mul, zero_add]
    exact le_of_lt (two_zpow_pos _)
  have hpos : 0 < |x| := abs_pos.mpr hx
  obtain ⟨b1, _⟩ := log_two_bounds |x| hpos
  have herr := roundFloat_error p emin x
  have h2 : (2 : ℝ) ≠ 0 := by norm_num
  have hpp := two_zpow_pos (-(p : ℤ))
  have hsplit : (2 : ℝ) ^ ulpExponent p emin x / 2
      = 2 ^ max (Int.log 2 |x|) emin * 2 ^ (-(p : ℤ)) := by
    unfold ulpExponent
    rw [show max (Int.log 2 |x|) emin - ((p : ℤ) - 1)
        = max (Int.log 2 |x|) emin + -(p : ℤ) + 1 by ring, zpow_add₀ h2, zpow_add₀ h2, zpow_one]
    ring
  rw [hsplit] at herr
  rcases le_total emin (Int.log 2 |x|) with hle | hle
  · rw [max_eq_left hle] at herr
    have : (2 : ℝ) ^ Int.log 2 |x| * 2 ^ (-(p : ℤ)) ≤ |x| * 2 ^ (-(p : ℤ)) :=
      mul_le_mul_of_nonneg_right b1 (le_of_lt hpp)
    have := two_zpow_pos (emin - (p : ℤ))
    linarith
  · rw [max_eq_right hle, ← zpow_add₀ h2] at herr
    have : (0 : ℝ) ≤ |x| * 2 ^ (-(p : ℤ)) := by positivity
    rw [show emin + -(p : ℤ) = emin - (p : ℤ) by ring] at herr
    linarith

/-- Evaluation of a rounding: `x` lies in the binade of `2 ^ L` and `n` is the integer
nearest to `x` in units of the last place `sc`. -/
theorem roundFloat_eq (p : ℕ) (emin : ℤ) (x : ℝ) (L n : ℤ) (sc : ℝ) (h0 : 2 ^ L ≤ |x|)
    (h1 : |x| < 2 ^ (L + 1)) (hL : emin ≤ L) (hsc : (2 : ℝ) ^ (L - ((p : ℤ) - 1)) = sc)
    (hn : |x / sc - n| < 1 / 2) : roundFloat p emin x = n * sc := by
  have hlog := log_two_eq |x| L h0 h1
  unfold roundFloat ulpExponent
  rw [hlog, max_eq_left hL, hsc, roundNearestEven_of_lt _ n hn]

/-- Evaluation of a rounding at a tie or next to an even integer: `n` is even and at most
half a unit in the last place away from `x`. -/
theorem roundFloat_eq_of_even (p : ℕ) (emin : ℤ) (x : ℝ) (L n : ℤ) (sc : ℝ) (h0 : 2 ^ L ≤ |x|)
    (h1 : |x| < 2 ^ (L + 1)) (hL : emin ≤ L) (hsc : (2 : ℝ) ^ (L - ((p : ℤ) - 1)) = sc)
    (hn : |x / sc - n| ≤ 1 / 2) (he : n % 2 = 0) : roundFloat p emin x = n * sc := by
  have hlog := log_two_eq |x| L h0 h1
  unfold roundFloat ulpExponent
  rw [hlog, max_eq_left hL, hsc, roundNearestEven_unique _ n hn (fun _ => he)]

/-- A number with at most `p` digits above the least exponent is its own rounding. -/
theorem roundFloat_of_representable (p : ℕ) (emin : ℤ) (M k : ℤ) (hM : |M| < 2 ^ p)
    (hk : emin - ((p : ℤ) - 1) ≤ k) : roundFloat p emin (M * 2 ^ k) = M * 2 ^ k := by
  by_cases hM0 : M = 0
  · rw [hM0]
    simp only [Int.cast_zero, zero_mul]
    exact roundFloat_zero p emin
  have h2 : (2 : ℝ) ≠ 0 := by norm_num
  have hk0 := two_zpow_pos k
  have hMr : |(M : ℝ)| < 2 ^ (p : ℤ) := by
    have : ((|M| : ℤ) : ℝ) < ((2 ^ p : ℤ) : ℝ) := by exact_mod_cast hM
    rw [Int.cast_abs] at this
    rw [zpow_natCast]
    exact_mod_cast this
  have habs : |(M : ℝ) * 2 ^ k| < 2 ^ ((p : ℤ) + k) := by
    rw [abs_mul, abs_of_pos hk0, zpow_add₀ h2]
    exact mul_lt_mul_of_pos_right hMr hk0
  have hpos : 0 < |(M : ℝ) * 2 ^ k| := by
    apply abs_pos.mpr
    have : (M : ℝ) ≠ 0 := by exact_mod_cast hM0
    positivity
  have hlog := (Int.lt_zpow_iff_log_lt (by norm_num : 1 < 2) hpos).mp (by exact_mod_cast habs)
  have he : ulpExponent p emin ((M : ℝ) * 2 ^ k) ≤ k := by
    unfold ulpExponent
    rcases max_cases (Int.log 2 |(M : ℝ) * 2 ^ k|) emin with ⟨hm, _⟩ | ⟨hm, _⟩ <;>
      rw [hm] <;> omega
  unfold roundFloat
  have hd : (M : ℝ) * 2 ^ k / 2 ^ ulpExponent p emin ((M : ℝ) * 2 ^ k)
      = ((M * 2 ^ (k - ulpExponent p emin ((M : ℝ) * 2 ^ k)).toNat : ℤ) : ℝ) := by
    push_cast
    rw [mul_div_assoc, ← zpow_sub₀ h2, two_zpow_eq_intCast _ (by omega)]
    push_cast
    rfl
  rw [hd, roundNearestEven_intCast, ← hd]
  field_simp

/-- A number below half the least subnormal number rounds to 0. -/
theorem roundFloat_of_tiny (p : ℕ) (emin : ℤ) (x : ℝ) (h : |x| < 2 ^ (emin - (p : ℤ))) :
    roundFloat p emin x = 0 := by
  by_cases hx : x = 0
  · rw [hx]
    exact roundFloat_zero p emin
  have hpos : 0 < |x| := abs_pos.mpr hx
  have h2 : (2 : ℝ) ≠ 0 := by norm_num
  have hlt : |x| < 2 ^ (emin + 1) := by
    refine lt_of_lt_of_le h ?_
    exact zpow_le_zpow_right₀ (by norm_num) (by omega)
  have hlog := (Int.lt_zpow_iff_log_lt (by norm_num : 1 < 2) hpos).mp (by exact_mod_cast hlt)
  have he : ulpExponent p emin x = emin - (p : ℤ) + 1 := by
    unfold ulpExponent
    rw [max_eq_right (by omega)]
    ring
  unfold roundFloat
  rw [he]
  have hsc := two_zpow_pos (emin - (p : ℤ) + 1)
  have hr : roundNearestEven (x / 2 ^ (emin - (p : ℤ) + 1)) = 0 := by
    apply roundNearestEven_of_lt
    simp only [Int.cast_zero, sub_zero]
    rw [abs_div, abs_of_pos hsc, div_lt_iff₀ hsc, zpow_add₀ h2, zpow_one]
    linarith
  rw [hr]
  simp

theorem roundFloat_le_of_grid (p : ℕ) (emin : ℤ) (x : ℝ) (N : ℤ)
    (h : x ≤ N * 2 ^ ulpExponent p emin x) :
    roundFloat p emin x ≤ N * 2 ^ ulpExponent p emin x := by
  have hp := two_zpow_pos (ulpExponent p emin x)
  have h1 : x / 2 ^ ulpExponent p emin x ≤ N := by
    rw [div_le_iff₀ hp]
    exact h
  have h2 := roundNearestEven_mono _ _ h1
  rw [roundNearestEven_intCast] at h2
  have h3 : ((roundNearestEven (x / 2 ^ ulpExponent p emin x) : ℤ) : ℝ) ≤ N := by
    exact_mod_cast h2
  unfold roundFloat
  exact mul_le_mul_of_nonneg_right h3 (le_of_lt hp)

theorem roundFloat_ge_of_grid (p : ℕ) (emin : ℤ) (x : ℝ) (N : ℤ)
    (h : N * 2 ^ ulpExponent p emin x ≤ x) :
    N * 2 ^ ulpExponent p emin x ≤ roundFloat p emin x := by
  have hp := two_zpow_pos (ulpExponent p emin x)
  have h1 : (N : ℝ) ≤ x / 2 ^ ulpExponent p emin x := by
    rw [le_div_iff₀ hp]
    exact h
  have h2 := roundNearestEven_mono _ _ h1
  rw [roundNearestEven_intCast] at h2
  have h3 : (N : ℝ) ≤ ((roundNearestEven (x / 2 ^ ulpExponent p emin x) : ℤ) : ℝ) := by
    exact_mod_cast h2
  unfold roundFloat
  exact mul_le_mul_of_nonneg_right h3 (le_of_lt hp)

theorem roundFloat_mono_of_pos (p : ℕ) (emin : ℤ) (hp1 : 1 ≤ p) (x y : ℝ) (hx : 0 < x)
    (h : x ≤ y) : roundFloat p emin x ≤ roundFloat p emin y := by
  have hy : 0 < y := lt_of_lt_of_le hx h
  have h2 : (2 : ℝ) ≠ 0 := by norm_num
  have hax : |x| = x := abs_of_pos hx
  have hay : |y| = y := abs_of_pos hy
  have hlog : Int.log 2 |x| ≤ Int.log 2 |y| :=
    Int.log_mono_right (by rw [hax]; exact hx) (by rw [hax, hay]; exact h)
  obtain ⟨_, bx⟩ := log_two_bounds |x| (by rw [hax]; exact hx)
  obtain ⟨byy, _⟩ := log_two_bounds |y| (by rw [hay]; exact hy)
  have bx1 : x < 2 ^ (Int.log 2 |x| + 1) := lt_of_le_of_lt (le_abs_self x) bx
  have by0 : (2 : ℝ) ^ Int.log 2 |y| ≤ y := le_of_le_of_eq byy hay
  by_cases he : ulpExponent p emin x = ulpExponent p emin y
  · have hp := two_zpow_pos (ulpExponent p emin y)
    have h1 := roundNearestEven_mono (x / 2 ^ ulpExponent p emin y)
      (y / 2 ^ ulpExponent p emin y) (div_le_div_of_nonneg_right h (le_of_lt hp))
    have h3 : ((roundNearestEven (x / 2 ^ ulpExponent p emin y) : ℤ) : ℝ)
        ≤ ((roundNearestEven (y / 2 ^ ulpExponent p emin y) : ℤ) : ℝ) := by
      exact_mod_cast h1
    unfold roundFloat
    rw [he]
    exact mul_le_mul_of_nonneg_right h3 (le_of_lt hp)
  · have hcases : emin ≤ Int.log 2 |y| ∧ Int.log 2 |x| < Int.log 2 |y|
        ∧ ulpExponent p emin y = Int.log 2 |y| - ((p : ℤ) - 1)
        ∧ ulpExponent p emin x ≤ Int.log 2 |y| := by
      unfold ulpExponent at he ⊢
      rcases max_cases (Int.log 2 |x|) emin with ⟨hm, _⟩ | ⟨hm, _⟩ <;>
        rcases max_cases (Int.log 2 |y|) emin with ⟨hn, _⟩ | ⟨hn, _⟩ <;>
        rw [hm, hn] at he <;> rw [hm, hn] <;> omega
    obtain ⟨_, hlt, hey, hex⟩ := hcases
    have hxP : x ≤ 2 ^ Int.log 2 |y| :=
      le_trans (le_of_lt bx1) (zpow_le_zpow_right₀ (by norm_num) (by omega))
    have hPx : (2 : ℝ) ^ Int.log 2 |y|
        = (((2 : ℤ) ^ (Int.log 2 |y| - ulpExponent p emin x).toNat : ℤ) : ℝ)
          * 2 ^ ulpExponent p emin x := by
      rw [← two_zpow_eq_intCast _ (by omega), ← zpow_add₀ h2]
      congr 1
      ring
    have hPy : (2 : ℝ) ^ Int.log 2 |y|
        = (((2 : ℤ) ^ ((p : ℤ) - 1).toNat : ℤ) : ℝ) * 2 ^ ulpExponent p emin y := by
      rw [← two_zpow_eq_intCast _ (by omega), ← zpow_add₀ h2, hey]
      congr 1
      ring
    have a := roundFloat_le_of_grid p emin x _ (by rw [← hPx]; exact hxP)
    have b := roundFloat_ge_of_grid p emin y _ (by rw [← hPy]; exact by0)
    rw [← hPx] at a
    rw [← hPy] at b
    exact le_trans a b

/-- Rounding is monotone. -/
theorem roundFloat_mono (p : ℕ) (emin : ℤ) (hp1 : 1 ≤ p) (x y : ℝ) (h : x ≤ y) :
    roundFloat p emin x ≤ roundFloat p emin y := by
  rcases lt_trichotomy 0 x with hx | hx | hx
  · exact roundFloat_mono_of_pos p emin hp1 x y hx h
  · rw [← hx, roundFloat_zero]
    exact roundFloat_nonneg p emin y (hx ▸ h)
  · rcases le_or_lt 0 y with hy | hy
    · exact le_trans (roundFloat_nonpos p emin x (le_of_lt hx)) (roundFloat_nonneg p emin y hy)
    · have hm := roundFloat_mono_of_pos p emin hp1 (-y) (-x) (by linarith) (by linarith)
      rw [roundFloat_neg, roundFloat_neg] at hm
      linarith

theorem toFloat_mono (x y : ℝ) (h : x ≤ y) : toFloat x ≤ toFloat y :=
  roundFloat_mono 24 (-126) (by norm_num) x y h

theorem toDouble_mono (x y : ℝ) (h : x ≤ y) : toDouble x ≤ toDouble y :=
  roundFloat_mono 53 (-1022) (by norm_num) x y h

theorem toFloat_zero : toFloat 0 = 0 := roundFloat_zero 24 (-126)

theorem toDouble_zero : toDouble 0 = 0 := roundFloat_zero 53 (-1022)

/-- An integer below `2 ^ 24` in size is a `float`. -/
theorem toFloat_intCast (n : ℤ) (h : |n| < 2 ^ 24) : toFloat (n : ℝ) = n := by
  have := roundFloat_of_representable 24 (-126) n 0 h (by norm_num)
  simpa using this

/-- An integer below `2 ^ 53` in size is a `double`. -/
theorem toDouble_intCast (n : ℤ) (h : |n| < 2 ^ 53) : toDouble (n : ℝ) = n := by
  have := roundFloat_of_representable 53 (-1022) n 0 h (by norm_num)
  simpa using this

/-! ## Lemmas on the sample loop -/

theorem ingest_nil (s : State) (a c : ℝ) : ingest s [] a c = s := rfl

theorem ingest_cons (s : State) (x : ℝ) (xs : List ℝ) (a c : ℝ) :
    ingest s (x :: xs) a c = ingest (ingestSample a c s x) xs a c := rfl

theorem ingest_append (s : State) (xs ys : List ℝ) (a c : ℝ) :
    ingest s (xs ++ ys) a c = ingest (ingest s xs a c) ys a c := by
  simp [ingest, List.foldl_append]

theorem foldl_sq_acc (xs : List ℝ) (z : ℝ) :
    xs.foldl (fun acc x => acc + x * x) z = z + sumSquares xs := by
  induction xs generalizing z with
  | nil => simp [sumSquares]
  | cons x xs ih =>
    simp only [sumSquares, List.foldl_cons]
    rw [ih (z + x * x), ih (0 + x * x)]
    ring

theorem sumSquares_cons (x : ℝ) (xs : List ℝ) :
    sumSquares (x :: xs) = x * x + sumSquares xs := by
  have h : sumSquares (x :: xs) = xs.foldl (fun acc x => acc + x * x) (0 + x * x) := rfl
  rw [h, foldl_sq_acc]
  ring

theorem sumSquares_nonneg (xs : List ℝ) : 0 ≤ sumSquares xs := by
  induction xs with
  | nil => simp [sumSquares]
  | cons x xs ih =>
    rw [sumSquares_cons]
    have := mul_self_nonneg x
    linarith

/-- While the group is incomplete the loop only accumulates. -/
theorem ingestSample_accumulate (a c : ℝ) (s : State) (x : ℝ)
    (h : s.m_nAccumulatedSampleCount + 1 < cAudioSamplesPerEnergySample) :
    ingestSample a c s x =
      { s with
        m_fAccumulatedSquareSum := s.m_fAccumulatedSquareSum + x * x
        m_nAccumulatedSampleCount := s.m_nAccumulatedSampleCount + 1 } := by
  simp [ingestSample, h]

/-- The sample that completes a group emits one energy value. -/
theorem ingestSample_emit (a c : ℝ) (s : State) (x : ℝ)
    (h : ¬ s.m_nAccumulatedSampleCount + 1 < cAudioSamplesPerEnergySample) :
    ingestSample a c s x =
      { s with
        m_fBeamAngle := a
        m_fBeamAngleConfidence := c
        m_fEnergyBuffer :=
          s.m_fEnergyBuffer.set s.m_nEnergyIndex.toNat
            (energyDisplay (s.m_fAccumulatedSquareSum + x * x))
        m_nNewEnergyAvailable := s.m_nNewEnergyAvailable + 1
        m_nEnergyIndex := (s.m_nEnergyIndex + 1).tmod cEnergyBufferLength
        m_fAccumulatedSquareSum := 0
        m_nAccumulatedSampleCount := 0 } := by
  simp [ingestSample, h]

/-- A run of samples that completes the group in progress with its last sample: one
energy value is emitted, computed from all the squares accumulated. -/
theorem ingest_complete_group (a c : ℝ) (xs : List ℝ) (s : State)
    (hpos : xs ≠ [])
    (h : s.m_nAccumulatedSampleCount + xs.length = cAudioSamplesPerEnergySample) :
    ingest s xs a c =
      { s with
        m_fBeamAngle := a
        m_fBeamAngleConfidence := c
        m_fEnergyBuffer :=
          s.m_fEnergyBuffer.set s.m_nEnergyIndex.toNat
            (energyDisplay (s.m_fAccumulatedSquareSum + sumSquares xs))
        m_nNewEnergyAvailable := s.m_nNewEnergyAvailable + 1
        m_nEnergyIndex := (s.m_nEnergyIndex + 1).tmod cEnergyBufferLength
        m_fAccumulatedSquareSum := 0
        m_nAccumulatedSampleCount := 0 } := by
  induction xs generalizing s with
  | nil => exact absurd rfl hpos
  | cons x xs ih =>
    rw [ingest_cons]
    by_cases hxs : xs = []
    · subst hxs
      have hc : ¬ s.m_nAccumulatedSampleCount + 1 < cAudioSamplesPerEnergySample := by
        simp only [List.length_cons, List.length_nil] at h
        push_cast at h
        omega
      rw [ingest_nil, ingestSample_emit a c s x hc, sumSquares_cons]
      simp [sumSquares]
    · have hlen : 0 < xs.length := List.length_pos.mpr hxs
      have hc : s.m_nAccumulatedSampleCount + 1 < cAudioSamplesPerEnergySample := by
        simp only [List.length_cons] at h
        push_cast at h
        omega
      rw [ingestSample_accumulate a c s x hc, ih _ hxs, sumSquares_cons]
      · simp only [add_assoc]
      · simp only [List.length_cons] at h
        push_cast at h
        simp only
        omega

theorem sumSquares_replicate (n : ℕ) (x : ℝ) :
    sumSquares (List.replicate n x) = n * (x * x) := by
  induction n with
  | zero => simp [sumSquares]
  | succ n ih =>
    rw [List.replicate_succ, sumSquares_cons, ih]
    push_cast
    ring

/-! ## Lemmas on the energy computation -/

theorem meanSquare_le_one (S : ℝ) : meanSquare S ≤ 1 := by
  unfold meanSquare
  simp only
  split_ifs with h
  · exact le_refl 1
  · exact not_lt.mp h

theorem meanSquare_of_le_one (S : ℝ) (h : S / 40 ≤ 1) : meanSquare S = S / 40 := by
  unfold meanSquare cAudioSamplesPerEnergySample
  simp only [Int.cast_ofNat]
  rw [if_neg (not_lt.mpr h)]

theorem meanSquare_of_one_le (S : ℝ) (h : 1 ≤ S / 40) : meanSquare S = 1 := by
  unfold meanSquare cAudioSamplesPerEnergySample
  simp only [Int.cast_ofNat]
  split_ifs with h1
  · rfl
  · exact le_antisymm (not_lt.mp h1) h

theorem energyDisplay_of_pos (S : ℝ) (h : 0 < meanSquare S) :
    energyDisplay S = 1 + Real.logb 10 (meanSquare S) / 9 := by
  unfold energyDisplay energyDb cMinEnergy
  rw [if_pos h]
  push_cast
  ring

theorem energyDisplay_of_nonpos (S : ℝ) (h : ¬ 0 < meanSquare S) : energyDisplay S = 0 := by
  unfold energyDisplay energyDb cMinEnergy
  rw [if_neg h]
  simp

theorem energyDisplay_le_one (S : ℝ) : energyDisplay S ≤ 1 := by
  by_cases h : 0 < meanSquare S
  · rw [energyDisplay_of_pos S h]
    have := Real.logb_nonpos (by norm_num : (1 : ℝ) < 10) h.le (meanSquare_le_one S)
    linarith
  · rw [energyDisplay_of_nonpos S h]
    exact zero_le_one

theorem ten_rpow_neg_nine : (10 : ℝ) ^ (-9 : ℝ) = 1 / 10 ^ 9 := by
  have h9 : (10 : ℝ) ^ (9 : ℝ) = 10 ^ 9 := by
    exact_mod_cast Real.rpow_natCast 10 9
  rw [Real.rpow_neg (by norm_num), h9]
  norm_num

/-- The stored value is not negative exactly from the noise floor `10 ^ -9` on. -/
theorem energyDisplay_nonneg_iff (S : ℝ) (h : 0 < meanSquare S) :
    0 ≤ energyDisplay S ↔ 1 / 10 ^ 9 ≤ meanSquare S := by
  rw [energyDisplay_of_pos S h, ← ten_rpow_neg_nine,
    ← Real.le_logb_iff_rpow_le (by norm_num : (1 : ℝ) < 10) h]
  constructor <;> intro h1 <;> linarith

theorem logb_ten_pow_neg_ten : Real.logb 10 (1 / 10 ^ 10) = -10 := by
  have h : (1 / 10 ^ 10 : ℝ) = (10 : ℝ) ^ (-10 : ℝ) := by
    have h10 : (10 : ℝ) ^ (10 : ℝ) = 10 ^ 10 := by
      exact_mod_cast Real.rpow_natCast 10 10
    rw [Real.rpow_neg (by norm_num), h10]
    norm_num
  rw [h, Real.logb_rpow (by norm_num) (by norm_num)]

/-! ## The range of the energy values -/

/-- C1, as amended: a group of 40 samples read into an empty accumulator stores the value
`energyDisplay` of its sum of squares at the write index; that value is at most 1, and it
is at least 0 when the mean square of the group is 0 or at least `10 ^ -9`. -/
theorem display_value_range (s : State) (group : List ℝ) (a c : ℝ)
    (hlen : group.length = 40)
    (hcount : s.m_nAccumulatedSampleCount = 0) (hsum : s.m_fAccumulatedSquareSum = 0)
    (hidx : 0 ≤ s.m_nEnergyIndex) (hbuf : s.m_nEnergyIndex < s.m_fEnergyBuffer.length) :
    (ingest s group a c).m_fEnergyBuffer[s.m_nEnergyIndex.toNat]?
        = some (energyDisplay (sumSquares group))
      ∧ energyDisplay (sumSquares group) ≤ 1.02
      ∧ energyDisplay (sumSquares group) ≤ 1
      ∧ (sumSquares group / 40 = 0 ∨ 1 / 10 ^ 9 ≤ sumSquares group / 40 →
          0 ≤ energyDisplay (sumSquares group)) := by
  have hne : group ≠ [] := by
    intro h0
    rw [h0] at hlen
    simp at hlen
  have hk : s.m_nAccumulatedSampleCount + group.length = cAudioSamplesPerEnergySample := by
    rw [hcount, hlen]
    rfl
  have hle := energyDisplay_le_one (sumSquares group)
  refine ⟨?_, by linarith, hle, ?_⟩
  · rw [ingest_complete_group a c group s hne hk, hsum, zero_add]
    simp only [List.getElem?_set, if_true]
    rw [if_pos]
    omega
  · intro hms
    by_cases hp : 0 < meanSquare (sumSquares group)
    · rw [energyDisplay_nonneg_iff _ hp]
      by_cases h1 : sumSquares group / 40 ≤ 1
      · rw [meanSquare_of_le_one _ h1] at hp ⊢
        rcases hms with h0 | h9
        · rw [h0] at hp
          exact absurd hp (lt_irrefl 0)
        · exact h9
      · rw [meanSquare_of_one_le _ (le_of_lt (not_le.mp h1))]
        norm_num
    · rw [energyDisplay_of_nonpos _ hp]

/-- C1, an instance: forty zero samples read into the constructed state. -/
theorem display_value_range_witness :
    (ingest (construct 0 0) (List.replicate 40 0) 0 0).m_fEnergyBuffer[Int.toNat
        (construct 0 0).m_nEnergyIndex]? = some (energyDisplay (sumSquares (List.replicate 40 0)))
      ∧ energyDisplay (sumSquares (List.replicate 40 0)) ≤ 1.02
      ∧ energyDisplay (sumSquares (List.replicate 40 0)) ≤ 1
      ∧ (sumSquares (List.replicate 40 0) / 40 = 0
            ∨ 1 / 10 ^ 9 ≤ sumSquares (List.replicate 40 0) / 40 →
          0 ≤ energyDisplay (sumSquares (List.replicate 40 0))) :=
  display_value_range (construct 0 0) (List.replicate 40 0) 0 0 (by simp) rfl rfl
    (by simp only [construct, le_refl])
    (by simp only [construct, List.length_replicate, cEnergyBufferLength]; decide)

/-- C1, as stated, fails: forty samples of amplitude `10 ^ -5` have mean square `10 ^ -10`,
below the noise floor, and the value stored for them is `-1/9`, outside `[0, 1.02]`. -/
theorem display_value_range_counterexample :
    (ingest (construct 0 0) (List.replicate 40 (1 / 100000)) 0 0).m_fEnergyBuffer[0]?
        = some (-1 / 9 : ℝ)
      ∧ ¬ ((0 : ℝ) ≤ -1 / 9 ∧ (-1 / 9 : ℝ) ≤ 1.02) := by
  constructor
  · have hk : (construct 0 0).m_nAccumulatedSampleCount
        + (List.replicate 40 (1 / 100000 : ℝ)).length = cAudioSamplesPerEnergySample := by
      simp [construct, cAudioSamplesPerEnergySample]
    rw [ingest_complete_group 0 0 _ (construct 0 0) (by simp) hk, sumSquares_replicate]
    have hS : (construct 0 0).m_fAccumulatedSquareSum
        + ((40 : ℕ) : ℝ) * (1 / 100000 * (1 / 100000)) = 40 * (1 / 10 ^ 10) := by
      simp only [construct]
      norm_num
    rw [hS]
    have hm : meanSquare (40 * (1 / 10 ^ 10)) = 1 / 10 ^ 10 := by
      rw [meanSquare_of_le_one _ (by norm_num)]
      norm_num
    have hd : energyDisplay (40 * (1 / 10 ^ 10)) = -1 / 9 := by
      rw [energyDisplay_of_pos _ (by rw [hm]; norm_num), hm, logb_ten_pow_neg_ten]
      norm_num
    rw [hd]
    simp only [construct, Int.toNat_zero, cEnergyBufferLength]
    rw [List.getElem?_set, if_pos rfl, if_pos (by rw [List.length_replicate]; decide)]
  · norm_num

/-! ## Values of the angle computation -/

/-- Evaluation of a rounding to `double` of a positive number. -/
theorem toDouble_eq_of_pos (x : ℝ) (L n : ℤ) (sc r : ℝ) (h0 : 2 ^ L ≤ x) (h1 : x < 2 ^ (L + 1))
    (hL : -1022 ≤ L) (hsc : (2 : ℝ) ^ (L - 52) = sc) (hn : |x / sc - n| < 1 / 2)
    (hr : (n : ℝ) * sc = r) : toDouble x = r := by
  have hx : |x| = x := abs_of_pos (lt_of_lt_of_le (two_zpow_pos L) h0)
  unfold toDouble
  rw [roundFloat_eq 53 (-1022) x L n sc (by rw [hx]; exact h0) (by rw [hx]; exact h1) hL
    (by rw [← hsc]; norm_num) hn, hr]

/-- Evaluation of a rounding to `float` of a positive number. -/
theorem toFloat_eq_of_pos (x : ℝ) (L n : ℤ) (sc r : ℝ) (h0 : 2 ^ L ≤ x) (h1 : x < 2 ^ (L + 1))
    (hL : -126 ≤ L) (hsc : (2 : ℝ) ^ (L - 23) = sc) (hn : |x / sc - n| < 1 / 2)
    (hr : (n : ℝ) * sc = r) : toFloat x = r := by
  have hx : |x| = x := abs_of_pos (lt_of_lt_of_le (two_zpow_pos L) h0)
  unfold toFloat
  rw [roundFloat_eq 24 (-126) x L n sc (by rw [hx]; exact h0) (by rw [hx]; exact h1) hL
    (by rw [← hsc]; norm_num) hn, hr]

/-- Evaluation of a rounding to `float` of a positive number at a tie. -/
theorem toFloat_eq_of_pos_of_even (x : ℝ) (L n : ℤ) (sc r : ℝ) (h0 : 2 ^ L ≤ x)
    (h1 : x < 2 ^ (L + 1)) (hL : -126 ≤ L) (hsc : (2 : ℝ) ^ (L - 23) = sc)
    (hn : |x / sc - n| ≤ 1 / 2) (he : n % 2 = 0) (hr : (n : ℝ) * sc = r) : toFloat x = r := by
  have hx : |x| = x := abs_of_pos (lt_of_lt_of_le (two_zpow_pos L) h0)
  unfold toFloat
  rw [roundFloat_eq_of_even 24 (-126) x L n sc (by rw [hx]; exact h0) (by rw [hx]; exact h1) hL
    (by rw [← hsc]; norm_num) hn he, hr]

theorem toDouble_neg (x : ℝ) : toDouble (-x) = -toDouble x := roundFloat_neg 53 (-1022) x

theorem toFloat_neg (x : ℝ) : toFloat (-x) = -toFloat x := roundFloat_neg 24 (-126) x

theorem toDouble_calibrationA : toDouble 0.000054253472 = 8006399304753337 / 2 ^ 67 :=
  toDouble_eq_of_pos _ (-15) 8006399304753337 (1 / 2 ^ 67) _ (by norm_num) (by norm_num)
    (by norm_num) (by norm_num) (by rw [abs_lt]; constructor <;> norm_num) (by norm_num)

theorem toDouble_calibrationB : toDouble 0.10416666666666667 = 7505999378950827 / 2 ^ 56 :=
  toDouble_eq_of_pos _ (-4) 7505999378950827 (1 / 2 ^ 56) _ (by norm_num) (by norm_num)
    (by norm_num) (by norm_num) (by rw [abs_lt]; constructor <;> norm_num) (by norm_num)

/-- The `double` value of the polynomial at `x = 960`. -/
theorem calibrationPolynomial_centre : calibrationPolynomial 960 = -(28823037 / 2 ^ 47) := by
  have e0 : toDouble ((960 : ℝ) ^ 2) = 921600 := by
    have h := toDouble_intCast 921600 (by norm_num)
    norm_num at h ⊢
    exact h
  have e1 : toDouble (8006399304753337 / 2 ^ 67 * 921600) = 7036874388943363 / 2 ^ 47 :=
    toDouble_eq_of_pos _ 5 7036874388943363 (1 / 2 ^ 47) _ (by norm_num) (by norm_num)
      (by norm_num) (by norm_num) (by rw [abs_lt]; constructor <;> norm_num) (by norm_num)
  have e2 : toDouble (7505999378950827 / 2 ^ 56 * 960) = 100 :=
    toDouble_eq_of_pos _ 6 7036874417766400 (1 / 2 ^ 46) _ (by norm_num) (by norm_num)
      (by norm_num) (by norm_num) (by rw [abs_lt]; constructor <;> norm_num) (by norm_num)
  have e3 : toDouble (7036874388943363 / 2 ^ 47 - 100) = -(7036874446589437 / 2 ^ 47) := by
    have h : toDouble (7036874446589437 / 2 ^ 47) = 7036874446589437 / 2 ^ 47 :=
      toDouble_eq_of_pos _ 5 7036874446589437 (1 / 2 ^ 47) _ (by norm_num) (by norm_num)
        (by norm_num) (by norm_num) (by rw [abs_lt]; constructor <;> norm_num) (by norm_num)
    rw [show (7036874388943363 / 2 ^ 47 - 100 : ℝ) = -(7036874446589437 / 2 ^ 47) by norm_num,
      toDouble_neg, h]
  have e4 : toDouble (-(7036874446589437 / 2 ^ 47) + 50) = -(28823037 / 2 ^ 47) := by
    have h : toDouble (28823037 / 2 ^ 47) = 28823037 / 2 ^ 47 :=
      toDouble_eq_of_pos _ (-23) 7737125080399872 (1 / 2 ^ 75) _ (by norm_num) (by norm_num)
        (by norm_num) (by norm_num) (by rw [abs_lt]; constructor <;> norm_num) (by norm_num)
    rw [show (-(7036874446589437 / 2 ^ 47) + 50 : ℝ) = -(28823037 / 2 ^ 47) by norm_num,
      toDouble_neg, h]
  unfold calibrationPolynomial
  rw [e0, toDouble_calibrationA, toDouble_calibrationB, e1, e2, e3, e4]

/-- The `float` the screen centre `x = 960` is mapped to, about `-2.048e-7` degrees: the
`double` lies half way between two `float`s and goes to the even one. -/
theorem expectedAngle_centre : expectedAngle 960 = -(7205759 / 2 ^ 45) := by
  have h : toFloat (28823037 / 2 ^ 47) = 7205759 / 2 ^ 45 :=
    toFloat_eq_of_pos_of_even _ (-23) 14411518 (1 / 2 ^ 46) _ (by norm_num) (by norm_num)
      (by norm_num) (by norm_num) (by rw [abs_le]; constructor <;> norm_num) (by decide)
      (by norm_num)
  unfold expectedAngle
  rw [if_neg (by norm_num), calibrationPolynomial_centre, toFloat_neg, h]

theorem calibrationPolynomial_zero : calibrationPolynomial 0 = 50 := by
  have h := toDouble_intCast 50 (by norm_num)
  unfold calibrationPolynomial
  norm_num [toDouble_zero] at h ⊢
  exact h

theorem expectedAngle_zero : expectedAngle 0 = -50 := by
  have h := toFloat_intCast 50 (by norm_num)
  unfold expectedAngle
  rw [if_pos (by norm_num), calibrationPolynomial_zero, toFloat_neg]
  norm_num at h ⊢
  exact h

theorem centerMouthX_faceResultAt_centre : centerMouthX (faceResultAt 960) = 960 := by
  have h1 : toFloat ((960 : ℝ) + 960) = 1920 := by
    have h := toFloat_intCast 1920 (by norm_num)
    norm_num at h ⊢
    exact h
  have h2 : toFloat ((1920 : ℝ) / 2) = 960 := by
    have h := toFloat_intCast 960 (by norm_num)
    norm_num at h ⊢
    exact h
  unfold centerMouthX faceResultAt
  simp only
  rw [h1, h2]

/-- The `float` `static_cast<float>(M_PI)`. -/
theorem toFloat_M_PI : toFloat M_PI = 13176795 / 2 ^ 22 := by
  have h1 : M_PI = 884279719003555 / 2 ^ 48 :=
    toDouble_eq_of_pos _ 1 7074237752028440 (1 / 2 ^ 51) _ (by norm_num) (by norm_num)
      (by norm_num) (by norm_num) (by rw [abs_lt]; constructor <;> norm_num) (by norm_num)
  rw [h1]
  exact toFloat_eq_of_pos _ 1 13176795 (1 / 2 ^ 22) _ (by norm_num) (by norm_num)
    (by norm_num) (by norm_num) (by rw [abs_lt]; constructor <;> norm_num) (by norm_num)

theorem beamAngleDegrees_zero : beamAngleDegrees 0 = 0 := by
  unfold beamAngleDegrees
  rw [mul_zero, toFloat_zero, zero_div, toFloat_zero]

theorem beamAngleDegrees_beamTenDegrees : beamAngleDegrees beamTenDegrees = 10 := by
  have h1 : toFloat (180 * (5856353 / 2 ^ 25)) = 16470993 / 2 ^ 19 :=
    toFloat_eq_of_pos _ 4 16470993 (1 / 2 ^ 19) _ (by norm_num) (by norm_num)
      (by norm_num) (by norm_num) (by rw [abs_lt]; constructor <;> norm_num) (by norm_num)
  have h2 : toFloat (16470993 / 2 ^ 19 / (13176795 / 2 ^ 22)) = 10 :=
    toFloat_eq_of_pos _ 3 10485760 (1 / 2 ^ 20) _ (by norm_num) (by norm_num)
      (by norm_num) (by norm_num) (by rw [abs_lt]; constructor <;> norm_num) (by norm_num)
  unfold beamAngleDegrees beamTenDegrees
  rw [h1, toFloat_M_PI, h2]

theorem beamAngleDegrees_beamMinusFiveDegrees :
    beamAngleDegrees beamMinusFiveDegrees = -5 := by
  have h1 : toFloat (180 * (5856353 / 2 ^ 26)) = 16470993 / 2 ^ 20 :=
    toFloat_eq_of_pos _ 3 16470993 (1 / 2 ^ 20) _ (by norm_num) (by norm_num)
      (by norm_num) (by norm_num) (by rw [abs_lt]; constructor <;> norm_num) (by norm_num)
  have h2 : toFloat (16470993 / 2 ^ 20 / (13176795 / 2 ^ 22)) = 5 :=
    toFloat_eq_of_pos _ 2 10485760 (1 / 2 ^ 21) _ (by norm_num) (by norm_num)
      (by norm_num) (by norm_num) (by rw [abs_lt]; constructor <;> norm_num) (by norm_num)
  unfold beamAngleDegrees beamMinusFiveDegrees
  rw [mul_neg, toFloat_neg, h1, toFloat_M_PI, neg_div, toFloat_neg, h2]

/-- The differences the angle test forms at the screen centre for measured angles of 0, 10
and -5 degrees: the `float`s `2.048e-7`, 10 and -5. -/
theorem toFloat_sub_expectedAngle_centre :
    toFloat (0 - -(7205759 / 2 ^ 45)) = 7205759 / 2 ^ 45
      ∧ toFloat (10 - -(7205759 / 2 ^ 45)) = 10
      ∧ toFloat (-5 - -(7205759 / 2 ^ 45)) = -5 := by
  refine ⟨?_, ?_, ?_⟩
  · rw [zero_sub, neg_neg]
    exact toFloat_eq_of_pos _ (-23) 14411518 (1 / 2 ^ 46) _ (by norm_num) (by norm_num)
      (by norm_num) (by norm_num) (by rw [abs_lt]; constructor <;> norm_num) (by norm_num)
  · exact toFloat_eq_of_pos _ 3 10485760 (1 / 2 ^ 20) _ (by norm_num) (by norm_num)
      (by norm_num) (by norm_num) (by rw [abs_lt]; constructor <;> norm_num) (by norm_num)
  · have h : toFloat (175921853238401 / 2 ^ 45) = 5 :=
      toFloat_eq_of_pos _ 2 10485760 (1 / 2 ^ 21) _ (by norm_num) (by norm_num)
        (by norm_num) (by norm_num) (by rw [abs_lt]; constructor <;> norm_num) (by norm_num)
    rw [show (-5 - -(7205759 / 2 ^ 45) : ℝ) = -(175921853238401 / 2 ^ 45) by norm_num,
      toFloat_neg, h]

/-- The beam angles of the examples are the `float`s nearest to 10 and to -5 degrees in
radians. -/
theorem toFloat_degrees_in_radians :
    toFloat (10 * Real.pi / 180) = beamTenDegrees
      ∧ toFloat (-5 * Real.pi / 180) = beamMinusFiveDegrees := by
  have hlo := Real.pi_gt_d20
  have hhi := Real.pi_lt_d20
  constructor
  · unfold beamTenDegrees
    exact toFloat_eq_of_pos _ (-3) 11712706 (1 / 2 ^ 26) _ (by norm_num; linarith)
      (by norm_num; linarith) (by norm_num) (by norm_num)
      (by rw [abs_lt]; constructor <;> norm_num <;> linarith) (by norm_num)
  · have h : toFloat (5 * Real.pi / 180) = 5856353 / 2 ^ 26 :=
      toFloat_eq_of_pos _ (-4) 11712706 (1 / 2 ^ 27) _ (by norm_num; linarith)
        (by norm_num; linarith) (by norm_num) (by norm_num)
        (by rw [abs_lt]; constructor <;> norm_num <;> linarith) (by norm_num)
    unfold beamMinusFiveDegrees
    rw [show (-5 * Real.pi / 180 : ℝ) = -(5 * Real.pi / 180) by ring, toFloat_neg, h]

/-! ## Lemmas on the face loop -/

theorem highlighted_append (xs ys : List FaceAction) :
    highlighted (xs ++ ys) = highlighted xs ++ highlighted ys := by
  simp [highlighted, List.filterMap_append]

theorem highlighted_untrackedFace (b : Bool) (pBody : Option Body) (i : ℕ) :
    highlighted (untrackedFace b pBody i) = [] := by
  unfold untrackedFace
  cases b
  · simp [highlighted]
  · cases pBody with
    | none => simp [highlighted]
    | some body =>
      simp only [if_true]
      split_ifs <;> simp [highlighted]

theorem foundFace_eq (calls : List FaceAction) :
    foundFace calls = true ↔ highlighted calls ≠ [] := by
  induction calls with
  | nil => simp [foundFace, highlighted]
  | cons a as ih =>
    cases a <;> simp_all [foundFace, highlighted]

/-- The calls of one iteration that highlight: slot `i` itself when it passes, none
otherwise. -/
theorem highlighted_faceIteration (s : State) (f : FrameInput) (i : ℕ) :
    (slotPasses s f i → highlighted (faceIteration s f i) = [i])
      ∧ (¬ slotPasses s f i → highlighted (faceIteration s f i) = []) := by
  unfold slotPasses faceIteration
  rcases hr : f.readers i with ⟨ok, pf⟩
  cases ok
  · simp [highlighted]
  · cases pf with
    | none => simp [highlighted_untrackedFace]
    | some frame =>
      rcases frame with ⟨vok, tr, rok, pres⟩
      cases vok
      · simp [highlighted]
      · cases tr
        · simp [highlighted_untrackedFace]
        · cases pres with
          | none => simp [trackedFace, highlighted]
          | some r =>
            by_cases hd : rok = true ∧ r.boxOk = true ∧ r.pointsOk = true
                ∧ r.rotationOk = true ∧ r.propertiesOk = true
                ∧ GetFaceTextPositionInColorSpace (f.ppBodies i) = true
            · obtain ⟨h1, h2, h3, h4, h5, h6⟩ := hd
              by_cases ha : angleTest s.m_fBeamAngle (expectedAngle (centerMouthX r))
              · simp [trackedFace, highlighted, h1, h2, h3, h4, h5, h6, ha]
              · simp [trackedFace, highlighted, h1, h2, h3, h4, h5, h6, ha]
            · have hc : (rok && r.boxOk && r.pointsOk && r.rotationOk && r.propertiesOk
                  && GetFaceTextPositionInColorSpace (f.ppBodies i)) = false := by
                simp only [Bool.and_eq_true, not_and, Bool.not_eq_true] at hd
                revert hd
                cases rok <;> cases r.boxOk <;> cases r.pointsOk <;> cases r.rotationOk
                  <;> cases r.propertiesOk
                  <;> cases GetFaceTextPositionInColorSpace (f.ppBodies i) <;> simp
              constructor
              · rintro ⟨fr, r', _, hpf, _, _, hrok, hres, hb, hp, hrot, hprop, htext, _⟩
                simp only [Option.some.injEq] at hpf
                subst hpf
                simp only [Option.some.injEq] at hres
                subst hres
                exact absurd ⟨hrok, hb, hp, hrot, hprop, htext⟩ hd
              · intro _
                simp [trackedFace, highlighted, hc]

/-- The highlighting calls of a run of iterations: the slots of the run that pass. -/
theorem highlighted_flatMap (s : State) (f : FrameInput) (l : List ℕ) :
    highlighted (l.flatMap (faceIteration s f))
      = l.filter (fun i => @decide (slotPasses s f i) (Classical.dec _)) := by
  induction l with
  | nil => simp [highlighted]
  | cons i l ih =>
    rw [List.flatMap_cons, highlighted_append, ih, List.filter_cons]
    by_cases hp : slotPasses s f i
    · rw [(highlighted_faceIteration s f i).1 hp]
      simp [hp]
    · rw [(highlighted_faceIteration s f i).2 hp]
      simp [hp]

theorem highlighted_faceLoop (n : ℕ) (s : State) (f : FrameInput) :
    highlighted (faceLoop n s f)
      = if s.m_fBeamAngleConfidence < 0.5 then []
        else (List.range n).filter (fun i => @decide (slotPasses s f i) (Classical.dec _)) := by
  unfold faceLoop
  split_ifs with h
  · simp [highlighted]
  · exact highlighted_flatMap s f _

theorem highlighted_ProcessFaces (n : ℕ) (s : State) (f : FrameInput) (audio : AudioRead) :
    highlighted (ProcessFaces n s f audio).1 = highlighted (faceLoop n s f) := by
  unfold ProcessFaces
  simp only
  split_ifs
  · rfl
  · rw [highlighted_append]
    simp [highlighted]

theorem stateWithBeam_eq (a c : ℝ) :
    (stateWithBeam a c).m_fBeamAngle = a ∧ (stateWithBeam a c).m_fBeamAngleConfidence = c := by
  have hk : (construct 0 0).m_nAccumulatedSampleCount
      + (List.replicate 40 (0 : ℝ)).length = cAudioSamplesPerEnergySample := by
    simp [construct, cAudioSamplesPerEnergySample]
  unfold stateWithBeam
  rw [ingest_complete_group a c _ (construct 0 0) (by simp) hk]
  exact ⟨rfl, rfl⟩

theorem slotPasses_frameAllCentred (c : ℝ) (i : ℕ) :
    slotPasses (stateWithBeam 0 c) frameAllCentred i := by
  refine ⟨_, _, rfl, rfl, rfl, rfl, rfl, rfl, rfl, rfl, rfl, rfl, rfl, ?_⟩
  rw [(stateWithBeam_eq 0 c).1]
  show angleTest 0 (expectedAngle (centerMouthX (faceResultAt 960)))
  unfold angleTest
  rw [centerMouthX_faceResultAt_centre, expectedAngle_centre, beamAngleDegrees_zero,
    toFloat_sub_expectedAngle_centre.1, abs_of_pos (by norm_num)]
  norm_num

/-! ## The faces highlighted in one frame -/

/-- C2, as amended: in every frame `ProcessFaces` calls `DrawFaceFrameResults` for exactly
the slots below `BODY_COUNT` that pass the angle test behind the confidence gate, each once
and in increasing slot order; every passing slot is highlighted, not only the lowest. -/
theorem highlighted_slots (n : ℕ) (s : State) (f : FrameInput) (audio : AudioRead) :
    List.Sorted (fun i j => i < j) (highlighted (ProcessFaces n s f audio).1)
      ∧ (highlighted (ProcessFaces n s f audio).1).length ≤ n
      ∧ ∀ i, i ∈ highlighted (ProcessFaces n s f audio).1
          ↔ i < n ∧ ¬ s.m_fBeamAngleConfidence < 0.5 ∧ slotPasses s f i := by
  rw [highlighted_ProcessFaces, highlighted_faceLoop]
  split_ifs with h
  · refine ⟨List.sorted_nil, Nat.zero_le _, fun i => ?_⟩
    simp [h]
  · refine ⟨List.Sorted.filter _ (List.sorted_lt_range n), ?_, fun i => ?_⟩
    · calc (List.filter _ (List.range n)).length ≤ (List.range n).length :=
            List.length_filter_le _ _
        _ = n := List.length_range n
    · simp [List.mem_filter, List.mem_range, h]

/-- C2, as stated, fails: with beam angle 0 at confidence 0.9 and a centred tracked face in
each of six slots, all six slots are highlighted in the same frame. -/
theorem highlighted_slots_counterexample :
    highlighted (ProcessFaces 6 (stateWithBeam 0 (9 / 10)) frameAllCentred noAudio).1
        = [0, 1, 2, 3, 4, 5]
      ∧ ¬ (highlighted
          (ProcessFaces 6 (stateWithBeam 0 (9 / 10)) frameAllCentred noAudio).1).length ≤ 1 := by
  have h : highlighted (ProcessFaces 6 (stateWithBeam 0 (9 / 10)) frameAllCentred noAudio).1
      = [0, 1, 2, 3, 4, 5] := by
    rw [highlighted_ProcessFaces, highlighted_faceLoop, (stateWithBeam_eq 0 (9 / 10)).2,
      if_neg (by norm_num)]
    have hall : ∀ i ∈ List.range 6,
        (@decide (slotPasses (stateWithBeam 0 (9 / 10)) frameAllCentred i)
          (Classical.dec _)) = true := by
      intro i _
      simp [slotPasses_frameAllCentred]
    rw [List.filter_eq_self.mpr hall]
    rfl
  rw [h]
  exact ⟨rfl, by decide⟩

/-! ## Rebinding of the face sources -/

theorem put_mem_ProcessFaces (n : ℕ) (s : State) (f : FrameInput) (audio : AudioRead)
    (i id : ℕ) :
    FaceAction.put_TrackingId i id ∈ (ProcessFaces n s f audio).1
      ↔ FaceAction.put_TrackingId i id ∈ faceLoop n s f := by
  unfold ProcessFaces
  simp only
  split_ifs
  · rfl
  · simp

theorem faceLoop_of_low_confidence (n : ℕ) (s : State) (f : FrameInput)
    (h : s.m_fBeamAngleConfidence < 0.5) : faceLoop n s f = [] := by
  unfold faceLoop
  rw [if_pos h]

theorem faceLoop_of_confidence (n : ℕ) (s : State) (f : FrameInput)
    (h : ¬ s.m_fBeamAngleConfidence < 0.5) :
    faceLoop n s f = (List.range n).flatMap (faceIteration s f) := by
  unfold faceLoop
  rw [if_neg h]

/-- An iteration whose reader reports no tracked face takes the rebinding branch. -/
theorem faceIteration_of_no_face (s : State) (f : FrameInput) (i : ℕ)
    (h : reportsNoTrackedFace (f.readers i)) :
    faceIteration s f i = untrackedFace f.bHaveBodyData (f.ppBodies i) i := by
  unfold faceIteration
  obtain ⟨hacq, hfr⟩ := h
  rcases hr : f.readers i with ⟨ok, pf⟩
  rw [hr] at hacq hfr
  simp only at hacq hfr
  subst hacq
  rcases hfr with h0 | ⟨frame, hsome, hv, ht⟩
  · subst h0
    rfl
  · subst hsome
    simp [hv, ht]

/-- C3, as amended: when the stored beam confidence is at least 0.5, body data are there,
the reader of slot `i` answers without a valid tracked face, and `bodies[i]` exists, is
reported tracked and delivers its tracking ID, `ProcessFaces` calls `put_TrackingId` on slot
`i` with that ID in the same frame; when the confidence is below 0.5 it rebinds no slot. -/
theorem rebinds_lost_slot (n : ℕ) (s : State) (f : FrameInput) (audio : AudioRead)
    (i : ℕ) (b : Body) (hi : i < n) (hbodies : f.bHaveBodyData = true)
    (hface : reportsNoTrackedFace (f.readers i)) (hb : f.ppBodies i = some b)
    (hok : b.isTrackedOk = true) (htracked : b.bTracked = true)
    (hid : b.trackingIdOk = true) :
    (¬ s.m_fBeamAngleConfidence < 0.5 →
        FaceAction.put_TrackingId i b.bodyTId ∈ (ProcessFaces n s f audio).1)
      ∧ (s.m_fBeamAngleConfidence < 0.5 →
        ∀ j id, FaceAction.put_TrackingId j id ∉ (ProcessFaces n s f audio).1) := by
  constructor
  · intro hc
    rw [put_mem_ProcessFaces, faceLoop_of_confidence n s f hc, List.mem_flatMap]
    refine ⟨i, List.mem_range.mpr hi, ?_⟩
    rw [faceIteration_of_no_face s f i hface, hb, hbodies]
    simp [untrackedFace, hok, htracked, hid]
  · intro hc j id
    rw [put_mem_ProcessFaces, faceLoop_of_low_confidence n s f hc]
    exact List.not_mem_nil _

/-- C3, an instance: six lost faces over six tracked bodies at beam confidence 0.9. -/
theorem rebinds_lost_slot_witness :
    (¬ (stateWithBeam 0 (9 / 10)).m_fBeamAngleConfidence < 0.5 →
        FaceAction.put_TrackingId 0 (trackedBody (100 + 0)).bodyTId
          ∈ (ProcessFaces 6 (stateWithBeam 0 (9 / 10)) frameFacesLost noAudio).1)
      ∧ ((stateWithBeam 0 (9 / 10)).m_fBeamAngleConfidence < 0.5 →
        ∀ j id, FaceAction.put_TrackingId j id
          ∉ (ProcessFaces 6 (stateWithBeam 0 (9 / 10)) frameFacesLost noAudio).1) :=
  rebinds_lost_slot 6 (stateWithBeam 0 (9 / 10)) frameFacesLost noAudio 0
    (trackedBody (100 + 0)) (by decide) rfl ⟨rfl, Or.inr ⟨_, rfl, rfl, rfl⟩⟩ rfl rfl rfl rfl

/-- C3, as stated, fails: at beam confidence 0.3 the face loop is skipped altogether; slot 0
has lost its face, body 0 is tracked under the ID 100, and yet the only call of the frame
is `DrawBackgroundA`. -/
theorem rebinds_lost_slot_counterexample :
    frameFacesLost.bHaveBodyData = true
      ∧ reportsNoTrackedFace (frameFacesLost.readers 0)
      ∧ frameFacesLost.ppBodies 0 = some (trackedBody 100)
      ∧ (ProcessFaces 6 (stateWithBeam 0 (3 / 10)) frameFacesLost noAudio).1
          = [FaceAction.DrawBackgroundA]
      ∧ FaceAction.put_TrackingId 0 100
          ∉ (ProcessFaces 6 (stateWithBeam 0 (3 / 10)) frameFacesLost noAudio).1 := by
  have hc : (stateWithBeam 0 (3 / 10)).m_fBeamAngleConfidence < 0.5 := by
    rw [(stateWithBeam_eq 0 (3 / 10)).2]
    norm_num
  have hcalls : (ProcessFaces 6 (stateWithBeam 0 (3 / 10)) frameFacesLost noAudio).1
      = [FaceAction.DrawBackgroundA] := by
    unfold ProcessFaces
    simp only [faceLoop_of_low_confidence 6 _ frameFacesLost hc]
    rfl
  refine ⟨rfl, ⟨rfl, Or.inr ⟨_, rfl, rfl, rfl⟩⟩, rfl, hcalls, ?_⟩
  rw [hcalls]
  simp

/-! ## Counting the energy values emitted -/

theorem ingestSample_count (a c : ℝ) (s : State) (x : ℝ)
    (h0 : 0 ≤ s.m_nAccumulatedSampleCount)
    (hK : s.m_nAccumulatedSampleCount < cAudioSamplesPerEnergySample) :
    0 ≤ (ingestSample a c s x).m_nAccumulatedSampleCount
      ∧ (ingestSample a c s x).m_nAccumulatedSampleCount < cAudioSamplesPerEnergySample
      ∧ (ingestSample a c s x).m_nNewEnergyAvailable
          = s.m_nNewEnergyAvailable + (s.m_nAccumulatedSampleCount + 1) / 40
      ∧ (ingestSample a c s x).m_nAccumulatedSampleCount
          = (s.m_nAccumulatedSampleCount + 1) % 40 := by
  unfold cAudioSamplesPerEnergySample at hK ⊢
  by_cases h : s.m_nAccumulatedSampleCount + 1 < cAudioSamplesPerEnergySample
  · rw [ingestSample_accumulate a c s x h]
    unfold cAudioSamplesPerEnergySample at h
    simp only
    omega
  · rw [ingestSample_emit a c s x h]
    unfold cAudioSamplesPerEnergySample at h
    simp only
    omega

theorem ingest_count (a c : ℝ) (samples : List ℝ) (s : State)
    (h0 : 0 ≤ s.m_nAccumulatedSampleCount)
    (hK : s.m_nAccumulatedSampleCount < cAudioSamplesPerEnergySample) :
    (ingest s samples a c).m_nNewEnergyAvailable
        = s.m_nNewEnergyAvailable + (s.m_nAccumulatedSampleCount + samples.length) / 40
      ∧ (ingest s samples a c).m_nAccumulatedSampleCount
        = (s.m_nAccumulatedSampleCount + samples.length) % 40 := by
  induction samples generalizing s with
  | nil =>
    unfold cAudioSamplesPerEnergySample at hK
    rw [ingest_nil]
    simp only [List.length_nil, Nat.cast_zero, add_zero]
    omega
  | cons x xs ih =>
    obtain ⟨h1, h2, h3, h4⟩ := ingestSample_count a c s x h0 hK
    obtain ⟨i1, i2⟩ := ih (ingestSample a c s x) h1 h2
    unfold cAudioSamplesPerEnergySample at hK
    rw [ingest_cons, i1, i2, h3, h4]
    simp only [List.length_cons]
    push_cast
    omega

theorem energyDisplay_zero : energyDisplay 0 = 0 := by
  apply energyDisplay_of_nonpos
  rw [meanSquare_of_le_one 0 (by norm_num)]
  norm_num

/-- Whole groups of silent samples read into an empty accumulator: `k` groups store `k`
zeros from the write index on and touch nothing else of the buffer. -/
theorem ingest_silent_groups (a c : ℝ) (k : ℕ) (s : State)
    (hcount : s.m_nAccumulatedSampleCount = 0) (hsum : s.m_fAccumulatedSquareSum = 0)
    (hidx : 0 ≤ s.m_nEnergyIndex) (hend : s.m_nEnergyIndex + k < cEnergyBufferLength)
    (hbuf : s.m_fEnergyBuffer.length = cEnergyBufferLength.toNat) :
    (ingest s (List.replicate (40 * k) 0) a c).m_nEnergyIndex = s.m_nEnergyIndex + k
      ∧ ∀ i : ℕ,
        (ingest s (List.replicate (40 * k) 0) a c).m_fEnergyBuffer[i]?
          = if s.m_nEnergyIndex.toNat ≤ i ∧ i < s.m_nEnergyIndex.toNat + k then some 0
            else s.m_fEnergyBuffer[i]? := by
  induction k generalizing s with
  | zero =>
    refine ⟨by simp [ingest_nil], fun i => ?_⟩
    rw [if_neg (by omega)]
    simp [ingest_nil]
  | succ k ih =>
    have hsplit : List.replicate (40 * (k + 1)) (0 : ℝ)
        = List.replicate 40 0 ++ List.replicate (40 * k) 0 := by
      rw [← List.replicate_add]
      congr 1
      ring
    have hk : s.m_nAccumulatedSampleCount + (List.replicate 40 (0 : ℝ)).length
        = cAudioSamplesPerEnergySample := by
      rw [hcount]
      simp [cAudioSamplesPerEnergySample]
    have hgroup := ingest_complete_group a c (List.replicate 40 0) s (by simp) hk
    rw [sumSquares_replicate, hsum] at hgroup
    simp only [mul_zero, add_zero, energyDisplay_zero] at hgroup
    unfold cEnergyBufferLength at hend hbuf
    push_cast at hend
    have hmod : (s.m_nEnergyIndex + 1).tmod cEnergyBufferLength = s.m_nEnergyIndex + 1 := by
      unfold cEnergyBufferLength
      rw [Int.tmod_eq_emod (by omega) (by norm_num)]
      omega
    rw [hmod] at hgroup
    rw [hsplit, ingest_append, hgroup]
    have hrec := ih
      { s with
        m_fBeamAngle := a
        m_fBeamAngleConfidence := c
        m_fEnergyBuffer := s.m_fEnergyBuffer.set s.m_nEnergyIndex.toNat 0
        m_nNewEnergyAvailable := s.m_nNewEnergyAvailable + 1
        m_nEnergyIndex := s.m_nEnergyIndex + 1
        m_fAccumulatedSquareSum := 0
        m_nAccumulatedSampleCount := 0 }
      rfl rfl (by simp only; omega) (by unfold cEnergyBufferLength; simp only; omega)
      (by simp only [List.length_set]; exact hbuf)
    obtain ⟨r1, r2⟩ := hrec
    refine ⟨?_, fun i => ?_⟩
    · rw [r1]
      simp only
      push_cast
      ring
    · rw [r2 i]
      simp only [List.getElem?_set]
      have ht : (s.m_nEnergyIndex + 1).toNat = s.m_nEnergyIndex.toNat + 1 := by omega
      rw [ht]
      have hlen : s.m_nEnergyIndex.toNat < s.m_fEnergyBuffer.length := by
        rw [hbuf]
        omega
      by_cases h1 : s.m_nEnergyIndex.toNat + 1 ≤ i ∧ i < s.m_nEnergyIndex.toNat + 1 + k
      · rw [if_pos h1, if_pos (by omega)]
      · rw [if_neg h1]
        by_cases h2 : s.m_nEnergyIndex.toNat = i
        · rw [if_pos h2, if_pos hlen, if_pos (by omega)]
        · rw [if_neg h2, if_neg (by omega)]

/-- C10: from an accumulator count `c0` with `0 ≤ c0 < K`, a block of `n` samples emits
`(c0 + n) / K` energy values and leaves the count `(c0 + n) % K`, below `K`; and 2000 silent
samples read into the constructed state, whatever the buffer held, emit 50 values, stored
as zeros at the indices 0 to 49. -/
theorem ingest_emits_per_group (s : State) (samples : List ℝ) (a c : ℝ)
    (h0 : 0 ≤ s.m_nAccumulatedSampleCount)
    (hK : s.m_nAccumulatedSampleCount < cAudioSamplesPerEnergySample) :
    (ingest s samples a c).m_nNewEnergyAvailable
        = s.m_nNewEnergyAvailable
          + (s.m_nAccumulatedSampleCount + samples.length) / cAudioSamplesPerEnergySample
      ∧ (ingest s samples a c).m_nAccumulatedSampleCount
        = (s.m_nAccumulatedSampleCount + samples.length) % cAudioSamplesPerEnergySample
      ∧ 0 ≤ (ingest s samples a c).m_nAccumulatedSampleCount
      ∧ (ingest s samples a c).m_nAccumulatedSampleCount < cAudioSamplesPerEnergySample
      ∧ ∀ (buf : List ℝ) (a0 c0 : ℝ), buf.length = 1000 →
          (ingest { construct a0 c0 with m_fEnergyBuffer := buf }
              (List.replicate 2000 0) a c).m_nNewEnergyAvailable = 50
            ∧ (ingest { construct a0 c0 with m_fEnergyBuffer := buf }
              (List.replicate 2000 0) a c).m_nEnergyIndex = 50
            ∧ (ingest { construct a0 c0 with m_fEnergyBuffer := buf }
              (List.replicate 2000 0) a c).m_nAccumulatedSampleCount = 0
            ∧ ∀ i : ℕ,
              (ingest { construct a0 c0 with m_fEnergyBuffer := buf }
                (List.replicate 2000 0) a c).m_fEnergyBuffer[i]?
                = if i < 50 then some 0 else buf[i]? := by
  obtain ⟨h1, h2⟩ := ingest_count a c samples s h0 hK
  refine ⟨h1, h2, ?_, ?_, ?_⟩
  · rw [h2]
    omega
  · rw [h2]
    unfold cAudioSamplesPerEnergySample
    omega
  · intro buf a0 c0 hbuf
    obtain ⟨k1, k2⟩ := ingest_count a c (List.replicate 2000 0)
      { construct a0 c0 with m_fEnergyBuffer := buf } (le_refl (0 : ℤ))
      (by decide : (0 : ℤ) < 40)
    obtain ⟨g1, g2⟩ := ingest_silent_groups a c 50
      { construct a0 c0 with m_fEnergyBuffer := buf } rfl rfl (le_refl (0 : ℤ))
      (by decide : (0 : ℤ) + ((50 : ℕ) : ℤ) < 1000) hbuf
    have h2000 : 40 * 50 = 2000 := by norm_num
    rw [h2000] at g1 g2
    refine ⟨?_, ?_, ?_, fun i => ?_⟩
    · rw [k1]
      simp only [construct, List.length_replicate]
      norm_num
    · rw [g1]
      simp only [construct]
      norm_num
    · rw [k2]
      simp only [construct, List.length_replicate]
      norm_num
    · rw [g2 i]
      simp only [construct, Int.toNat_zero, Nat.zero_le, true_and, zero_add]

/-- C10, an instance: 2000 silent samples read into the constructed state. -/
theorem ingest_emits_per_group_witness :
    (ingest (construct 0 0) (List.replicate 2000 0) 0 0).m_nNewEnergyAvailable
        = (construct 0 0).m_nNewEnergyAvailable
          + ((construct 0 0).m_nAccumulatedSampleCount
              + (List.replicate 2000 (0 : ℝ)).length) / cAudioSamplesPerEnergySample
      ∧ (ingest (construct 0 0) (List.replicate 2000 0) 0 0).m_nAccumulatedSampleCount
        = ((construct 0 0).m_nAccumulatedSampleCount
              + (List.replicate 2000 (0 : ℝ)).length) % cAudioSamplesPerEnergySample
      ∧ 0 ≤ (ingest (construct 0 0) (List.replicate 2000 0) 0 0).m_nAccumulatedSampleCount
      ∧ (ingest (construct 0 0) (List.replicate 2000 0) 0 0).m_nAccumulatedSampleCount
        < cAudioSamplesPerEnergySample
      ∧ ∀ (buf : List ℝ) (a0 c0 : ℝ), buf.length = 1000 →
          (ingest { construct a0 c0 with m_fEnergyBuffer := buf }
              (List.replicate 2000 0) 0 0).m_nNewEnergyAvailable = 50
            ∧ (ingest { construct a0 c0 with m_fEnergyBuffer := buf }
              (List.replicate 2000 0) 0 0).m_nEnergyIndex = 50
            ∧ (ingest { construct a0 c0 with m_fEnergyBuffer := buf }
              (List.replicate 2000 0) 0 0).m_nAccumulatedSampleCount = 0
            ∧ ∀ i : ℕ,
              (ingest { construct a0 c0 with m_fEnergyBuffer := buf }
                (List.replicate 2000 0) 0 0).m_fEnergyBuffer[i]?
                = if i < 50 then some 0 else buf[i]? :=
  ingest_emits_per_group (construct 0 0) (List.replicate 2000 0) 0 0 (le_refl (0 : ℤ))
    (by decide : (0 : ℤ) < 40)

/-! ## The window copy -/

theorem slice_getElem? (buf : List ℝ) (off cnt j : ℕ) :
    ((buf.drop off).take cnt)[j]? = if j < cnt then buf[off + j]? else none := by
  by_cases h : j < cnt
  · rw [if_pos h, List.getElem?_take_of_lt h, List.getElem?_drop]
  · rw [if_neg h]
    exact List.getElem?_take_eq_none (not_lt.mp h)

theorem windowSpec_getElem? (buf : List ℝ) (r : ℤ) (j : ℕ) :
    (windowSpec buf r)[j]?
      = if j < 780 then some (buf.getD ((r - 780 + (j : ℤ)) % 1000).toNat 0) else none := by
  unfold windowSpec cEnergySamplesToDisplay cEnergyBufferLength
  by_cases h : j < 780
  · have h780 : Int.toNat 780 = 780 := rfl
    rw [if_pos h, List.getElem?_map, h780, List.getElem?_range h]
    rfl
  · have h780 : Int.toNat 780 = 780 := rfl
    rw [if_neg h, List.getElem?_map, h780,
      List.getElem?_eq_none (by rw [List.length_range]; exact not_lt.mp h)]
    rfl

theorem window_nat (buf : List ℝ) (n : ℕ) (hbuf : buf.length = 1000) (hn : n < 1000) :
    (if 780 ≤ n then (buf.drop (n - 780)).take 780
      else (buf.drop (n + 220)).take (780 - n) ++ (buf.drop 0).take n)
      = windowSpec buf n := by
  apply List.ext_getElem?
  intro j
  rw [windowSpec_getElem?]
  split_ifs with h1 h2 h2
  · rw [slice_getElem?, if_pos h2]
    have hi : ((n : ℤ) - 780 + j) % 1000 = ((n - 780 + j : ℕ) : ℤ) := by omega
    rw [hi, Int.toNat_ofNat, List.getD_eq_getElem?_getD, List.getElem?_eq_getElem (by omega)]
    simp
  · rw [slice_getElem?, if_neg h2]
  · by_cases h3 : j < 780 - n
    · rw [List.getElem?_append_left (by rw [List.length_take, List.length_drop]; omega),
        slice_getElem?, if_pos h3]
      have hi : ((n : ℤ) - 780 + j) % 1000 = ((n + 220 + j : ℕ) : ℤ) := by omega
      rw [hi, Int.toNat_ofNat, List.getD_eq_getElem?_getD, List.getElem?_eq_getElem (by omega)]
      simp
    · have hl : ((buf.drop (n + 220)).take (780 - n)).length = 780 - n := by
        rw [List.length_take, List.length_drop]; omega
      rw [List.getElem?_append_right (by omega), hl, slice_getElem?, if_pos (by omega)]
      have hi : ((n : ℤ) - 780 + j) % 1000 = ((0 + (j - (780 - n)) : ℕ) : ℤ) := by omega
      rw [hi, Int.toNat_ofNat, List.getD_eq_getElem?_getD, List.getElem?_eq_getElem (by omega)]
      simp
  · have hl : ((buf.drop (n + 220)).take (780 - n)).length = 780 - n := by
      rw [List.length_take, List.length_drop]; omega
    rw [List.getElem?_append_right (by omega), hl, slice_getElem?, if_neg (by omega)]

theorem memcpy_s_eq (dest src : List ℝ) (destOffset destSize srcOffset count : ℕ)
    (hc : count ≤ destSize) (hd : destOffset + destSize ≤ dest.length)
    (hs : srcOffset + count ≤ src.length) :
    memcpy_s dest destOffset destSize src srcOffset count
      = some (dest.take destOffset ++ (src.drop srcOffset).take count
          ++ dest.drop (destOffset + count)) := by
  unfold memcpy_s
  rw [if_pos (by omega)]
  have h : ((destOffset : ℤ) + (count : ℤ)).toNat = destOffset + count := by omega
  simp only [Int.toNat_ofNat, h]

/-- The two-segment copy delivers the window of the modular-index reading, whatever the
display buffer held before. -/
theorem copyEnergyWindow_eq (disp buf : List ℝ) (r : ℤ)
    (hbuf : buf.length = cEnergyBufferLength.toNat)
    (hdisp : disp.length = cEnergySamplesToDisplay.toNat)
    (h0 : 0 ≤ r) (h1 : r < cEnergyBufferLength) :
    copyEnergyWindow disp buf r = some (windowSpec buf r) := by
  have hb : buf.length = 1000 := hbuf
  have hd : disp.length = 780 := hdisp
  unfold cEnergyBufferLength at h1
  obtain ⟨n, rfl⟩ := Int.eq_ofNat_of_zero_le h0
  have hn : n < 1000 := by omega
  rw [← window_nat buf n hb hn]
  unfold copyEnergyWindow cEnergyBufferLength cEnergySamplesToDisplay
  simp only
  by_cases hge : 780 ≤ n
  · have hbase : ((n : ℤ) + 1000 - 780).tmod 1000 = ((n - 780 : ℕ) : ℤ) := by
      rw [Int.tmod_eq_emod (by omega) (by norm_num)]
      omega
    rw [hbase, if_pos (by omega), if_pos hge]
    have e0 : (0 : ℤ) = ((0 : ℕ) : ℤ) := rfl
    have e780 : (780 : ℤ) = ((780 : ℕ) : ℤ) := rfl
    rw [e0, e780, memcpy_s_eq disp buf 0 780 (n - 780) 780 (le_refl _) (by omega) (by omega)]
    have hdrop : disp.drop (0 + 780) = [] := List.drop_eq_nil_of_le (by omega)
    rw [hdrop]
    simp
  · have hbase : ((n : ℤ) + 1000 - 780).tmod 1000 = ((n + 220 : ℕ) : ℤ) := by
      rw [Int.tmod_eq_emod (by omega) (by norm_num)]
      omega
    rw [hbase, if_neg (by omega), if_neg hge]
    have e0 : (0 : ℤ) = ((0 : ℕ) : ℤ) := rfl
    have e780 : (780 : ℤ) = ((780 : ℕ) : ℤ) := rfl
    have eu : (1000 : ℤ) - ((n + 220 : ℕ) : ℤ) = ((780 - n : ℕ) : ℤ) := by omega
    have ef : ((780 : ℕ) : ℤ) - ((780 - n : ℕ) : ℤ) = ((n : ℕ) : ℤ) := by omega
    rw [eu, e780, ef, e0,
      memcpy_s_eq disp buf 0 780 (n + 220) (780 - n) (by omega) (by omega) (by omega)]
    simp only [Option.some_bind]
    have hl : ((buf.drop (n + 220)).take (780 - n)).length = 780 - n := by
      rw [List.length_take, List.length_drop]; omega
    rw [memcpy_s_eq _ buf (780 - n) n 0 n (le_refl _)
      (by simp only [List.length_append, hl, List.length_drop, List.take_zero,
            List.length_nil]; omega) (by omega)]
    simp only [List.take_zero, List.nil_append, zero_add]
    rw [List.take_append_of_le_length (by omega), List.take_of_length_le (by omega)]
    have hdrop : (List.take (780 - n) (List.drop (n + 220) buf)
        ++ List.drop (780 - n) disp).drop (780 - n + n) = [] :=
      List.drop_eq_nil_of_le (by
        simp only [List.length_append, hl, List.length_drop]; omega)
    rw [hdrop]
    simp

/-- C7: for every buffer of `N_hist` = 1000 values and every read cursor in `[0, N_hist)`
the one-or-two segment copy succeeds, so every element it reads lies inside the buffer; the
window it leaves has `N_disp` = 780 elements and is the window of the modular-index reading,
`window[j] = buffer[(readCursor - N_disp + j) mod N_hist]`, its last element the buffer
value just before the read cursor. -/
theorem window_copy_is_modular_window (disp buf : List ℝ) (r : ℤ)
    (hbuf : buf.length = 1000) (hdisp : disp.length = 780)
    (h0 : 0 ≤ r) (h1 : r < cEnergyBufferLength) :
    copyEnergyWindow disp buf r = some (windowSpec buf r)
      ∧ (windowSpec buf r).length = 780
      ∧ (∀ j : ℕ, j < 780 →
          ((r - cEnergySamplesToDisplay + (j : ℤ)) % cEnergyBufferLength).toNat < buf.length
            ∧ (windowSpec buf r)[j]?
              = buf[((r - cEnergySamplesToDisplay + (j : ℤ)) % cEnergyBufferLength).toNat]?)
      ∧ (windowSpec buf r)[779]? = buf[((r - 1) % cEnergyBufferLength).toNat]? := by
  have hidx : ∀ j : ℕ, j < 780 →
      ((r - cEnergySamplesToDisplay + (j : ℤ)) % cEnergyBufferLength).toNat < buf.length
        ∧ (windowSpec buf r)[j]?
          = buf[((r - cEnergySamplesToDisplay + (j : ℤ)) % cEnergyBufferLength).toNat]? := by
    intro j hj
    unfold cEnergySamplesToDisplay cEnergyBufferLength
    have hlt : ((r - 780 + (j : ℤ)) % 1000).toNat < buf.length := by
      rw [hbuf]
      omega
    refine ⟨hlt, ?_⟩
    rw [windowSpec_getElem?, if_pos hj, List.getD_eq_getElem?_getD,
      List.getElem?_eq_getElem hlt]
    rfl
  refine ⟨copyEnergyWindow_eq disp buf r hbuf hdisp h0 h1, ?_, hidx, ?_⟩
  · unfold windowSpec cEnergySamplesToDisplay
    rw [List.length_map, List.length_range]
    rfl
  · rw [(hidx 779 (by norm_num)).2]
    unfold cEnergySamplesToDisplay
    congr 2
    ring_nf

/-- C7, an instance: the boundary case of read cursor 0, where the tail segment alone has
780 elements, on the buffer of the constructed state. -/
theorem window_copy_is_modular_window_witness :
    copyEnergyWindow (List.replicate 780 0) (List.replicate 1000 0) 0
        = some (windowSpec (List.replicate 1000 0) 0)
      ∧ (windowSpec (List.replicate 1000 0) 0).length = 780
      ∧ (∀ j : ℕ, j < 780 →
          (((0 : ℤ) - cEnergySamplesToDisplay + (j : ℤ)) % cEnergyBufferLength).toNat
              < (List.replicate 1000 (0 : ℝ)).length
            ∧ (windowSpec (List.replicate 1000 0) 0)[j]?
              = (List.replicate 1000 (0 : ℝ))[(((0 : ℤ) - cEnergySamplesToDisplay + (j : ℤ))
                  % cEnergyBufferLength).toNat]?)
      ∧ (windowSpec (List.replicate 1000 0) 0)[779]?
          = (List.replicate 1000 (0 : ℝ))[(((0 : ℤ) - 1) % cEnergyBufferLength).toNat]? :=
  window_copy_is_modular_window (List.replicate 780 0) (List.replicate 1000 0) 0
    (List.length_replicate 1000 0) (List.length_replicate 780 0) (le_refl 0)
    (by decide : (0 : ℤ) < 1000)

/-! ## The invariant of the reachable states -/

theorem floatToInt_of_nonneg (x : ℝ) (h : 0 ≤ x) : floatToInt x = ⌊x⌋ := by
  unfold floatToInt
  rw [if_pos h]

theorem Inv_construct (a c : ℝ) : Inv (construct a c) where
  error_nonneg := le_refl (0 : ℝ)
  count_nonneg := le_refl (0 : ℤ)
  count_lt := (by decide : (0 : ℤ) < 40)
  index_nonneg := le_refl (0 : ℤ)
  index_lt := (by decide : (0 : ℤ) < 1000)
  refresh_nonneg := le_refl (0 : ℤ)
  refresh_lt := (by decide : (0 : ℤ) < 1000)
  available_nonneg := le_refl (0 : ℤ)
  ring := (by decide : ((0 : ℤ) + 0) % 1000 = 0)
  buffer_length := List.length_replicate _ _
  display_length := List.length_replicate _ _

theorem Inv_ingestSample (a c : ℝ) (s : State) (x : ℝ) (h : Inv s) :
    Inv (ingestSample a c s x) := by
  obtain ⟨h1, h3, h4, h5, h6, h7, h8, h9, h10, h11, h12⟩ := h
  unfold cAudioSamplesPerEnergySample at h4
  unfold cEnergyBufferLength at h6 h8 h10
  by_cases hc : s.m_nAccumulatedSampleCount + 1 < cAudioSamplesPerEnergySample
  · rw [ingestSample_accumulate a c s x hc]
    unfold cAudioSamplesPerEnergySample at hc
    exact ⟨h1, by simp only; omega, hc, h5, h6, h7, h8, h9, h10, h11, h12⟩
  · rw [ingestSample_emit a c s x hc]
    have hmod : (s.m_nEnergyIndex + 1).tmod cEnergyBufferLength
        = (s.m_nEnergyIndex + 1) % 1000 := by
      unfold cEnergyBufferLength
      exact Int.tmod_eq_emod (by omega) (by norm_num)
    refine ⟨h1, le_refl (0 : ℤ), (by decide : (0 : ℤ) < 40), ?_, ?_, h7, h8, ?_, ?_, ?_,
      h12⟩
    · simp only [hmod]; omega
    · simp only [hmod]; unfold cEnergyBufferLength; omega
    · simp only; omega
    · simp only [hmod]; unfold cEnergyBufferLength; omega
    · simp only [List.length_set]; exact h11

theorem Inv_ingest (a c : ℝ) (samples : List ℝ) (s : State) (h : Inv s) :
    Inv (ingest s samples a c) := by
  induction samples generalizing s with
  | nil => exact h
  | cons x xs ih =>
    rw [ingest_cons]
    exact ih _ (Inv_ingestSample a c s x h)

theorem energyToAdvance_nonneg (s : State) (now : ℕ) (h : 0 ≤ s.m_fEnergyError) :
    0 ≤ energyToAdvance s now := by
  unfold energyToAdvance cAudioSamplesPerEnergySample
  have : (0 : ℝ) ≤ ((elapsedTimesRate now s.m_nLastEnergyRefreshTime : ℕ) : ℝ) / 1000
      / ((40 : ℤ) : ℝ) := by positivity
  linarith

/-- The number of samples to advance lies between 0 and the number available, and what
is left of the wanted advance is not negative; it is below 1 unless the number available
capped the advance. -/
theorem energySamplesToAdvance_bounds (s : State) (now : ℕ)
    (herr : 0 ≤ s.m_fEnergyError) (hav : 0 ≤ s.m_nNewEnergyAvailable) :
    0 ≤ energySamplesToAdvance s now
      ∧ energySamplesToAdvance s now ≤ s.m_nNewEnergyAvailable
      ∧ 0 ≤ energyToAdvance s now - (energySamplesToAdvance s now : ℝ)
      ∧ (floatToInt (energyToAdvance s now) ≤ s.m_nNewEnergyAvailable →
          energyToAdvance s now - (energySamplesToAdvance s now : ℝ) < 1) := by
  have he := energyToAdvance_nonneg s now herr
  have hf := floatToInt_of_nonneg _ he
  have hfl : (0 : ℤ) ≤ ⌊energyToAdvance s now⌋ := Int.floor_nonneg.mpr he
  have hle : ((⌊energyToAdvance s now⌋ : ℤ) : ℝ) ≤ energyToAdvance s now := Int.floor_le _
  have hlt : energyToAdvance s now < ((⌊energyToAdvance s now⌋ : ℤ) : ℝ) + 1 :=
    Int.lt_floor_add_one _
  unfold energySamplesToAdvance
  rw [hf]
  refine ⟨le_min hav hfl, min_le_left _ _, ?_, ?_⟩
  · have : ((min s.m_nNewEnergyAvailable ⌊energyToAdvance s now⌋ : ℤ) : ℝ)
        ≤ ((⌊energyToAdvance s now⌋ : ℤ) : ℝ) := by
      exact_mod_cast min_le_right _ _
    linarith
  · intro hcap
    rw [min_eq_right hcap]
    linarith

theorem elapsedTimesRate_self (t : ℕ) : elapsedTimesRate t t = 0 := by
  unfold elapsedTimesRate
  have h : t % 2 ^ 64 + 2 ^ 64 - t % 2 ^ 64 = 2 ^ 64 := by omega
  rw [h]
  simp

theorem Update_early (s : State) (now : ℕ) (h : s.m_nNewEnergyAvailable ≤ 0) :
    Update s now = some { s with m_nLastEnergyRefreshTime := now } := by
  unfold Update
  simp only
  rw [if_pos h]

theorem Update_first (s : State) (now : ℕ) (hinv : Inv s)
    (h : ¬ s.m_nNewEnergyAvailable ≤ 0) (hlast : s.m_nLastEnergyRefreshTime = 0) :
    Update s now = some
      { s with
        m_nLastEnergyRefreshTime := now
        m_fEnergyDisplayBuffer := windowSpec s.m_fEnergyBuffer s.m_nEnergyRefreshIndex } := by
  unfold Update
  simp only
  rw [if_neg h, if_neg (by simp [hlast])]
  simp only
  rw [copyEnergyWindow_eq _ _ _ hinv.buffer_length hinv.display_length hinv.refresh_nonneg
    hinv.refresh_lt]
  rfl

theorem Update_advance (s : State) (now : ℕ) (hinv : Inv s)
    (h : ¬ s.m_nNewEnergyAvailable ≤ 0) (hlast : s.m_nLastEnergyRefreshTime ≠ 0) :
    Update s now = some
      { advanceRefreshIndex s now with
        m_nLastEnergyRefreshTime := now
        m_fEnergyDisplayBuffer := windowSpec s.m_fEnergyBuffer
          ((s.m_nEnergyRefreshIndex + energySamplesToAdvance s now) % cEnergyBufferLength) } := by
  obtain ⟨b1, b2, _, _⟩ :=
    energySamplesToAdvance_bounds s now hinv.error_nonneg hinv.available_nonneg
  have hr0 := hinv.refresh_nonneg
  have hmod : (s.m_nEnergyRefreshIndex + energySamplesToAdvance s now).tmod cEnergyBufferLength
      = (s.m_nEnergyRefreshIndex + energySamplesToAdvance s now) % cEnergyBufferLength :=
    Int.tmod_eq_emod (by omega) (by decide)
  have hlo : 0 ≤ (s.m_nEnergyRefreshIndex + energySamplesToAdvance s now)
      % cEnergyBufferLength := Int.emod_nonneg _ (by decide)
  have hhi : (s.m_nEnergyRefreshIndex + energySamplesToAdvance s now) % cEnergyBufferLength
      < cEnergyBufferLength := Int.emod_lt_of_pos _ (by decide)
  unfold Update
  simp only
  rw [if_neg h, if_pos hlast]
  simp only [advanceRefreshIndex, hmod]
  rw [copyEnergyWindow_eq _ _ _ hinv.buffer_length hinv.display_length hlo hhi]
  rfl

theorem windowSpec_length (buf : List ℝ) (r : ℤ) :
    (windowSpec buf r).length = cEnergySamplesToDisplay.toNat := by
  unfold windowSpec
  rw [List.length_map, List.length_range]

/-- What a refresh leaves, by the three ways through `Update`. -/
theorem Update_cases (s : State) (now : ℕ) (hinv : Inv s) :
    (s.m_nNewEnergyAvailable ≤ 0
        ∧ Update s now = some { s with m_nLastEnergyRefreshTime := now })
      ∨ (¬ s.m_nNewEnergyAvailable ≤ 0 ∧ s.m_nLastEnergyRefreshTime = 0
        ∧ Update s now = some
          { s with
            m_nLastEnergyRefreshTime := now
            m_fEnergyDisplayBuffer :=
              windowSpec s.m_fEnergyBuffer s.m_nEnergyRefreshIndex })
      ∨ (¬ s.m_nNewEnergyAvailable ≤ 0 ∧ s.m_nLastEnergyRefreshTime ≠ 0
        ∧ Update s now = some
          { advanceRefreshIndex s now with
            m_nLastEnergyRefreshTime := now
            m_fEnergyDisplayBuffer := windowSpec s.m_fEnergyBuffer
              ((s.m_nEnergyRefreshIndex + energySamplesToAdvance s now)
                % cEnergyBufferLength) }) := by
  by_cases h : s.m_nNewEnergyAvailable ≤ 0
  · exact Or.inl ⟨h, Update_early s now h⟩
  · by_cases hl : s.m_nLastEnergyRefreshTime = 0
    · exact Or.inr (Or.inl ⟨h, hl, Update_first s now hinv h hl⟩)
    · exact Or.inr (Or.inr ⟨h, hl, Update_advance s now hinv h hl⟩)

theorem Update_isSome (s : State) (now : ℕ) (hinv : Inv s) : ∃ s', Update s now = some s' := by
  rcases Update_cases s now hinv with ⟨_, h⟩ | ⟨_, _, h⟩ | ⟨_, _, h⟩ <;>
    exact ⟨_, h⟩

theorem Inv_Update (s s' : State) (now : ℕ) (hinv : Inv s) (hu : Update s now = some s') :
    Inv s' := by
  obtain ⟨h1, h3, h4, h5, h6, h7, h8, h9, h10, h11, h12⟩ := hinv
  have hinv : Inv s := ⟨h1, h3, h4, h5, h6, h7, h8, h9, h10, h11, h12⟩
  rcases Update_cases s now hinv with ⟨_, h⟩ | ⟨_, _, h⟩ | ⟨_, _, h⟩
  · rw [h] at hu
    cases hu
    exact ⟨h1, h3, h4, h5, h6, h7, h8, h9, h10, h11, h12⟩
  · rw [h] at hu
    cases hu
    exact ⟨h1, h3, h4, h5, h6, h7, h8, h9, h10, h11, by simp only; exact windowSpec_length _ _⟩
  · rw [h] at hu
    cases hu
    obtain ⟨b1, b2, b3, _⟩ := energySamplesToAdvance_bounds s now h1 h9
    have hmod : (s.m_nEnergyRefreshIndex + energySamplesToAdvance s now).tmod
        cEnergyBufferLength
        = (s.m_nEnergyRefreshIndex + energySamplesToAdvance s now) % 1000 :=
      Int.tmod_eq_emod (by omega) (by decide)
    unfold cEnergyBufferLength at h8 h10
    refine ⟨b3, h3, h4, h5, h6, ?_, ?_, ?_, ?_, h11, by simp only; exact windowSpec_length _ _⟩
    · simp only [advanceRefreshIndex, hmod]; omega
    · simp only [advanceRefreshIndex, hmod]; unfold cEnergyBufferLength; omega
    · simp only [advanceRefreshIndex]; omega
    · simp only [advanceRefreshIndex, hmod]; unfold cEnergyBufferLength; omega

theorem Reachable_inv (s : State) (h : Reachable s) : Inv s := by
  induction h with
  | construct a c => exact Inv_construct a c
  | ingest samples a c _ ih => exact Inv_ingest a c samples _ ih
  | refresh now _ _ _ hu ih => exact Inv_Update _ _ now ih hu

theorem ingestSample_keeps_refresh (a c : ℝ) (s : State) (x : ℝ) :
    (ingestSample a c s x).m_fEnergyError = s.m_fEnergyError
      ∧ (ingestSample a c s x).m_nLastEnergyRefreshTime = s.m_nLastEnergyRefreshTime
      ∧ (ingestSample a c s x).m_nEnergyRefreshIndex = s.m_nEnergyRefreshIndex
      ∧ (ingestSample a c s x).m_fEnergyDisplayBuffer = s.m_fEnergyDisplayBuffer := by
  by_cases hc : s.m_nAccumulatedSampleCount + 1 < cAudioSamplesPerEnergySample
  · rw [ingestSample_accumulate a c s x hc]
    exact ⟨rfl, rfl, rfl, rfl⟩
  · rw [ingestSample_emit a c s x hc]
    exact ⟨rfl, rfl, rfl, rfl⟩

theorem ingest_keeps_refresh (a c : ℝ) (samples : List ℝ) (s : State) :
    (ingest s samples a c).m_fEnergyError = s.m_fEnergyError
      ∧ (ingest s samples a c).m_nLastEnergyRefreshTime = s.m_nLastEnergyRefreshTime
      ∧ (ingest s samples a c).m_nEnergyRefreshIndex = s.m_nEnergyRefreshIndex
      ∧ (ingest s samples a c).m_fEnergyDisplayBuffer = s.m_fEnergyDisplayBuffer := by
  induction samples generalizing s with
  | nil => exact ⟨rfl, rfl, rfl, rfl⟩
  | cons x xs ih =>
    rw [ingest_cons]
    obtain ⟨i1, i2, i3, i4⟩ := ih (ingestSample a c s x)
    obtain ⟨j1, j2, j3, j4⟩ := ingestSample_keeps_refresh a c s x
    exact ⟨i1.trans j1, i2.trans j2, i3.trans j3, i4.trans j4⟩

/-- Before the first refresh at a tick count other than 0 the error is still 0. -/
theorem Reachable_error_first (s : State) (h : Reachable s)
    (hl : s.m_nLastEnergyRefreshTime = 0) : s.m_fEnergyError = 0 := by
  induction h with
  | construct a c => rfl
  | ingest samples a c _ ih =>
    obtain ⟨i1, i2, _, _⟩ := ingest_keeps_refresh a c samples _
    rw [i1]
    exact ih (i2 ▸ hl)
  | @refresh s0 s1 now hs hnow _ hu ih =>
    rcases Update_cases s0 now (Reachable_inv s0 hs) with
      ⟨_, h⟩ | ⟨_, _, h⟩ | ⟨_, hne, h⟩
    · rw [h] at hu
      cases hu
      simp only at hl
      exact ih (by omega)
    · rw [h] at hu
      cases hu
      simp only at hl
      exact ih (by omega)
    · rw [h] at hu
      cases hu
      simp only at hl
      exact absurd (by omega : s0.m_nLastEnergyRefreshTime = 0) hne

/-! ## The example trace -/

theorem Reachable_stateFirstRefresh : Reachable stateFirstRefresh :=
  Reachable.refresh 5 (Reachable.construct 0 0) (Nat.zero_le 5) (by norm_num)
    (Update_early (construct 0 0) 5 (le_refl (0 : ℤ)))

theorem Reachable_statePending : Reachable statePending :=
  Reachable.ingest _ 0 0 Reachable_stateFirstRefresh

theorem statePending_fields :
    statePending.m_fEnergyError = 0 ∧ statePending.m_nLastEnergyRefreshTime = 5
      ∧ statePending.m_nNewEnergyAvailable = 1 ∧ statePending.m_nEnergyRefreshIndex = 0 := by
  obtain ⟨i1, i2, i3, _⟩ := ingest_keeps_refresh 0 0 (List.replicate 40 0) stateFirstRefresh
  obtain ⟨k1, _⟩ := ingest_count 0 0 (List.replicate 40 0) stateFirstRefresh
    (le_refl (0 : ℤ)) (by decide : (0 : ℤ) < 40)
  unfold statePending
  refine ⟨i1, i2, ?_, i3⟩
  rw [k1]
  simp only [stateFirstRefresh, construct, List.length_replicate]
  norm_num

theorem energyToAdvance_statePending_15 : energyToAdvance statePending 15 = 4 := by
  unfold energyToAdvance
  rw [statePending_fields.1, statePending_fields.2.1]
  have h : elapsedTimesRate 15 5 = 160000 := by
    have h16 : Int.toNat 16000 = 16000 := rfl
    unfold elapsedTimesRate cAudioSamplesPerSecond
    rw [h16]
    norm_num
  rw [h]
  unfold cAudioSamplesPerEnergySample
  norm_num

theorem energyToAdvance_statePending_7 : energyToAdvance statePending 7 = 4 / 5 := by
  unfold energyToAdvance
  rw [statePending_fields.1, statePending_fields.2.1]
  have h : elapsedTimesRate 7 5 = 32000 := by
    have h16 : Int.toNat 16000 = 16000 := rfl
    unfold elapsedTimesRate cAudioSamplesPerSecond
    rw [h16]
    norm_num
  rw [h]
  unfold cAudioSamplesPerEnergySample
  norm_num

/-! ## The refresh -/

theorem energyToAdvance_ge_error (s : State) (now : ℕ) :
    s.m_fEnergyError ≤ energyToAdvance s now := by
  unfold energyToAdvance cAudioSamplesPerEnergySample
  have : (0 : ℝ) ≤ ((elapsedTimesRate now s.m_nLastEnergyRefreshTime : ℕ) : ℝ) / 1000
      / ((40 : ℤ) : ℝ) := by positivity
  linarith

theorem floatToInt_eq_zero (x : ℝ) (h0 : 0 ≤ x) (h1 : x < 1) : floatToInt x = 0 := by
  rw [floatToInt_of_nonneg x h0, Int.floor_eq_iff]
  constructor
  · simpa using h0
  · simpa using h1

theorem lt_one_of_floatToInt_nonpos (x : ℝ) (h0 : 0 ≤ x) (h : floatToInt x ≤ 0) : x < 1 := by
  rw [floatToInt_of_nonneg x h0] at h
  have h1 := Int.lt_floor_add_one x
  have h2 : ((⌊x⌋ : ℤ) : ℝ) ≤ 0 := by exact_mod_cast h
  linarith

/-- What every refresh leaves, in terms of `advanceInt`. -/
theorem Update_effect (s : State) (now : ℕ) (hs : Reachable s) :
    ∃ s', Update s now = some s'
      ∧ s'.m_nLastEnergyRefreshTime = now
      ∧ 0 ≤ advanceInt s now ∧ advanceInt s now ≤ s.m_nNewEnergyAvailable
      ∧ s'.m_nNewEnergyAvailable = s.m_nNewEnergyAvailable - advanceInt s now
      ∧ s'.m_nEnergyRefreshIndex
          = (s.m_nEnergyRefreshIndex + advanceInt s now) % cEnergyBufferLength
      ∧ 0 ≤ s'.m_fEnergyError
      ∧ (floatToInt (energyToAdvance s now) ≤ s.m_nNewEnergyAvailable →
          s'.m_fEnergyError < 1)
      ∧ (s'.m_nNewEnergyAvailable ≤ 0 ∨
          (s'.m_fEnergyError < 1
            ∧ s'.m_fEnergyDisplayBuffer
              = windowSpec s'.m_fEnergyBuffer s'.m_nEnergyRefreshIndex)) := by
  have hinv := Reachable_inv s hs
  have h0 := hinv.error_nonneg
  have hr0 := hinv.refresh_nonneg
  have hr1 := hinv.refresh_lt
  have hp := hinv.available_nonneg
  unfold cEnergyBufferLength at hr1
  have hself : s.m_nEnergyRefreshIndex = (s.m_nEnergyRefreshIndex + 0) % cEnergyBufferLength := by
    unfold cEnergyBufferLength
    omega
  rcases Update_cases s now hinv with ⟨hle, h⟩ | ⟨hpos, hl, h⟩ | ⟨hpos, hl, h⟩
  · have hadv : advanceInt s now = 0 := by
      unfold advanceInt
      rw [if_neg (by intro hh; omega)]
    refine ⟨_, h, rfl, ?_, ?_, ?_, ?_, h0, ?_, Or.inl hle⟩
    · rw [hadv]
    · rw [hadv]; exact hp
    · rw [hadv]; simp
    · rw [hadv]; exact hself
    · intro hcap
      have hx := lt_one_of_floatToInt_nonpos _ (energyToAdvance_nonneg s now h0)
        (le_trans hcap hle)
      exact lt_of_le_of_lt (energyToAdvance_ge_error s now) hx
  · have hadv : advanceInt s now = 0 := by
      unfold advanceInt
      rw [if_neg (by intro hh; exact hh.2 hl)]
    have herr : s.m_fEnergyError = 0 := Reachable_error_first s hs hl
    have hlt : s.m_fEnergyError < 1 := by rw [herr]; exact zero_lt_one
    refine ⟨_, h, rfl, ?_, ?_, ?_, ?_, h0, fun _ => hlt, Or.inr ⟨hlt, by simp only⟩⟩
    · rw [hadv]
    · rw [hadv]; exact hp
    · rw [hadv]; simp
    · rw [hadv]; exact hself
  · have hadv : advanceInt s now = energySamplesToAdvance s now := by
      unfold advanceInt
      rw [if_pos ⟨by omega, hl⟩]
    obtain ⟨b1, b2, b3, b4⟩ := energySamplesToAdvance_bounds s now h0 hp
    have hmod : (s.m_nEnergyRefreshIndex + energySamplesToAdvance s now).tmod
        cEnergyBufferLength
        = (s.m_nEnergyRefreshIndex + energySamplesToAdvance s now) % cEnergyBufferLength :=
      Int.tmod_eq_emod (by omega) (by decide)
    rw [hadv]
    refine ⟨_, h, rfl, b1, b2, rfl, hmod, b3, b4, ?_⟩
    by_cases hcap : floatToInt (energyToAdvance s now) ≤ s.m_nNewEnergyAvailable
    · refine Or.inr ⟨b4 hcap, ?_⟩
      simp only [advanceRefreshIndex, hmod]
    · refine Or.inl ?_
      have hmin : energySamplesToAdvance s now = s.m_nNewEnergyAvailable := by
        unfold energySamplesToAdvance
        exact min_eq_left (by omega)
      simp only [advanceRefreshIndex, hmin]
      omega

/-! ## Refreshing twice at the same tick count -/

theorem energyToAdvance_same_tick (s : State) (t : ℕ) (h : s.m_nLastEnergyRefreshTime = t) :
    energyToAdvance s t = s.m_fEnergyError := by
  unfold energyToAdvance
  rw [h, elapsedTimesRate_self]
  simp

/-- C8: for every reachable state and every tick count `t`, a refresh at `t` succeeds and a
second refresh at `t`, with nothing read in between, succeeds and leaves the state the
first one left: the same window, read cursor, number of unread values and drift-correction
scalar, also when unread values remain after the first call. -/
theorem refresh_twice_is_noop (s : State) (hs : Reachable s) (t : ℕ) :
    ∃ s1 s2, Update s t = some s1 ∧ Update s1 t = some s2
      ∧ s2.m_fEnergyDisplayBuffer = s1.m_fEnergyDisplayBuffer
      ∧ s2.m_nEnergyRefreshIndex = s1.m_nEnergyRefreshIndex
      ∧ s2.m_nNewEnergyAvailable = s1.m_nNewEnergyAvailable
      ∧ s2.m_fEnergyError = s1.m_fEnergyError
      ∧ s2 = s1 := by
  obtain ⟨s1, h1, hlast, _, _, _, _, herr0, _, hor⟩ := Update_effect s t hs
  have inv1 : Inv s1 := Inv_Update s s1 t (Reachable_inv s hs) h1
  have hsame : Update s1 t = some s1 := by
    rcases Update_cases s1 t inv1 with ⟨_, h⟩ | ⟨hpos, _, h⟩ | ⟨hpos, _, h⟩
    · rw [h]
      refine congrArg some ?_
      apply State.ext <;> first | rfl | exact hlast.symm
    · rcases hor with hle | ⟨_, hdisp⟩
      · exact absurd hle hpos
      · rw [h]
        refine congrArg some ?_
        apply State.ext
        case m_fEnergyDisplayBuffer =>
          simp only
          exact hdisp.symm
        case m_nLastEnergyRefreshTime => exact hlast.symm
        all_goals rfl
    · rcases hor with hle | ⟨hlt, hdisp⟩
      · exact absurd hle hpos
      · have he : energyToAdvance s1 t = s1.m_fEnergyError :=
          energyToAdvance_same_tick s1 t hlast
        have hadv : energySamplesToAdvance s1 t = 0 := by
          unfold energySamplesToAdvance
          rw [he, floatToInt_eq_zero _ herr0 hlt]
          exact min_eq_right (by omega)
        have hr0 := inv1.refresh_nonneg
        have hr1 := inv1.refresh_lt
        unfold cEnergyBufferLength at hr1
        have hmod : (s1.m_nEnergyRefreshIndex + 0) % cEnergyBufferLength
            = s1.m_nEnergyRefreshIndex := by
          unfold cEnergyBufferLength
          omega
        have hmod2 : (s1.m_nEnergyRefreshIndex + 0).tmod cEnergyBufferLength
            = s1.m_nEnergyRefreshIndex := by
          rw [Int.tmod_eq_emod (by omega) (by decide)]
          exact hmod
        rw [h]
        refine congrArg some ?_
        apply State.ext
        case m_fEnergyDisplayBuffer =>
          simp only [advanceRefreshIndex, hadv, hmod]
          exact hdisp.symm
        case m_nLastEnergyRefreshTime => exact hlast.symm
        case m_fEnergyError =>
          simp only [advanceRefreshIndex, hadv, he]
          simp
        case m_nEnergyRefreshIndex =>
          simp only [advanceRefreshIndex, hadv, hmod2]
        case m_nNewEnergyAvailable =>
          simp only [advanceRefreshIndex, hadv]
          simp
        all_goals rfl
  exact ⟨s1, s1, h1, hsame, rfl, rfl, rfl, rfl, rfl⟩

/-- C8, an instance: two refreshes at tick count 7 of the state with one unread value,
which is still unread after the first. -/
theorem refresh_twice_is_noop_witness :
    ∃ s1 s2, Update statePending 7 = some s1 ∧ Update s1 7 = some s2
      ∧ s2.m_fEnergyDisplayBuffer = s1.m_fEnergyDisplayBuffer
      ∧ s2.m_nEnergyRefreshIndex = s1.m_nEnergyRefreshIndex
      ∧ s2.m_nNewEnergyAvailable = s1.m_nNewEnergyAvailable
      ∧ s2.m_fEnergyError = s1.m_fEnergyError
      ∧ s2 = s1 :=
  refresh_twice_is_noop statePending Reachable_statePending 7

/-! ## The effect of one energy emission -/

/-- C11: the sample that completes a group, read in a state whose write index lies in the
buffer, stores the display value of the group at the write index and changes no other
buffer element; it moves the write index on by one modulo `N_hist`, adds exactly one to the
number of unread values, stores the beam angle and confidence passed to this read, resets
the accumulator, and leaves the read cursor, the drift-correction scalar, the time of the
last refresh and the display buffer as they were. -/
theorem emission_frame (a c : ℝ) (s : State) (x : ℝ)
    (hfull : ¬ s.m_nAccumulatedSampleCount + 1 < cAudioSamplesPerEnergySample)
    (hidx : 0 ≤ s.m_nEnergyIndex) (hbuf : s.m_nEnergyIndex < s.m_fEnergyBuffer.length) :
    (ingestSample a c s x).m_fEnergyBuffer[s.m_nEnergyIndex.toNat]?
        = some (energyDisplay (s.m_fAccumulatedSquareSum + x * x))
      ∧ (∀ j : ℕ, j ≠ s.m_nEnergyIndex.toNat →
          (ingestSample a c s x).m_fEnergyBuffer[j]? = s.m_fEnergyBuffer[j]?)
      ∧ (ingestSample a c s x).m_fEnergyBuffer.length = s.m_fEnergyBuffer.length
      ∧ (ingestSample a c s x).m_nEnergyIndex = (s.m_nEnergyIndex + 1) % cEnergyBufferLength
      ∧ (ingestSample a c s x).m_nNewEnergyAvailable = s.m_nNewEnergyAvailable + 1
      ∧ (ingestSample a c s x).m_fBeamAngle = a
      ∧ (ingestSample a c s x).m_fBeamAngleConfidence = c
      ∧ (ingestSample a c s x).m_fAccumulatedSquareSum = 0
      ∧ (ingestSample a c s x).m_nAccumulatedSampleCount = 0
      ∧ (ingestSample a c s x).m_nEnergyRefreshIndex = s.m_nEnergyRefreshIndex
      ∧ (ingestSample a c s x).m_fEnergyError = s.m_fEnergyError
      ∧ (ingestSample a c s x).m_nLastEnergyRefreshTime = s.m_nLastEnergyRefreshTime
      ∧ (ingestSample a c s x).m_fEnergyDisplayBuffer = s.m_fEnergyDisplayBuffer := by
  rw [ingestSample_emit a c s x hfull]
  refine ⟨?_, ?_, ?_, ?_, rfl, rfl, rfl, rfl, rfl, rfl, rfl, rfl, rfl⟩
  · simp only [List.getElem?_set, if_true]
    rw [if_pos (by omega)]
  · intro j hj
    simp only [List.getElem?_set]
    rw [if_neg (fun h => hj h.symm)]
  · simp only [List.length_set]
  · exact Int.tmod_eq_emod (by omega) (by decide)

/-- C11, an instance: the fortieth sample, of amplitude 1, read with beam angle 1 and
confidence 1/2 after 39 silent samples. -/
theorem emission_frame_witness :
    (ingestSample 1 (1 / 2) stateGroupAlmostFull 1).m_fEnergyBuffer[Int.toNat
          stateGroupAlmostFull.m_nEnergyIndex]?
        = some (energyDisplay (stateGroupAlmostFull.m_fAccumulatedSquareSum + 1 * 1))
      ∧ (∀ j : ℕ, j ≠ stateGroupAlmostFull.m_nEnergyIndex.toNat →
          (ingestSample 1 (1 / 2) stateGroupAlmostFull 1).m_fEnergyBuffer[j]?
            = stateGroupAlmostFull.m_fEnergyBuffer[j]?)
      ∧ (ingestSample 1 (1 / 2) stateGroupAlmostFull 1).m_fEnergyBuffer.length
          = stateGroupAlmostFull.m_fEnergyBuffer.length
      ∧ (ingestSample 1 (1 / 2) stateGroupAlmostFull 1).m_nEnergyIndex
          = (stateGroupAlmostFull.m_nEnergyIndex + 1) % cEnergyBufferLength
      ∧ (ingestSample 1 (1 / 2) stateGroupAlmostFull 1).m_nNewEnergyAvailable
          = stateGroupAlmostFull.m_nNewEnergyAvailable + 1
      ∧ (ingestSample 1 (1 / 2) stateGroupAlmostFull 1).m_fBeamAngle = 1
      ∧ (ingestSample 1 (1 / 2) stateGroupAlmostFull 1).m_fBeamAngleConfidence = 1 / 2
      ∧ (ingestSample 1 (1 / 2) stateGroupAlmostFull 1).m_fAccumulatedSquareSum = 0
      ∧ (ingestSample 1 (1 / 2) stateGroupAlmostFull 1).m_nAccumulatedSampleCount = 0
      ∧ (ingestSample 1 (1 / 2) stateGroupAlmostFull 1).m_nEnergyRefreshIndex
          = stateGroupAlmostFull.m_nEnergyRefreshIndex
      ∧ (ingestSample 1 (1 / 2) stateGroupAlmostFull 1).m_fEnergyError
          = stateGroupAlmostFull.m_fEnergyError
      ∧ (ingestSample 1 (1 / 2) stateGroupAlmostFull 1).m_nLastEnergyRefreshTime
          = stateGroupAlmostFull.m_nLastEnergyRefreshTime
      ∧ (ingestSample 1 (1 / 2) stateGroupAlmostFull 1).m_fEnergyDisplayBuffer
          = stateGroupAlmostFull.m_fEnergyDisplayBuffer :=
  emission_frame 1 (1 / 2) stateGroupAlmostFull 1
    (by decide : ¬ ((39 : ℤ) + 1 < 40)) (le_refl (0 : ℤ))
    (by
      simp only [stateGroupAlmostFull, construct, List.length_replicate, cEnergyBufferLength]
      decide)

/-! ## The confidence gate -/

/-- C12: in every frame in which the stored beam confidence is below 0.5, whatever the beam
angle and whatever the slots deliver, `ProcessFaces` highlights no face slot: it makes no
call of `DrawFaceFrameResults`, and draws the background instead. -/
theorem no_highlight_below_confidence (n : ℕ) (s : State) (f : FrameInput)
    (audio : AudioRead) (hconf : s.m_fBeamAngleConfidence < 0.5) :
    highlighted (ProcessFaces n s f audio).1 = []
      ∧ (∀ i, FaceAction.DrawFaceFrameResults i ∉ (ProcessFaces n s f audio).1)
      ∧ (ProcessFaces n s f audio).1 = [FaceAction.DrawBackgroundA] := by
  have hcalls : (ProcessFaces n s f audio).1 = [FaceAction.DrawBackgroundA] := by
    unfold ProcessFaces
    simp only [faceLoop_of_low_confidence n s f hconf]
    rfl
  rw [hcalls]
  refine ⟨rfl, fun i => ?_, rfl⟩
  simp

/-- C12, an instance: six centred tracked faces and beam angle 0, at confidence 0.3. -/
theorem no_highlight_below_confidence_witness :
    (stateWithBeam 0 (3 / 10)).m_fBeamAngleConfidence < 0.5
      ∧ highlighted
          (ProcessFaces 6 (stateWithBeam 0 (3 / 10)) frameAllCentred noAudio).1 = []
      ∧ (∀ i, FaceAction.DrawFaceFrameResults i
          ∉ (ProcessFaces 6 (stateWithBeam 0 (3 / 10)) frameAllCentred noAudio).1)
      ∧ (ProcessFaces 6 (stateWithBeam 0 (3 / 10)) frameAllCentred noAudio).1
          = [FaceAction.DrawBackgroundA] :=
  ⟨by rw [(stateWithBeam_eq 0 (3 / 10)).2]; norm_num,
    no_highlight_below_confidence 6 (stateWithBeam 0 (3 / 10)) frameAllCentred noAudio
      (by rw [(stateWithBeam_eq 0 (3 / 10)).2]; norm_num)⟩

/-! ## Silence and full scale -/

theorem sumSquares_eq_zero_of_silent (group : List ℝ) (h : ∀ x ∈ group, x = 0) :
    sumSquares group = 0 := by
  induction group with
  | nil => simp [sumSquares]
  | cons x xs ih =>
    rw [sumSquares_cons, ih (fun y hy => h y (List.mem_cons_of_mem x hy)),
      h x (List.mem_cons_self x xs)]
    simp

theorem energyDisplay_full_scale (S : ℝ) (h : 1 ≤ S / 40) : energyDisplay S = 1 := by
  have hm := meanSquare_of_one_le S h
  rw [energyDisplay_of_pos S (by rw [hm]; exact zero_lt_one), hm]
  simp

/-- The value a complete group leaves at the write index. -/
theorem ingest_group_stores (s : State) (group : List ℝ) (a c : ℝ)
    (hlen : group.length = 40)
    (hcount : s.m_nAccumulatedSampleCount = 0) (hsum : s.m_fAccumulatedSquareSum = 0)
    (hidx : 0 ≤ s.m_nEnergyIndex) (hbuf : s.m_nEnergyIndex < s.m_fEnergyBuffer.length) :
    (ingest s group a c).m_fEnergyBuffer[s.m_nEnergyIndex.toNat]?
      = some (energyDisplay (sumSquares group)) := by
  have hne : group ≠ [] := by
    intro h0
    rw [h0] at hlen
    simp at hlen
  have hk : s.m_nAccumulatedSampleCount + group.length = cAudioSamplesPerEnergySample := by
    rw [hcount, hlen]
    rfl
  rw [ingest_complete_group a c group s hne hk, hsum, zero_add]
  simp only [List.getElem?_set, if_true]
  rw [if_pos (by omega)]

/-- C15: a group of `K` = 40 samples that are all zero stores the display value 0, and a
group whose mean square is 1 or more stores the display value 1; no group stores a value
above 1. -/
theorem silence_zero_full_scale_one (s : State) (group : List ℝ) (a c : ℝ)
    (hlen : group.length = 40)
    (hcount : s.m_nAccumulatedSampleCount = 0) (hsum : s.m_fAccumulatedSquareSum = 0)
    (hidx : 0 ≤ s.m_nEnergyIndex) (hbuf : s.m_nEnergyIndex < s.m_fEnergyBuffer.length) :
    ((∀ x ∈ group, x = 0) →
        (ingest s group a c).m_fEnergyBuffer[s.m_nEnergyIndex.toNat]? = some 0)
      ∧ (1 ≤ sumSquares group / 40 →
        (ingest s group a c).m_fEnergyBuffer[s.m_nEnergyIndex.toNat]? = some 1)
      ∧ ∃ v, (ingest s group a c).m_fEnergyBuffer[s.m_nEnergyIndex.toNat]? = some v
          ∧ v ≤ 1 := by
  have hst := ingest_group_stores s group a c hlen hcount hsum hidx hbuf
  refine ⟨fun h0 => ?_, fun h1 => ?_, _, hst, energyDisplay_le_one _⟩
  · rw [hst, sumSquares_eq_zero_of_silent group h0, energyDisplay_zero]
  · rw [hst, energyDisplay_full_scale _ h1]

/-- C15, an instance: forty samples of amplitude 1, mean square 1, read after the
constructor. -/
theorem silence_zero_full_scale_one_witness :
    1 ≤ sumSquares (List.replicate 40 1) / 40
      ∧ ((∀ x ∈ List.replicate 40 (1 : ℝ), x = 0) →
        (ingest (construct 0 0) (List.replicate 40 1) 0 0).m_fEnergyBuffer[Int.toNat
          (construct 0 0).m_nEnergyIndex]? = some 0)
      ∧ (1 ≤ sumSquares (List.replicate 40 1) / 40 →
        (ingest (construct 0 0) (List.replicate 40 1) 0 0).m_fEnergyBuffer[Int.toNat
          (construct 0 0).m_nEnergyIndex]? = some 1)
      ∧ ∃ v, (ingest (construct 0 0) (List.replicate 40 1) 0 0).m_fEnergyBuffer[Int.toNat
          (construct 0 0).m_nEnergyIndex]? = some v ∧ v ≤ 1 :=
  ⟨by rw [sumSquares_replicate]; norm_num,
    silence_zero_full_scale_one (construct 0 0) (List.replicate 40 1) 0 0
      (List.length_replicate 40 1) rfl rfl (le_refl (0 : ℤ))
      (by simp only [construct, List.length_replicate, cEnergyBufferLength]; decide)⟩

/-! ## The display value below and above the noise floor -/

theorem meanSquare_pos_iff (S : ℝ) : 0 < meanSquare S ↔ 0 < S / 40 := by
  by_cases h1 : S / 40 ≤ 1
  · rw [meanSquare_of_le_one S h1]
  · have h2 : 1 ≤ S / 40 := le_of_lt (not_le.mp h1)
    rw [meanSquare_of_one_le S h2]
    constructor
    · intro _
      linarith
    · intro _
      exact zero_lt_one

/-- The display value of a sum of squares is not negative exactly when the mean square is
0 or at least `10 ^ -9`. -/
theorem energyDisplay_nonneg_iff_meanSquare (S : ℝ) (hS : 0 ≤ S) :
    0 ≤ energyDisplay S ↔ S / 40 = 0 ∨ 1 / 10 ^ 9 ≤ S / 40 := by
  have h40 : 0 ≤ S / 40 := by positivity
  by_cases hp : 0 < meanSquare S
  · have hpos : 0 < S / 40 := (meanSquare_pos_iff S).mp hp
    rw [energyDisplay_nonneg_iff S hp]
    by_cases h1 : S / 40 ≤ 1
    · rw [meanSquare_of_le_one S h1]
      constructor
      · intro h
        exact Or.inr h
      · rintro (h | h)
        · rw [h] at hpos
          exact absurd hpos (lt_irrefl 0)
        · exact h
    · have h2 : 1 ≤ S / 40 := le_of_lt (not_le.mp h1)
      rw [meanSquare_of_one_le S h2]
      constructor
      · intro _
        refine Or.inr (le_trans ?_ h2)
        norm_num
      · intro _
        norm_num
  · rw [energyDisplay_of_nonpos S hp]
    have hz : S / 40 = 0 := by
      have : ¬ 0 < S / 40 := fun h => hp ((meanSquare_pos_iff S).mpr h)
      linarith
    constructor
    · intro _
      exact Or.inl hz
    · intro _
      exact le_refl 0

/-- The display value does not decrease with the mean square from the noise floor up. -/
theorem energyDisplay_mono (S T : ℝ) (hS : 1 / 10 ^ 9 ≤ S / 40) (hST : S / 40 ≤ T / 40)
    (hT : T / 40 ≤ 1) : energyDisplay S ≤ energyDisplay T := by
  have hSpos : 0 < S / 40 := lt_of_lt_of_le (by norm_num) hS
  have hTpos : 0 < T / 40 := lt_of_lt_of_le hSpos hST
  have hmS := meanSquare_of_le_one S (le_trans hST hT)
  have hmT := meanSquare_of_le_one T hT
  rw [energyDisplay_of_pos S (by rw [hmS]; exact hSpos),
    energyDisplay_of_pos T (by rw [hmT]; exact hTpos), hmS, hmT]
  have h := (Real.logb_le_logb (by norm_num : (1 : ℝ) < 10) hSpos hTpos).mpr hST
  linarith

/-! ## The calibration curve -/

theorem toDouble_error (y : ℝ) :
    |toDouble y - y| ≤ |y| * 2 ^ (-53 : ℤ) + 2 ^ (-1075 : ℤ) := by
  have h := roundFloat_error_le 53 (-1022) y
  norm_num at h ⊢
  exact h

theorem toDouble_nonneg (y : ℝ) (h : 0 ≤ y) : 0 ≤ toDouble y := roundFloat_nonneg 53 (-1022) y h

theorem toDouble_fifty : toDouble 50 = 50 ∧ toDouble (-50) = -50 ∧ toDouble (-100) = -100 := by
  have h1 := toDouble_intCast 50 (by norm_num)
  have h2 := toDouble_intCast (-50) (by norm_num)
  have h3 := toDouble_intCast (-100) (by norm_num)
  norm_num at h1 h2 h3
  exact ⟨h1, h2, h3⟩

theorem toFloat_fifty : toFloat 50 = 50 ∧ toFloat (-50) = -50 := by
  have h1 := toFloat_intCast 50 (by norm_num)
  have h2 := toFloat_intCast (-50) (by norm_num)
  norm_num at h1 h2
  exact ⟨h1, h2⟩

/-- On `[0, 1920]` the rounded quadratic term does not exceed the rounded linear term. -/
theorem calibration_terms_le (x : ℝ) (h0 : 0 ≤ x) (h1 : x ≤ 1920) :
    toDouble (8006399304753337 / 2 ^ 67 * toDouble (x ^ 2))
      ≤ toDouble (7505999378950827 / 2 ^ 56 * x) := by
  have hb : (0 : ℝ) ≤ 7505999378950827 / 2 ^ 56 * x := by positivity
  by_cases hx : x < 2 ^ (-538 : ℤ)
  · have hsq : |x ^ 2| < 2 ^ ((-1022 : ℤ) - ((53 : ℕ) : ℤ)) := by
      rw [abs_of_nonneg (by positivity)]
      have h538 : (2 : ℝ) ^ (-538 : ℤ) * 2 ^ (-538 : ℤ) = 2 ^ (-1076 : ℤ) := by
        rw [← zpow_add₀ (by norm_num : (2 : ℝ) ≠ 0)]
        norm_num
      have hlt : x ^ 2 < 2 ^ (-1076 : ℤ) := by
        rw [← h538, sq]
        exact mul_lt_mul'' hx hx h0 h0
      refine lt_of_lt_of_le hlt ?_
      exact zpow_le_zpow_right₀ (by norm_num) (by norm_num)
    have hs : toDouble (x ^ 2) = 0 := roundFloat_of_tiny 53 (-1022) _ hsq
    rw [hs, mul_zero, toDouble_zero]
    exact toDouble_nonneg _ hb
  · have hx' : (2 : ℝ) ^ (-538 : ℤ) ≤ x := not_lt.mp hx
    have hxpos : 0 < x := lt_of_lt_of_le (two_zpow_pos _) hx'
    have heta : (2 : ℝ) ^ (-1075 : ℤ) ≤ 2 ^ (-60 : ℤ) * x := by
      have e : (2 : ℝ) ^ (-1075 : ℤ) = 2 ^ (-537 : ℤ) * 2 ^ (-538 : ℤ) := by
        rw [← zpow_add₀ (by norm_num : (2 : ℝ) ≠ 0)]
        norm_num
      have l1 : (2 : ℝ) ^ (-537 : ℤ) ≤ 2 ^ (-60 : ℤ) :=
        zpow_le_zpow_right₀ (by norm_num) (by norm_num)
      rw [e]
      exact mul_le_mul l1 hx' (le_of_lt (two_zpow_pos _)) (le_of_lt (two_zpow_pos _))
    have hs0 : 0 ≤ toDouble (x ^ 2) := toDouble_nonneg _ (by positivity)
    have es := abs_le.mp (toDouble_error (x ^ 2))
    rw [abs_of_nonneg (by positivity : (0 : ℝ) ≤ x ^ 2)] at es
    have e1 := abs_le.mp (toDouble_error (8006399304753337 / 2 ^ 67 * toDouble (x ^ 2)))
    rw [abs_of_nonneg (by positivity :
      (0 : ℝ) ≤ 8006399304753337 / 2 ^ 67 * toDouble (x ^ 2))] at e1
    have e2 := abs_le.mp (toDouble_error (7505999378950827 / 2 ^ 56 * x))
    rw [abs_of_nonneg hb] at e2
    have hu : (2 : ℝ) ^ (-53 : ℤ) = 1 / 2 ^ 53 := by norm_num
    have h60 : (2 : ℝ) ^ (-60 : ℤ) = 1 / 2 ^ 60 := by norm_num
    rw [hu] at es e1 e2
    rw [h60] at heta
    have hs1 : toDouble (x ^ 2) ≤ x * (1920 * (1 + 1 / 2 ^ 53) + 1 / 2 ^ 60) := by
      have : x ^ 2 ≤ x * 1920 := by nlinarith
      nlinarith [es.2]
    have key : (8006399304753337 / 2 ^ 67 * (1920 * (1 + 1 / 2 ^ 53) + 1 / 2 ^ 60))
        * (1 + 1 / 2 ^ 53) + 1 / 2 ^ 60
        ≤ (7505999378950827 / 2 ^ 56 : ℝ) * (1 - 1 / 2 ^ 53) - 1 / 2 ^ 60 := by norm_num
    have ht1 : toDouble (8006399304753337 / 2 ^ 67 * toDouble (x ^ 2))
        ≤ x * ((8006399304753337 / 2 ^ 67 * (1920 * (1 + 1 / 2 ^ 53) + 1 / 2 ^ 60))
          * (1 + 1 / 2 ^ 53) + 1 / 2 ^ 60) := by
      have hm : 8006399304753337 / 2 ^ 67 * toDouble (x ^ 2)
          ≤ 8006399304753337 / 2 ^ 67 * (x * (1920 * (1 + 1 / 2 ^ 53) + 1 / 2 ^ 60)) :=
        mul_le_mul_of_nonneg_left hs1 (by norm_num)
      nlinarith [e1.2]
    have ht2 : x * ((7505999378950827 / 2 ^ 56 : ℝ) * (1 - 1 / 2 ^ 53) - 1 / 2 ^ 60)
        ≤ toDouble (7505999378950827 / 2 ^ 56 * x) := by
      nlinarith [e2.1]
    exact le_trans ht1 (le_trans (mul_le_mul_of_nonneg_left key h0) ht2)

/-- On `[0, 1920]` the rounded quadratic term less the rounded linear term is at least
-100. -/
theorem calibration_terms_ge (x : ℝ) (h0 : 0 ≤ x) (h1 : x ≤ 1920) :
    -100 ≤ toDouble (8006399304753337 / 2 ^ 67 * toDouble (x ^ 2))
      - toDouble (7505999378950827 / 2 ^ 56 * x) := by
  have hb : (0 : ℝ) ≤ 7505999378950827 / 2 ^ 56 * x := by positivity
  have heta : (2 : ℝ) ^ (-1075 : ℤ) ≤ 1 / 2 ^ 60 := by
    have l1 : (2 : ℝ) ^ (-1075 : ℤ) ≤ 2 ^ (-60 : ℤ) :=
      zpow_le_zpow_right₀ (by norm_num) (by norm_num)
    have h60 : (2 : ℝ) ^ (-60 : ℤ) = 1 / 2 ^ 60 := by norm_num
    rw [h60] at l1
    exact l1
  have hu : (2 : ℝ) ^ (-53 : ℤ) = 1 / 2 ^ 53 := by norm_num
  have hs0 : 0 ≤ toDouble (x ^ 2) := toDouble_nonneg _ (by positivity)
  have es := abs_le.mp (toDouble_error (x ^ 2))
  rw [abs_of_nonneg (by positivity : (0 : ℝ) ≤ x ^ 2), hu] at es
  have e1 := abs_le.mp (toDouble_error (8006399304753337 / 2 ^ 67 * toDouble (x ^ 2)))
  rw [abs_of_nonneg (by positivity :
    (0 : ℝ) ≤ 8006399304753337 / 2 ^ 67 * toDouble (x ^ 2)), hu] at e1
  have e2 := abs_le.mp (toDouble_error (7505999378950827 / 2 ^ 56 * x))
  rw [abs_of_nonneg hb, hu] at e2
  generalize (2 : ℝ) ^ (-1075 : ℤ) = eta at heta es e1 e2
  generalize toDouble (8006399304753337 / 2 ^ 67 * toDouble (x ^ 2)) = t1 at e1 ⊢
  generalize toDouble (7505999378950827 / 2 ^ 56 * x) = t2 at e2 ⊢
  generalize toDouble (x ^ 2) = s at es e1 hs0
  have hx2 : x ^ 2 ≤ 3686400 := by nlinarith
  have hs1 : x ^ 2 - 1 / 2 ^ 30 ≤ s := by
    have : x ^ 2 * (1 / 2 ^ 53) ≤ 3686400 * (1 / 2 ^ 53) :=
      mul_le_mul_of_nonneg_right hx2 (by norm_num)
    linarith [es.1]
  have hs2 : s ≤ 3686401 := by
    have : x ^ 2 * (1 / 2 ^ 53) ≤ 3686400 * (1 / 2 ^ 53) :=
      mul_le_mul_of_nonneg_right hx2 (by norm_num)
    linarith [es.2]
  have hm2 : 8006399304753337 / 2 ^ 67 * s ≤ 201 := by linarith
  have ht1 : 8006399304753337 / 2 ^ 67 * x ^ 2 - 1 / 2 ^ 29 ≤ t1 := by
    have : 8006399304753337 / 2 ^ 67 * s * (1 / 2 ^ 53) ≤ 201 * (1 / 2 ^ 53) :=
      mul_le_mul_of_nonneg_right hm2 (by norm_num)
    linarith [e1.1]
  have hm3 : 7505999378950827 / 2 ^ 56 * x ≤ 201 := by linarith
  have ht2 : t2 ≤ 7505999378950827 / 2 ^ 56 * x + 1 / 2 ^ 30 := by
    have : 7505999378950827 / 2 ^ 56 * x * (1 / 2 ^ 53) ≤ 201 * (1 / 2 ^ 53) :=
      mul_le_mul_of_nonneg_right hm3 (by norm_num)
    linarith [e2.2]
  have hsq : 8006399304753337 / 2 ^ 67 * x ^ 2
      - 1920 * (8006399304753337 / 2 ^ 67) * x + 921600 * (8006399304753337 / 2 ^ 67)
      = 8006399304753337 / 2 ^ 67 * (x - 960) ^ 2 := by ring
  have hnn : (0 : ℝ) ≤ 8006399304753337 / 2 ^ 67 * (x - 960) ^ 2 := by positivity
  linarith

/-- On `[0, 1920]` the `double` value of the polynomial lies in `[-50, 50]`. -/
theorem calibrationPolynomial_bounds (x : ℝ) (h0 : 0 ≤ x) (h1 : x ≤ 1920) :
    -50 ≤ calibrationPolynomial x ∧ calibrationPolynomial x ≤ 50 := by
  obtain ⟨f1, f2, f3⟩ := toDouble_fifty
  have hle := calibration_terms_le x h0 h1
  have hge := calibration_terms_ge x h0 h1
  have hd1 : toDouble (toDouble (8006399304753337 / 2 ^ 67 * toDouble (x ^ 2))
      - toDouble (7505999378950827 / 2 ^ 56 * x)) ≤ 0 :=
    roundFloat_nonpos 53 (-1022) _ (sub_nonpos.mpr hle)
  have hd2 := toDouble_mono _ _ hge
  rw [f3] at hd2
  unfold calibrationPolynomial
  rw [toDouble_calibrationA, toDouble_calibrationB]
  constructor
  · have h := toDouble_mono (-50) _ (by linarith :
      (-50 : ℝ) ≤ toDouble (toDouble (8006399304753337 / 2 ^ 67 * toDouble (x ^ 2))
        - toDouble (7505999378950827 / 2 ^ 56 * x)) + 50)
    rw [f2] at h
    exact h
  · have h := toDouble_mono _ 50 (by linarith :
      toDouble (toDouble (8006399304753337 / 2 ^ 67 * toDouble (x ^ 2))
        - toDouble (7505999378950827 / 2 ^ 56 * x)) + 50 ≤ (50 : ℝ))
    rw [f1] at h
    exact h

theorem expectedAngle_abs_le (x : ℝ) (h0 : 0 ≤ x) (h1 : x ≤ 1920) :
    |expectedAngle x| ≤ 50 := by
  obtain ⟨b1, b2⟩ := calibrationPolynomial_bounds x h0 h1
  obtain ⟨f1, f2⟩ := toFloat_fifty
  unfold expectedAngle
  rw [abs_le]
  split_ifs
  · have l := toFloat_mono (-50) _ (by linarith : (-50 : ℝ) ≤ -calibrationPolynomial x)
    have u := toFloat_mono _ 50 (by linarith : -calibrationPolynomial x ≤ (50 : ℝ))
    rw [f2] at l
    rw [f1] at u
    exact ⟨l, u⟩
  · have l := toFloat_mono (-50) _ b1
    have u := toFloat_mono _ 50 b2
    rw [f2] at l
    rw [f1] at u
    exact ⟨l, u⟩

/-- C18: with the constants of the code, the curve evaluated in `double` and stored in a
`float` as the code does, the calibration curve maps `x = 0` to the extreme angle -50
degrees, stays within 50 degrees of 0 for every `x` in `[0, 1920]`, and maps the screen
centre `x = 960` to 0 degrees up to the rounding of the constants: to the `float`
`-7205759 / 2 ^ 45`, about `-2.048e-7`, which is within `10 ^ -6` of 0. -/
theorem calibration_curve (x : ℝ) (h0 : 0 ≤ x) (h1 : x ≤ 1920) :
    expectedAngle 0 = -50
      ∧ |expectedAngle x| ≤ 50
      ∧ expectedAngle 960 = -(7205759 / 2 ^ 45)
      ∧ |expectedAngle 960| < 1 / 10 ^ 6 := by
  refine ⟨expectedAngle_zero, expectedAngle_abs_le x h0 h1, expectedAngle_centre, ?_⟩
  rw [expectedAngle_centre, abs_neg, abs_of_nonneg (by norm_num)]
  norm_num

/-- C18, an instance: the right edge `x = 1920` of the frame. -/
theorem calibration_curve_witness :
    ((0 : ℝ) ≤ 1920 ∧ (1920 : ℝ) ≤ 1920)
      ∧ expectedAngle 0 = -50
      ∧ |expectedAngle 1920| ≤ 50
      ∧ expectedAngle 960 = -(7205759 / 2 ^ 45)
      ∧ |expectedAngle 960| < 1 / 10 ^ 6 :=
  ⟨⟨by norm_num, le_refl _⟩, calibration_curve 1920 (by norm_num) (le_refl _)⟩

/-! ## The active speaker -/

theorem mem_highlighted_ProcessFaces (n : ℕ) (s : State) (f : FrameInput) (audio : AudioRead)
    (i : ℕ) :
    i ∈ highlighted (ProcessFaces n s f audio).1
      ↔ i < n ∧ ¬ s.m_fBeamAngleConfidence < 0.5 ∧ slotPasses s f i := by
  rw [highlighted_ProcessFaces, highlighted_faceLoop]
  split_ifs with h
  · simp [h]
  · simp [List.mem_filter, List.mem_range, h]

/-- For a valid tracked face whose frame data are all retrieved, passing is the angle
test. -/
theorem slotPasses_iff_angleTest (s : State) (f : FrameInput) (i : ℕ) (frame : FaceFrame)
    (r : FaceFrameResult)
    (hacq : (f.readers i).acquireOk = true) (hfr : (f.readers i).pFaceFrame = some frame)
    (hv : frame.trackingIdValidOk = true) (ht : frame.bFaceTracked = true)
    (hres : frame.resultOk = true) (hr : frame.pFaceFrameResult = some r)
    (hbox : r.boxOk = true) (hpts : r.pointsOk = true) (hrot : r.rotationOk = true)
    (hprop : r.propertiesOk = true)
    (htext : GetFaceTextPositionInColorSpace (f.ppBodies i) = true) :
    slotPasses s f i ↔ angleTest s.m_fBeamAngle (expectedAngle (centerMouthX r)) := by
  constructor
  · rintro ⟨frame', r', _, hfr', _, _, _, hr', _, _, _, _, _, hang⟩
    rw [hfr] at hfr'
    cases hfr'
    rw [hr] at hr'
    cases hr'
    exact hang
  · intro hang
    exact ⟨frame, r, hacq, hfr, hv, ht, hres, hr, hbox, hpts, hrot, hprop, htext, hang⟩

/-- With every slot showing a tracked face centred at `x = 960`, a slot passes exactly when
the angle test does at the expected angle of the centre. -/
theorem slotPasses_frameAllCentred_iff (s : State) (j : ℕ) :
    slotPasses s frameAllCentred j ↔ angleTest s.m_fBeamAngle (expectedAngle 960) := by
  rw [slotPasses_iff_angleTest s frameAllCentred j (faceFrameAt 960) (faceResultAt 960)
    rfl rfl rfl rfl rfl rfl rfl rfl rfl rfl rfl, centerMouthX_faceResultAt_centre]

/-- The angle test at the screen centre: it passes at a measured angle of 0 degrees and
fails at measured angles of 10 and of -5 degrees. -/
theorem angleTest_centre (fBeamAngle : ℝ) :
    (beamAngleDegrees fBeamAngle = 0 → angleTest fBeamAngle (expectedAngle 960))
      ∧ (beamAngleDegrees fBeamAngle = 10 → ¬ angleTest fBeamAngle (expectedAngle 960))
      ∧ (beamAngleDegrees fBeamAngle = -5 → ¬ angleTest fBeamAngle (expectedAngle 960)) := by
  obtain ⟨d1, d2, d3⟩ := toFloat_sub_expectedAngle_centre
  unfold angleTest
  rw [expectedAngle_centre]
  refine ⟨fun h => ?_, fun h => ?_, fun h => ?_⟩
  · rw [h, d1, abs_of_pos (by norm_num)]
    norm_num
  · rw [h, d2]
    norm_num
  · rw [h, d3]
    norm_num

/-- C13, as amended: when the stored beam confidence is at least 0.5, a slot below
`BODY_COUNT` that holds a valid tracked face whose frame data (bounding box, points,
rotation, properties and text position) are all retrieved is highlighted if and only if
`|measuredDeg - expectedDeg (x)| < 5` with the difference rounded to `float`, where `x` is
the mouth centre and `measuredDeg` and `expectedDeg (x)` are the `float`s the code computes
for the beam angle in degrees and for the calibration curve; so it is highlighted whenever
`measuredDeg = expectedDeg (x)`. With the mouth at `x = 960` the face is highlighted at a
measured angle of 0 degrees and not highlighted at a measured angle of 10 degrees, as with
confidence 0.9 at the beam angles 0 and `beamTenDegrees`. -/
theorem active_speaker_iff (n : ℕ) (s : State) (f : FrameInput) (audio : AudioRead) (i : ℕ)
    (frame : FaceFrame) (r : FaceFrameResult) (hi : i < n)
    (hconf : ¬ s.m_fBeamAngleConfidence < 0.5)
    (hacq : (f.readers i).acquireOk = true) (hfr : (f.readers i).pFaceFrame = some frame)
    (hv : frame.trackingIdValidOk = true) (ht : frame.bFaceTracked = true)
    (hres : frame.resultOk = true) (hr : frame.pFaceFrameResult = some r)
    (hbox : r.boxOk = true) (hpts : r.pointsOk = true) (hrot : r.rotationOk = true)
    (hprop : r.propertiesOk = true)
    (htext : GetFaceTextPositionInColorSpace (f.ppBodies i) = true) :
    (i ∈ highlighted (ProcessFaces n s f audio).1
        ↔ |toFloat (beamAngleDegrees s.m_fBeamAngle - expectedAngle (centerMouthX r))| < 5)
      ∧ (beamAngleDegrees s.m_fBeamAngle = expectedAngle (centerMouthX r) →
          i ∈ highlighted (ProcessFaces n s f audio).1)
      ∧ (centerMouthX r = 960 → beamAngleDegrees s.m_fBeamAngle = 0 →
          i ∈ highlighted (ProcessFaces n s f audio).1)
      ∧ (centerMouthX r = 960 → beamAngleDegrees s.m_fBeamAngle = 10 →
          i ∉ highlighted (ProcessFaces n s f audio).1)
      ∧ (∀ j, j < 6 →
          j ∈ highlighted (ProcessFaces 6 (stateWithBeam 0 (9 / 10)) frameAllCentred noAudio).1)
      ∧ (∀ j, j ∉ highlighted
          (ProcessFaces 6 (stateWithBeam beamTenDegrees (9 / 10)) frameAllCentred noAudio).1) := by
  have hiff : i ∈ highlighted (ProcessFaces n s f audio).1
      ↔ angleTest s.m_fBeamAngle (expectedAngle (centerMouthX r)) := by
    rw [mem_highlighted_ProcessFaces,
      slotPasses_iff_angleTest s f i frame r hacq hfr hv ht hres hr hbox hpts hrot hprop htext]
    constructor
    · intro h
      exact h.2.2
    · intro h
      exact ⟨hi, hconf, h⟩
  refine ⟨hiff, fun heq => ?_, fun hc h0 => ?_, fun hc h10 => ?_, fun j hj => ?_,
    fun j hj => ?_⟩
  · rw [hiff]
    unfold angleTest
    rw [heq, sub_self, toFloat_zero, abs_zero]
    norm_num
  · rw [hiff, hc]
    exact (angleTest_centre _).1 h0
  · rw [hiff, hc]
    exact (angleTest_centre _).2.1 h10
  · rw [mem_highlighted_ProcessFaces]
    refine ⟨hj, ?_, slotPasses_frameAllCentred _ j⟩
    rw [(stateWithBeam_eq 0 (9 / 10)).2]
    norm_num
  · rw [mem_highlighted_ProcessFaces, slotPasses_frameAllCentred_iff] at hj
    refine (angleTest_centre _).2.1 ?_ hj.2.2
    rw [(stateWithBeam_eq _ _).1]
    exact beamAngleDegrees_beamTenDegrees

/-- C13, an instance: slot 0 of six centred tracked faces, beam angle 0 at confidence
0.9. -/
theorem active_speaker_iff_witness :
    (0 ∈ highlighted (ProcessFaces 6 (stateWithBeam 0 (9 / 10)) frameAllCentred noAudio).1
        ↔ |toFloat (beamAngleDegrees (stateWithBeam 0 (9 / 10)).m_fBeamAngle
            - expectedAngle (centerMouthX (faceResultAt 960)))| < 5)
      ∧ (beamAngleDegrees (stateWithBeam 0 (9 / 10)).m_fBeamAngle
            = expectedAngle (centerMouthX (faceResultAt 960)) →
          0 ∈ highlighted
            (ProcessFaces 6 (stateWithBeam 0 (9 / 10)) frameAllCentred noAudio).1)
      ∧ (centerMouthX (faceResultAt 960) = 960 →
          beamAngleDegrees (stateWithBeam 0 (9 / 10)).m_fBeamAngle = 0 →
          0 ∈ highlighted
            (ProcessFaces 6 (stateWithBeam 0 (9 / 10)) frameAllCentred noAudio).1)
      ∧ (centerMouthX (faceResultAt 960) = 960 →
          beamAngleDegrees (stateWithBeam 0 (9 / 10)).m_fBeamAngle = 10 →
          0 ∉ highlighted
            (ProcessFaces 6 (stateWithBeam 0 (9 / 10)) frameAllCentred noAudio).1)
      ∧ (∀ j, j < 6 →
          j ∈ highlighted (ProcessFaces 6 (stateWithBeam 0 (9 / 10)) frameAllCentred noAudio).1)
      ∧ (∀ j, j ∉ highlighted
          (ProcessFaces 6 (stateWithBeam beamTenDegrees (9 / 10)) frameAllCentred noAudio).1) :=
  active_speaker_iff 6 (stateWithBeam 0 (9 / 10)) frameAllCentred noAudio 0
    (faceFrameAt 960) (faceResultAt 960)
    (by decide) (by rw [(stateWithBeam_eq 0 (9 / 10)).2]; norm_num)
    rfl rfl rfl rfl rfl rfl rfl rfl rfl rfl rfl

/-- C13, as stated, fails: with the beam angle the `float` nearest to `-5 * π / 180` at
confidence 0.9 and six tracked faces centred at `x = 960`, the measured angle is the
`float` -5 and the expected angle the `float` `-7205759 / 2 ^ 45`, so that
`|measuredDeg - expectedDeg (x)| < 5`, and the same holds of the angle in degrees and of
the polynomial taken exactly; but the `float` difference the code forms rounds to -5, and
no face is highlighted. -/
theorem active_speaker_iff_counterexample :
    toFloat (-5 * Real.pi / 180) = beamMinusFiveDegrees
      ∧ ¬ (stateWithBeam beamMinusFiveDegrees (9 / 10)).m_fBeamAngleConfidence < 0.5
      ∧ beamAngleDegrees (stateWithBeam beamMinusFiveDegrees (9 / 10)).m_fBeamAngle = -5
      ∧ expectedAngle (centerMouthX (faceResultAt 960)) = -(7205759 / 2 ^ 45)
      ∧ |beamAngleDegrees (stateWithBeam beamMinusFiveDegrees (9 / 10)).m_fBeamAngle
            - expectedAngle (centerMouthX (faceResultAt 960))| < 5
      ∧ |180 * (stateWithBeam beamMinusFiveDegrees (9 / 10)).m_fBeamAngle / Real.pi
            - (0.000054253472 * 960 ^ 2 - 0.10416666666666667 * 960 + 50)| < 5
      ∧ ∀ j, j ∉ highlighted
          (ProcessFaces 6 (stateWithBeam beamMinusFiveDegrees (9 / 10)) frameAllCentred
            noAudio).1 := by
  obtain ⟨hb, hc⟩ := stateWithBeam_eq beamMinusFiveDegrees (9 / 10)
  have hm := beamAngleDegrees_beamMinusFiveDegrees
  have hpi := Real.pi_pos
  have hlo := Real.pi_gt_d20
  have hhi := Real.pi_lt_d20
  refine ⟨toFloat_degrees_in_radians.2, ?_, ?_, ?_, ?_, ?_, fun j hj => ?_⟩
  · rw [hc]
    norm_num
  · rw [hb]
    exact hm
  · rw [centerMouthX_faceResultAt_centre]
    exact expectedAngle_centre
  · rw [hb, hm, centerMouthX_faceResultAt_centre, expectedAngle_centre, abs_lt]
    constructor <;> norm_num
  · rw [hb]
    unfold beamMinusFiveDegrees
    rw [abs_lt, sub_lt_iff_lt_add, lt_sub_iff_add_lt, div_lt_iff₀ hpi, lt_div_iff₀ hpi]
    constructor <;> norm_num <;> linarith
  · rw [mem_highlighted_ProcessFaces, slotPasses_frameAllCentred_iff] at hj
    refine (angleTest_centre _).2.2 ?_ hj.2.2
    rw [hb]
    exact hm

/-! ## What may rebind a slot -/

theorem put_not_mem_trackedFace (s : State) (pBody : Option Body) (frame : FaceFrame)
    (i j id : ℕ) : FaceAction.put_TrackingId j id ∉ trackedFace s pBody frame i := by
  unfold trackedFace
  cases frame.pFaceFrameResult with
  | none => simp
  | some r =>
    simp only
    split_ifs <;> simp

theorem put_mem_untrackedFace (bHaveBodyData : Bool) (pBody : Option Body) (i j id : ℕ) :
    FaceAction.put_TrackingId j id ∈ untrackedFace bHaveBodyData pBody i
      ↔ j = i ∧ bHaveBodyData = true
        ∧ ∃ b, pBody = some b ∧ b.isTrackedOk = true ∧ b.bTracked = true
          ∧ b.trackingIdOk = true ∧ id = b.bodyTId := by
  unfold untrackedFace
  cases bHaveBodyData
  · simp
  · cases pBody with
    | none => simp
    | some b =>
      cases h1 : b.isTrackedOk <;> cases h2 : b.bTracked <;> cases h3 : b.trackingIdOk
        <;> simp [h1, h2, h3]

/-- The rebinding calls of one iteration: one for the slot itself, under the conditions of
the rebinding branch. -/
theorem put_mem_faceIteration (s : State) (f : FrameInput) (i j id : ℕ) :
    FaceAction.put_TrackingId j id ∈ faceIteration s f i
      ↔ j = i ∧ f.bHaveBodyData = true ∧ reportsNoTrackedFace (f.readers i)
        ∧ ∃ b, f.ppBodies i = some b ∧ b.isTrackedOk = true ∧ b.bTracked = true
          ∧ b.trackingIdOk = true ∧ id = b.bodyTId := by
  by_cases hrep : reportsNoTrackedFace (f.readers i)
  · rw [faceIteration_of_no_face s f i hrep, put_mem_untrackedFace]
    simp [hrep]
  · have hnot : FaceAction.put_TrackingId j id ∉ faceIteration s f i := by
      unfold faceIteration
      unfold reportsNoTrackedFace at hrep
      rcases hr : f.readers i with ⟨ok, pf⟩
      rw [hr] at hrep
      cases ok
      · simp
      · cases pf with
        | none => simp at hrep
        | some frame =>
          cases hv : frame.trackingIdValidOk
          · simp [hv]
          · cases ht : frame.bFaceTracked
            · simp [hv, ht] at hrep
            · simp only [hv, ht, if_true]
              exact put_not_mem_trackedFace s _ frame i j id
    constructor
    · intro h
      exact absurd h hnot
    · rintro ⟨_, _, h, _⟩
      exact absurd h hrep

/-- C14: in every frame `ProcessFaces` calls `put_TrackingId` on slot `j` with the ID `id`
exactly when the slot is one of the `BODY_COUNT` slots, the confidence gate is open, body
data are there, the reader of slot `j` answers without a valid tracked face, and
`bodies[j]` exists, is reported tracked and delivers `id` as its tracking ID. So a slot with
a valid tracked face is left untouched, a missing or untracked body at index `j` never
rebinds slot `j`, and the ID a slot is bound to is that of the body at its own index. -/
theorem rebinding_only_from_own_body (n : ℕ) (s : State) (f : FrameInput)
    (audio : AudioRead) (j id : ℕ) :
    FaceAction.put_TrackingId j id ∈ (ProcessFaces n s f audio).1
      ↔ j < n ∧ ¬ s.m_fBeamAngleConfidence < 0.5 ∧ f.bHaveBodyData = true
        ∧ reportsNoTrackedFace (f.readers j)
        ∧ ∃ b, f.ppBodies j = some b ∧ b.isTrackedOk = true ∧ b.bTracked = true
          ∧ b.trackingIdOk = true ∧ id = b.bodyTId := by
  rw [put_mem_ProcessFaces]
  by_cases hc : s.m_fBeamAngleConfidence < 0.5
  · rw [faceLoop_of_low_confidence n s f hc]
    simp [hc]
  · rw [faceLoop_of_confidence n s f hc, List.mem_flatMap]
    constructor
    · rintro ⟨i, hi, hmem⟩
      obtain ⟨hji, h⟩ := (put_mem_faceIteration s f i j id).mp hmem
      subst hji
      exact ⟨List.mem_range.mp hi, hc, h⟩
    · rintro ⟨hj, _, h⟩
      exact ⟨j, List.mem_range.mpr hj, (put_mem_faceIteration s f j j id).mpr ⟨rfl, h⟩⟩

/-! ## The first refresh -/

theorem windowSpec_getElem?_buffer (buf : List ℝ) (r : ℤ)
    (hbuf : buf.length = cEnergyBufferLength.toNat) (j : ℕ) (hj : j < 780) :
    (windowSpec buf r)[j]?
      = buf[((r - cEnergySamplesToDisplay + (j : ℤ)) % cEnergyBufferLength).toNat]? := by
  have hb : buf.length = 1000 := hbuf
  unfold cEnergySamplesToDisplay cEnergyBufferLength
  have hlt : ((r - 780 + (j : ℤ)) % 1000).toNat < buf.length := by
    rw [hb]
    omega
  rw [windowSpec_getElem?, if_pos hj, List.getD_eq_getElem?_getD, List.getElem?_eq_getElem hlt]
  rfl

theorem windowSpec_zeros (n : ℕ) (r : ℤ) :
    windowSpec (List.replicate n 0) r = List.replicate cEnergySamplesToDisplay.toNat 0 := by
  apply List.ext_getElem?
  intro j
  have h780 : cEnergySamplesToDisplay.toNat = 780 := rfl
  rw [windowSpec_getElem?, h780]
  by_cases hj : j < 780
  · rw [if_pos hj, List.getElem?_replicate, if_pos hj]
    congr 1
    rw [List.getD_eq_getElem?_getD, List.getElem?_replicate]
    split_ifs <;> rfl
  · rw [if_neg hj, List.getElem?_replicate, if_neg hj]

/-- A sample either emits, and then one more value is unread, or leaves the buffer and the
number of unread values as they are. -/
theorem ingestSample_buffer (a c : ℝ) (s : State) (x : ℝ) :
    s.m_nNewEnergyAvailable ≤ (ingestSample a c s x).m_nNewEnergyAvailable
      ∧ ((ingestSample a c s x).m_nNewEnergyAvailable ≤ s.m_nNewEnergyAvailable →
          (ingestSample a c s x).m_fEnergyBuffer = s.m_fEnergyBuffer) := by
  by_cases hc : s.m_nAccumulatedSampleCount + 1 < cAudioSamplesPerEnergySample
  · rw [ingestSample_accumulate a c s x hc]
    exact ⟨le_refl _, fun _ => rfl⟩
  · rw [ingestSample_emit a c s x hc]
    refine ⟨by simp only; omega, fun h => ?_⟩
    simp only at h
    omega

theorem ingest_buffer (a c : ℝ) (samples : List ℝ) (s : State) :
    s.m_nNewEnergyAvailable ≤ (ingest s samples a c).m_nNewEnergyAvailable
      ∧ ((ingest s samples a c).m_nNewEnergyAvailable ≤ s.m_nNewEnergyAvailable →
          (ingest s samples a c).m_fEnergyBuffer = s.m_fEnergyBuffer) := by
  induction samples generalizing s with
  | nil => exact ⟨le_refl _, fun _ => rfl⟩
  | cons x xs ih =>
    rw [ingest_cons]
    obtain ⟨i1, i2⟩ := ih (ingestSample a c s x)
    obtain ⟨j1, j2⟩ := ingestSample_buffer a c s x
    refine ⟨le_trans j1 i1, fun h => ?_⟩
    rw [i2 (by omega), j2 (by omega)]

/-- Before the first refresh at a tick count other than 0, while nothing is unread, the
display buffer holds the window of the read cursor. -/
theorem Reachable_window_first (s : State) (h : Reachable s)
    (hl : s.m_nLastEnergyRefreshTime = 0) (hp : s.m_nNewEnergyAvailable ≤ 0) :
    s.m_fEnergyDisplayBuffer = windowSpec s.m_fEnergyBuffer s.m_nEnergyRefreshIndex := by
  induction h with
  | construct a c =>
    simp only [construct]
    exact (windowSpec_zeros _ 0).symm
  | @ingest s0 samples a c hs ih =>
    obtain ⟨_, i2, i3, i4⟩ := ingest_keeps_refresh a c samples s0
    obtain ⟨j1, j2⟩ := ingest_buffer a c samples s0
    have hp0 := (Reachable_inv s0 hs).available_nonneg
    rw [i4, i3, j2 (by omega)]
    exact ih (i2 ▸ hl) (by omega)
  | @refresh s0 s1 now hs hnow _ hu ih =>
    rcases Update_cases s0 now (Reachable_inv s0 hs) with
      ⟨hle, h⟩ | ⟨hpos, _, h⟩ | ⟨_, hne, h⟩
    · rw [h] at hu
      cases hu
      simp only at hl
      exact ih (by omega) hle
    · rw [h] at hu
      cases hu
      exact absurd hp hpos
    · rw [h] at hu
      cases hu
      simp only at hl
      exact absurd (by omega : s0.m_nLastEnergyRefreshTime = 0) hne

/-- C16: the first refresh, that is, a refresh of a reachable state that holds no prior
time of refresh, whatever has been read before it, succeeds without advancing: the read
cursor, the number of unread values and the drift-correction scalar stay as they were, and
the display buffer it leaves is the current window, the 780 buffer values that end just
before the read cursor. -/
theorem first_refresh_no_advance (s : State) (hs : Reachable s)
    (hfirst : s.m_nLastEnergyRefreshTime = 0) (now : ℕ) :
    ∃ s', Update s now = some s'
      ∧ s'.m_nEnergyRefreshIndex = s.m_nEnergyRefreshIndex
      ∧ s'.m_nNewEnergyAvailable = s.m_nNewEnergyAvailable
      ∧ s'.m_fEnergyError = s.m_fEnergyError
      ∧ s'.m_fEnergyBuffer = s.m_fEnergyBuffer
      ∧ s'.m_nLastEnergyRefreshTime = now
      ∧ s'.m_fEnergyDisplayBuffer = windowSpec s.m_fEnergyBuffer s.m_nEnergyRefreshIndex
      ∧ s'.m_fEnergyDisplayBuffer.length = 780
      ∧ ∀ j : ℕ, j < 780 →
          s'.m_fEnergyDisplayBuffer[j]?
            = s.m_fEnergyBuffer[((s.m_nEnergyRefreshIndex - cEnergySamplesToDisplay + (j : ℤ))
                % cEnergyBufferLength).toNat]? := by
  have hinv := Reachable_inv s hs
  have hwin : ∀ j : ℕ, j < 780 →
      (windowSpec s.m_fEnergyBuffer s.m_nEnergyRefreshIndex)[j]?
        = s.m_fEnergyBuffer[((s.m_nEnergyRefreshIndex - cEnergySamplesToDisplay + (j : ℤ))
            % cEnergyBufferLength).toNat]? :=
    fun j hj => windowSpec_getElem?_buffer _ _ hinv.buffer_length j hj
  have hlen : (windowSpec s.m_fEnergyBuffer s.m_nEnergyRefreshIndex).length = 780 :=
    windowSpec_length _ _
  rcases Update_cases s now hinv with ⟨hle, h⟩ | ⟨_, _, h⟩ | ⟨_, hne, _⟩
  · have hd := Reachable_window_first s hs hfirst hle
    refine ⟨_, h, rfl, rfl, rfl, rfl, rfl, ?_, ?_, ?_⟩
    · simp only
      exact hd
    · simp only
      rw [hd]
      exact hlen
    · intro j hj
      simp only
      rw [hd]
      exact hwin j hj
  · refine ⟨_, h, rfl, rfl, rfl, rfl, rfl, ?_, ?_, ?_⟩
    · simp only
    · simp only
      exact hlen
    · intro j hj
      simp only
      exact hwin j hj
  · exact absurd hfirst hne

theorem stateWithBeam_first (a c : ℝ) :
    Reachable (stateWithBeam a c) ∧ (stateWithBeam a c).m_nLastEnergyRefreshTime = 0 :=
  ⟨Reachable.ingest _ a c (Reachable.construct 0 0),
    (ingest_keeps_refresh a c (List.replicate 40 0) (construct 0 0)).2.1⟩

/-- C16, an instance: the first refresh, at tick count 5, after the constructor and one read
of forty samples. -/
theorem first_refresh_no_advance_witness :
    ∃ s', Update (stateWithBeam 0 0) 5 = some s'
      ∧ s'.m_nEnergyRefreshIndex = (stateWithBeam 0 0).m_nEnergyRefreshIndex
      ∧ s'.m_nNewEnergyAvailable = (stateWithBeam 0 0).m_nNewEnergyAvailable
      ∧ s'.m_fEnergyError = (stateWithBeam 0 0).m_fEnergyError
      ∧ s'.m_fEnergyBuffer = (stateWithBeam 0 0).m_fEnergyBuffer
      ∧ s'.m_nLastEnergyRefreshTime = 5
      ∧ s'.m_fEnergyDisplayBuffer
          = windowSpec (stateWithBeam 0 0).m_fEnergyBuffer
              (stateWithBeam 0 0).m_nEnergyRefreshIndex
      ∧ s'.m_fEnergyDisplayBuffer.length = 780
      ∧ ∀ j : ℕ, j < 780 →
          s'.m_fEnergyDisplayBuffer[j]?
            = (stateWithBeam 0 0).m_fEnergyBuffer[(((stateWithBeam 0 0).m_nEnergyRefreshIndex
                - cEnergySamplesToDisplay + (j : ℤ)) % cEnergyBufferLength).toNat]? :=
  first_refresh_no_advance (stateWithBeam 0 0) (stateWithBeam_first 0 0).1
    (stateWithBeam_first 0 0).2 5

/-! ## The advance is throttled to the elapsed time -/

theorem elapsedTimesRate_le (now previous : ℕ) (h : previous ≤ now) (hlt : now < 2 ^ 64) :
    ((elapsedTimesRate now previous : ℕ) : ℝ) ≤ ((now : ℝ) - (previous : ℝ)) * 16000 := by
  have h16 : cAudioSamplesPerSecond.toNat = 16000 := rfl
  have hd : (now % 2 ^ 64 + 2 ^ 64 - previous % 2 ^ 64) % 2 ^ 64 = now - previous := by
    omega
  have hle : elapsedTimesRate now previous ≤ (now - previous) * 16000 := by
    unfold elapsedTimesRate
    rw [hd, h16]
    exact Nat.mod_le _ _
  have hc : ((elapsedTimesRate now previous : ℕ) : ℝ)
      ≤ (((now - previous) * 16000 : ℕ) : ℝ) := Nat.cast_le.mpr hle
  rw [Nat.cast_mul, Nat.cast_sub h] at hc
  exact_mod_cast hc

/-- One refresh at a tick count not before the last one: what it adds to the cursor and
leaves in the drift-correction scalar is covered by the time elapsed. -/
theorem Update_throttled (s : State) (hs : Reachable s) (now : ℕ)
    (hnow : s.m_nLastEnergyRefreshTime ≤ now) (hlt : now < 2 ^ 64) :
    ∃ s', Update s now = some s' ∧ Reachable s'
      ∧ s'.m_nLastEnergyRefreshTime = now
      ∧ 0 ≤ s.m_nNewEnergyAvailable - s'.m_nNewEnergyAvailable
      ∧ ((s.m_nNewEnergyAvailable - s'.m_nNewEnergyAvailable : ℤ) : ℝ) + s'.m_fEnergyError
          ≤ s.m_fEnergyError
            + ((now : ℝ) - (s.m_nLastEnergyRefreshTime : ℝ)) * 16000 / 1000 / 40
      ∧ (s.m_nLastEnergyRefreshTime = 0 →
          s'.m_nNewEnergyAvailable = s.m_nNewEnergyAvailable
            ∧ s'.m_fEnergyError = s.m_fEnergyError) := by
  have hinv := Reachable_inv s hs
  have hel : (0 : ℝ)
      ≤ ((now : ℝ) - (s.m_nLastEnergyRefreshTime : ℝ)) * 16000 / 1000 / 40 := by
    have : (s.m_nLastEnergyRefreshTime : ℝ) ≤ (now : ℝ) := Nat.cast_le.mpr hnow
    have h2 : (0 : ℝ) ≤ (now : ℝ) - (s.m_nLastEnergyRefreshTime : ℝ) := by linarith
    positivity
  rcases Update_cases s now hinv with ⟨_, h⟩ | ⟨_, _, h⟩ | ⟨_, hne, h⟩
  · refine ⟨_, h, Reachable.refresh now hs hnow hlt h, rfl, ?_, ?_, fun _ => ⟨rfl, rfl⟩⟩
    · simp
    · simp only [sub_self, Int.cast_zero, zero_add]
      linarith
  · refine ⟨_, h, Reachable.refresh now hs hnow hlt h, rfl, ?_, ?_, fun _ => ⟨rfl, rfl⟩⟩
    · simp
    · simp only [sub_self, Int.cast_zero, zero_add]
      linarith
  · obtain ⟨b1, _, _, _⟩ :=
      energySamplesToAdvance_bounds s now hinv.error_nonneg hinv.available_nonneg
    have hrate := elapsedTimesRate_le now s.m_nLastEnergyRefreshTime hnow hlt
    have he : energyToAdvance s now
        ≤ s.m_fEnergyError
          + ((now : ℝ) - (s.m_nLastEnergyRefreshTime : ℝ)) * 16000 / 1000 / 40 := by
      unfold energyToAdvance cAudioSamplesPerEnergySample
      have h40 : (((40 : ℤ) : ℤ) : ℝ) = 40 := by norm_num
      rw [h40]
      have : ((elapsedTimesRate now s.m_nLastEnergyRefreshTime : ℕ) : ℝ) / 1000 / 40
          ≤ ((now : ℝ) - (s.m_nLastEnergyRefreshTime : ℝ)) * 16000 / 1000 / 40 := by
        apply div_le_div_of_nonneg_right _ (by norm_num : (0 : ℝ) ≤ 40)
        exact div_le_div_of_nonneg_right hrate (by norm_num : (0 : ℝ) ≤ 1000)
      linarith
    refine ⟨_, h, Reachable.refresh now hs hnow hlt h, rfl, ?_, ?_,
      fun h0 => absurd h0 hne⟩
    · simp only [advanceRefreshIndex]
      omega
    · simp only [advanceRefreshIndex]
      have hcast : ((s.m_nNewEnergyAvailable
          - (s.m_nNewEnergyAvailable - energySamplesToAdvance s now) : ℤ) : ℝ)
          = (energySamplesToAdvance s now : ℝ) := by
        push_cast
        ring
      rw [hcast]
      linarith

theorem getLast_cons_cons (a b : ℕ) (l : List ℕ) :
    (a :: b :: l).getLast (List.cons_ne_nil _ _) = (b :: l).getLast (List.cons_ne_nil _ _) :=
  List.getLast_cons (List.cons_ne_nil b l)

/-- A run from a reachable state whose refreshes come at tick counts that do not
decrease: the positions advanced and the scalar left are covered by the time elapsed
between the last refresh before the run and the last refresh of the run. -/
theorem runCalls_throttled (calls : List Call) (s : State) (total : ℤ) (hs : Reachable s)
    (hsorted : List.Chain (fun t u => t ≤ u) s.m_nLastEnergyRefreshTime (refreshTimes calls))
    (hlt : ∀ t ∈ refreshTimes calls, t < 2 ^ 64) :
    ∃ s' total', runCalls calls (s, total) = some (s', total') ∧ Reachable s'
      ∧ s'.m_nLastEnergyRefreshTime
          = (s.m_nLastEnergyRefreshTime :: refreshTimes calls).getLast (List.cons_ne_nil _ _)
      ∧ total ≤ total'
      ∧ (total' : ℝ) + s'.m_fEnergyError
          ≤ (total : ℝ) + s.m_fEnergyError
            + ((s'.m_nLastEnergyRefreshTime : ℝ) - (s.m_nLastEnergyRefreshTime : ℝ))
                * 16000 / 1000 / 40 := by
  induction calls generalizing s total with
  | nil =>
    refine ⟨s, total, rfl, hs, rfl, le_refl _, ?_⟩
    simp
  | cons call rest ih =>
    cases call with
    | ingest samples a c =>
      obtain ⟨i1, i2, _, _⟩ := ingest_keeps_refresh a c samples s
      have hs1 : Reachable (ingest s samples a c) := Reachable.ingest samples a c hs
      obtain ⟨s', total', h1, h2, h3, h4, h5⟩ := ih (ingest s samples a c) total hs1
        (by rw [i2]; exact hsorted) hlt
      rw [i1, i2] at h5
      rw [i2] at h3
      exact ⟨s', total', h1, h2, h3, h4, h5⟩
    | refresh now =>
      have hch : s.m_nLastEnergyRefreshTime ≤ now
          ∧ List.Chain (fun t u => t ≤ u) now (refreshTimes rest) := List.chain_cons.mp hsorted
      have hnowlt : now < 2 ^ 64 := hlt now (List.mem_cons_self _ _)
      obtain ⟨s1, u1, u2, u3, u4, u5, _⟩ := Update_throttled s hs now hch.1 hnowlt
      obtain ⟨s', total', h1, h2, h3, h4, h5⟩ := ih s1
        (total + (s.m_nNewEnergyAvailable - s1.m_nNewEnergyAvailable)) u2
        (by rw [u3]; exact hch.2) (fun t ht => hlt t (List.mem_cons_of_mem _ ht))
      refine ⟨s', total', ?_, h2, ?_, by omega, ?_⟩
      · show (Update s now).bind _ = _
        rw [u1]
        exact h1
      · rw [h3, u3]
        exact (getLast_cons_cons _ _ _).symm
      · rw [u3] at h5
        push_cast at h5 u5 ⊢
        linarith

/-- A run that starts before any refresh: the first refresh of the run does not advance,
and from it on the advance is covered by the time elapsed. -/
theorem runCalls_throttled_first (t1 : ℕ) (ts : List ℕ) (calls : List Call) (s : State)
    (total : ℤ) (hs : Reachable s) (hfirst : s.m_nLastEnergyRefreshTime = 0)
    (htimes : refreshTimes calls = t1 :: ts)
    (hsorted : List.Chain (fun t u => t ≤ u) t1 ts) (hlt : ∀ t ∈ t1 :: ts, t < 2 ^ 64) :
    ∃ s' total', runCalls calls (s, total) = some (s', total') ∧ Reachable s'
      ∧ s'.m_nLastEnergyRefreshTime = (t1 :: ts).getLast (List.cons_ne_nil _ _)
      ∧ total ≤ total'
      ∧ (total' : ℝ) + s'.m_fEnergyError
          ≤ (total : ℝ) + s.m_fEnergyError
            + ((s'.m_nLastEnergyRefreshTime : ℝ) - (t1 : ℝ)) * 16000 / 1000 / 40 := by
  induction calls generalizing s total with
  | nil => exact absurd htimes.symm (List.cons_ne_nil _ _)
  | cons call rest ih =>
    cases call with
    | ingest samples a c =>
      obtain ⟨i1, i2, _, _⟩ := ingest_keeps_refresh a c samples s
      obtain ⟨s', total', h1, h2, h3, h4, h5⟩ := ih (ingest s samples a c) total
        (Reachable.ingest samples a c hs) (by rw [i2]; exact hfirst) htimes
      rw [i1] at h5
      exact ⟨s', total', h1, h2, h3, h4, h5⟩
    | refresh now =>
      have hcons : now :: refreshTimes rest = t1 :: ts := htimes
      have hnow : now = t1 := (List.cons.inj hcons).1
      have hrest : refreshTimes rest = ts := (List.cons.inj hcons).2
      subst hnow
      obtain ⟨s1, u1, u2, u3, _, _, u6⟩ := Update_throttled s hs now
        (by rw [hfirst]; exact Nat.zero_le _) (hlt now (List.mem_cons_self _ _))
      obtain ⟨v1, v2⟩ := u6 hfirst
      obtain ⟨s', total', h1, h2, h3, h4, h5⟩ := runCalls_throttled rest s1
        (total + (s.m_nNewEnergyAvailable - s1.m_nNewEnergyAvailable)) u2
        (by rw [u3, hrest]; exact hsorted)
        (by rw [hrest]; exact fun t ht => hlt t (List.mem_cons_of_mem _ ht))
      refine ⟨s', total', ?_, h2, ?_, by omega, ?_⟩
      · show (Update s now).bind _ = _
        rw [u1]
        exact h1
      · rw [h3]
        simp only [u3, hrest]
      · rw [u3, v1, v2] at h5
        simp only [sub_self, add_zero] at h5
        exact h5

/-- C17: for every sequence of reads and refreshes run from the constructed state, whose
refreshes come at tick counts `t1 ≤ ... ≤ tn`, the run succeeds and the total number of
positions the read cursor has been advanced is at least 0 and at most
`(tn - t1) * samplesPerSecond / 1000 / K`, that is `0.4 * (tn - t1)`, however the samples
are spread over the reads. -/
theorem advance_throttled (a0 c0 : ℝ) (calls : List Call) (t1 : ℕ) (ts : List ℕ)
    (htimes : refreshTimes calls = t1 :: ts)
    (hsorted : List.Chain (fun t u => t ≤ u) t1 ts) (hlt : ∀ t ∈ t1 :: ts, t < 2 ^ 64) :
    ∃ s' total, runCalls calls (construct a0 c0, 0) = some (s', total)
      ∧ s'.m_nLastEnergyRefreshTime = (t1 :: ts).getLast (List.cons_ne_nil _ _)
      ∧ 0 ≤ total
      ∧ (total : ℝ)
          ≤ ((((t1 :: ts).getLast (List.cons_ne_nil _ _) : ℕ) : ℝ) - (t1 : ℝ))
              * (cAudioSamplesPerSecond : ℝ) / 1000 / (cAudioSamplesPerEnergySample : ℝ)
      ∧ (total : ℝ)
          ≤ 0.4 * ((((t1 :: ts).getLast (List.cons_ne_nil _ _) : ℕ) : ℝ) - (t1 : ℝ)) := by
  obtain ⟨s', total, h1, h2, h3, h4, h5⟩ := runCalls_throttled_first t1 ts calls
    (construct a0 c0) 0 (Reachable.construct a0 c0) rfl htimes hsorted hlt
  have herr := (Reachable_inv s' h2).error_nonneg
  have h0 : (construct a0 c0).m_fEnergyError = 0 := rfl
  rw [h0, h3] at h5
  simp only [Int.cast_zero, zero_add] at h5
  have hb : (total : ℝ)
      ≤ ((((t1 :: ts).getLast (List.cons_ne_nil _ _) : ℕ) : ℝ) - (t1 : ℝ))
          * 16000 / 1000 / 40 := by linarith
  refine ⟨s', total, h1, h3, h4, ?_, ?_⟩
  · unfold cAudioSamplesPerSecond cAudioSamplesPerEnergySample
    push_cast
    exact hb
  · linarith

/-- C17, an instance: a refresh at tick count 5, a read of forty samples and a refresh at
tick count 15, run from the constructed state. -/
theorem advance_throttled_witness :
    ∃ s' total,
      runCalls [Call.refresh 5, Call.ingest (List.replicate 40 0) 0 0, Call.refresh 15]
          (construct 0 0, 0) = some (s', total)
      ∧ s'.m_nLastEnergyRefreshTime = (5 :: [15]).getLast (List.cons_ne_nil _ _)
      ∧ 0 ≤ total
      ∧ (total : ℝ)
          ≤ ((((5 :: [15]).getLast (List.cons_ne_nil _ _) : ℕ) : ℝ) - ((5 : ℕ) : ℝ))
              * (cAudioSamplesPerSecond : ℝ) / 1000 / (cAudioSamplesPerEnergySample : ℝ)
      ∧ (total : ℝ)
          ≤ 0.4
            * ((((5 :: [15]).getLast (List.cons_ne_nil _ _) : ℕ) : ℝ) - ((5 : ℕ) : ℝ)) :=
  advance_throttled 0 0
    [Call.refresh 5, Call.ingest (List.replicate 40 0) 0 0, Call.refresh 15] 5 [15] rfl
    (List.Chain.cons (by decide) List.Chain.nil)
    (by
      intro t ht
      simp only [List.mem_cons, List.mem_singleton, List.not_mem_nil, or_false] at ht
      rcases ht with rfl | rfl <;> norm_num)

/-! ## Every sample ends up in one group -/

/-- A run of samples that does not complete the group in progress only accumulates. -/
theorem ingest_incomplete_group (a cf : ℝ) (xs : List ℝ) (s : State)
    (h : s.m_nAccumulatedSampleCount + xs.length < cAudioSamplesPerEnergySample) :
    ingest s xs a cf =
      { s with
        m_fAccumulatedSquareSum := s.m_fAccumulatedSquareSum + sumSquares xs
        m_nAccumulatedSampleCount := s.m_nAccumulatedSampleCount + xs.length } := by
  induction xs generalizing s with
  | nil => simp [ingest_nil, sumSquares]
  | cons x xs ih =>
    simp only [List.length_cons] at h
    push_cast at h
    have hc : s.m_nAccumulatedSampleCount + 1 < cAudioSamplesPerEnergySample := by omega
    rw [ingest_cons, ingestSample_accumulate a cf s x hc, ih _ (by simp only; omega),
      sumSquares_cons]
    simp only [List.length_cons]
    push_cast
    congr 1 <;> ring

/-- The groups below `G` and the samples after them make up the whole stream, in order. -/
theorem groups_partition (c : ℕ) (xs : List ℝ) (G : ℕ) :
    (List.range G).flatMap (groupSamples c xs) ++ xs.drop (40 * G - c) = xs := by
  have h : ∀ G, (List.range G).flatMap (groupSamples c xs) = xs.take (40 * G - c) := by
    intro G
    induction G with
    | zero => simp
    | succ G ih =>
      rw [List.range_succ, List.flatMap_append, ih, List.flatMap_singleton]
      unfold groupSamples
      rw [← List.take_add]
      congr 1
      omega
  rw [h G, List.take_append_drop]

/-- The state a run of samples leaves, group by group. -/
theorem ingest_groups (a cf : ℝ) (G : ℕ) (xs : List ℝ) (s : State) (c i : ℕ)
    (hc : s.m_nAccumulatedSampleCount = (c : ℤ)) (hcK : c < 40)
    (hi : s.m_nEnergyIndex = (i : ℤ)) (hiN : i < 1000)
    (hbuf : s.m_fEnergyBuffer.length = 1000)
    (hG : (c + xs.length) / 40 = G) (hGN : G ≤ 1000) :
    (ingest s xs a cf).m_fAccumulatedSquareSum
        = (if G = 0 then s.m_fAccumulatedSquareSum else 0) + sumSquares (xs.drop (40 * G - c))
      ∧ (ingest s xs a cf).m_nEnergyIndex = (((i + G) % 1000 : ℕ) : ℤ)
      ∧ (∀ k, k < G →
          (ingest s xs a cf).m_fEnergyBuffer[(i + k) % 1000]?
            = some (energyDisplay ((if k = 0 then s.m_fAccumulatedSquareSum else 0)
                + sumSquares (groupSamples c xs k))))
      ∧ (∀ j, (∀ k, k < G → j ≠ (i + k) % 1000) →
          (ingest s xs a cf).m_fEnergyBuffer[j]? = s.m_fEnergyBuffer[j]?) := by
  induction G generalizing xs s c i with
  | zero =>
    have hlt : s.m_nAccumulatedSampleCount + xs.length < cAudioSamplesPerEnergySample := by
      rw [hc]
      unfold cAudioSamplesPerEnergySample
      omega
    rw [ingest_incomplete_group a cf xs s hlt]
    refine ⟨?_, ?_, ?_, ?_⟩
    · simp
    · simp only [hi, add_zero]
      congr 1
      omega
    · intro k hk
      omega
    · intro j _
      rfl
  | succ G ih =>
    have hn : 40 - c ≤ xs.length := by omega
    have hsplit : xs = xs.take (40 - c) ++ xs.drop (40 - c) := (List.take_append_drop _ _).symm
    have hfl : (xs.take (40 - c)).length = 40 - c := by
      rw [List.length_take]
      omega
    have hk : s.m_nAccumulatedSampleCount + (xs.take (40 - c)).length
        = cAudioSamplesPerEnergySample := by
      rw [hc, hfl]
      unfold cAudioSamplesPerEnergySample
      omega
    have hne : xs.take (40 - c) ≠ [] := by
      intro h0
      rw [h0] at hfl
      simp at hfl
      omega
    have hgroup := ingest_complete_group a cf (xs.take (40 - c)) s hne hk
    have hmod : (s.m_nEnergyIndex + 1).tmod cEnergyBufferLength
        = (((i + 1) % 1000 : ℕ) : ℤ) := by
      unfold cEnergyBufferLength
      rw [hi, Int.tmod_eq_emod (by omega) (by norm_num)]
      omega
    rw [hmod, hi] at hgroup
    simp only [Int.toNat_ofNat] at hgroup
    have hrec := ih (xs.drop (40 - c))
      { s with
        m_fBeamAngle := a
        m_fBeamAngleConfidence := cf
        m_fEnergyBuffer := s.m_fEnergyBuffer.set i
          (energyDisplay (s.m_fAccumulatedSquareSum + sumSquares (xs.take (40 - c))))
        m_nNewEnergyAvailable := s.m_nNewEnergyAvailable + 1
        m_nEnergyIndex := (((i + 1) % 1000 : ℕ) : ℤ)
        m_fAccumulatedSquareSum := 0
        m_nAccumulatedSampleCount := 0 }
      0 ((i + 1) % 1000) rfl (by norm_num) rfl (by omega)
      (by simp only [List.length_set]; exact hbuf)
      (by rw [List.length_drop]; omega) (by omega)
    obtain ⟨r1, r2, r3, r4⟩ := hrec
    have hing : ingest s xs a cf
        = ingest (ingest s (xs.take (40 - c)) a cf) (xs.drop (40 - c)) a cf := by
      conv_lhs => rw [hsplit]
      rw [ingest_append]
    rw [hing, hgroup]
    refine ⟨?_, ?_, ?_, ?_⟩
    · rw [r1]
      simp only [ite_self, Nat.succ_ne_zero, if_false, List.drop_drop]
      congr 3
      omega
    · rw [r2]
      congr 1
      omega
    · intro k hk
      cases k with
      | zero =>
        have hnot : ∀ k, k < G → i ≠ ((i + 1) % 1000 + k) % 1000 := by
          intro k hk
          omega
        rw [add_zero, Nat.mod_eq_of_lt hiN, r4 i hnot]
        simp only [List.getElem?_set, if_true]
        rw [if_pos (by omega)]
        simp [groupSamples]
      | succ k =>
        have hidx : (i + (k + 1)) % 1000 = ((i + 1) % 1000 + k) % 1000 := by omega
        have hgs : groupSamples 0 (xs.drop (40 - c)) k = groupSamples c xs (k + 1) := by
          unfold groupSamples
          have e1 : 40 - c + (40 * k - 0) = 40 * (k + 1) - c := by omega
          have e2 : 40 * (k + 1) - 0 - (40 * k - 0)
              = 40 * (k + 1 + 1) - c - (40 * (k + 1) - c) := by omega
          rw [List.drop_drop, e1, e2]
        rw [hidx, r3 k (by omega), hgs]
        simp only [ite_self, Nat.succ_ne_zero, if_false]
    · intro j hj
      have hji : j ≠ i := by
        have := hj 0 (Nat.succ_pos G)
        rw [add_zero, Nat.mod_eq_of_lt hiN] at this
        exact this
      rw [r4 j (fun k hk => by
        have := hj (k + 1) (by omega)
        omega)]
      simp only [List.getElem?_set]
      rw [if_neg (fun h => hji h.symm)]

/-- C9: no sample is dropped at a block boundary. Reading the block `A` and then the block
`B`, both with the same beam values, leaves the very state that one read of `A ++ B`
leaves; and in that state every sample of `A ++ B` is accounted for, in order: with `c < K`
samples in the accumulator before, the groups `0, 1, ..` of the stream and the samples
after the last complete group make up `A ++ B`, each complete group has stored the display
value of the sum of its squares (group 0 together with what the accumulator held) at the
next buffer index, nothing else in the buffer has changed, and the accumulator holds the
sum of the squares of the samples after the last complete group. -/
theorem ingest_blocks_eq_ingest_concat (s : State) (A B : List ℝ) (a cf : ℝ) :
    ingest (ingest s A a cf) B a cf = ingest s (A ++ B) a cf
      ∧ ∀ c i : ℕ, s.m_nAccumulatedSampleCount = (c : ℤ) → c < 40 →
          s.m_nEnergyIndex = (i : ℤ) → i < 1000 → s.m_fEnergyBuffer.length = 1000 →
          (c + (A ++ B).length) / 40 ≤ 1000 →
          (List.range ((c + (A ++ B).length) / 40)).flatMap (groupSamples c (A ++ B))
              ++ (A ++ B).drop (40 * ((c + (A ++ B).length) / 40) - c) = A ++ B
            ∧ (ingest (ingest s A a cf) B a cf).m_nNewEnergyAvailable
                = s.m_nNewEnergyAvailable + (((c + (A ++ B).length) / 40 : ℕ) : ℤ)
            ∧ (ingest (ingest s A a cf) B a cf).m_nAccumulatedSampleCount
                = (((c + A.length + B.length) % 40 : ℕ) : ℤ)
            ∧ (ingest (ingest s A a cf) B a cf).m_fAccumulatedSquareSum
                = (if (c + (A ++ B).length) / 40 = 0 then s.m_fAccumulatedSquareSum else 0)
                  + sumSquares ((A ++ B).drop (40 * ((c + (A ++ B).length) / 40) - c))
            ∧ (∀ k, k < (c + (A ++ B).length) / 40 →
                (ingest (ingest s A a cf) B a cf).m_fEnergyBuffer[(i + k) % 1000]?
                  = some (energyDisplay ((if k = 0 then s.m_fAccumulatedSquareSum else 0)
                      + sumSquares (groupSamples c (A ++ B) k))))
            ∧ (∀ j, (∀ k, k < (c + (A ++ B).length) / 40 → j ≠ (i + k) % 1000) →
                (ingest (ingest s A a cf) B a cf).m_fEnergyBuffer[j]?
                  = s.m_fEnergyBuffer[j]?) := by
  have heq : ingest (ingest s A a cf) B a cf = ingest s (A ++ B) a cf :=
    (ingest_append s A B a cf).symm
  refine ⟨heq, ?_⟩
  intro c i hc hcK hi hiN hbuf hG
  obtain ⟨g1, _, g3, g4⟩ := ingest_groups a cf _ (A ++ B) s c i hc hcK hi hiN hbuf rfl hG
  obtain ⟨k1, k2⟩ := ingest_count a cf (A ++ B) s (by rw [hc]; omega)
    (by rw [hc]; unfold cAudioSamplesPerEnergySample; omega)
  rw [heq]
  refine ⟨groups_partition c (A ++ B) _, ?_, ?_, g1, g3, g4⟩
  · rw [k1, hc]
    push_cast
    rfl
  · rw [k2, hc]
    simp only [List.length_append]
    push_cast
    omega

/-- C9, an instance: two blocks of thirty samples of amplitude 1 read after the
constructor; block `B` completes the group that block `A` began. -/
theorem ingest_blocks_eq_ingest_concat_witness :
    ingest (ingest (construct 0 0) (List.replicate 30 1) 0 0) (List.replicate 30 1) 0 0
        = ingest (construct 0 0) (List.replicate 30 1 ++ List.replicate 30 1) 0 0
      ∧ (ingest (ingest (construct 0 0) (List.replicate 30 1) 0 0)
            (List.replicate 30 1) 0 0).m_nNewEnergyAvailable
          = (construct 0 0).m_nNewEnergyAvailable
            + (((0 + (List.replicate 30 (1 : ℝ) ++ List.replicate 30 1).length) / 40 : ℕ) : ℤ)
      ∧ (ingest (ingest (construct 0 0) (List.replicate 30 1) 0 0)
            (List.replicate 30 1) 0 0).m_nAccumulatedSampleCount
          = (((0 + (List.replicate 30 (1 : ℝ)).length + (List.replicate 30 (1 : ℝ)).length)
              % 40 : ℕ) : ℤ) := by
  have h := ingest_blocks_eq_ingest_concat (construct 0 0) (List.replicate 30 1)
    (List.replicate 30 1) 0 0
  have h2 := h.2 0 0 rfl (by norm_num) rfl (by norm_num)
    (by simp only [construct, List.length_replicate]; rfl)
    (by simp only [List.length_append, List.length_replicate]; norm_num)
  exact ⟨h.1, h2.2.1, h2.2.2.1⟩

/-! ## The refresh with 32-bit `int` arithmetic -/

theorem wrapInt32_of_mem (z : ℤ) (h0 : -2 ^ 31 ≤ z) (h1 : z < 2 ^ 31) : wrapInt32 z = z := by
  unfold wrapInt32
  omega

theorem floatToInt32_of_lt (x : ℝ) (h0 : 0 ≤ x) (h1 : x < 2 ^ 31) :
    floatToInt32 x = floatToInt x := by
  have hf := floatToInt_of_nonneg x h0
  have hnn : (0 : ℤ) ≤ ⌊x⌋ := Int.floor_nonneg.mpr h0
  have hlt : ⌊x⌋ < 2 ^ 31 := by
    rw [Int.floor_lt]
    exact_mod_cast h1
  unfold floatToInt32
  rw [hf, if_pos ⟨by omega, hlt⟩]

theorem floatToInt_le_of_lt (x : ℝ) (n : ℤ) (h0 : 0 ≤ x) (h1 : x < (n : ℝ)) :
    floatToInt x < n := by
  rw [floatToInt_of_nonneg x h0, Int.floor_lt]
  exact h1

/-- As long as no `int` overflows, the advancing block with `int` arithmetic is the
advancing block. -/
theorem advanceRefreshIndex32_eq (s : State) (now : ℕ) (hinv : Inv s)
    (hp : s.m_nNewEnergyAvailable < 2 ^ 31) (he : energyToAdvance s now < 2 ^ 31)
    (hsum : s.m_nEnergyRefreshIndex + energySamplesToAdvance s now < 2 ^ 31) :
    energySamplesToAdvance32 s now = energySamplesToAdvance s now
      ∧ advanceRefreshIndex32 s now = advanceRefreshIndex s now := by
  have h0 := energyToAdvance_nonneg s now hinv.error_nonneg
  have hcast : floatToInt32 (energyToAdvance s now) = floatToInt (energyToAdvance s now) :=
    floatToInt32_of_lt _ h0 he
  have hadv : energySamplesToAdvance32 s now = energySamplesToAdvance s now := by
    unfold energySamplesToAdvance32 energySamplesToAdvance
    rw [hcast]
  obtain ⟨b1, b2, _, _⟩ :=
    energySamplesToAdvance_bounds s now hinv.error_nonneg hinv.available_nonneg
  have hr0 := hinv.refresh_nonneg
  refine ⟨hadv, ?_⟩
  unfold advanceRefreshIndex32 advanceRefreshIndex
  rw [hadv, wrapInt32_of_mem _ (by omega) (by omega), wrapInt32_of_mem _ (by omega) (by omega)]

/-- As long as no `int` overflows, the refresh with `int` arithmetic is the refresh. -/
theorem Update32_eq_Update (s : State) (now : ℕ) (hinv : Inv s)
    (hp : s.m_nNewEnergyAvailable < 2 ^ 31) (he : refreshInRange s now) :
    Update32 s now = Update s now ∧ advanceInt32 s now = advanceInt s now := by
  by_cases hrun : 0 < s.m_nNewEnergyAvailable ∧ s.m_nLastEnergyRefreshTime ≠ 0
  · have hsum : s.m_nEnergyRefreshIndex + energySamplesToAdvance s now < 2 ^ 31 := by
      unfold energySamplesToAdvance
      rw [floatToInt_of_nonneg _ (energyToAdvance_nonneg s now hinv.error_nonneg)]
      exact (he hrun.1 hrun.2).2
    obtain ⟨e1, e2⟩ := advanceRefreshIndex32_eq s now hinv hp (he hrun.1 hrun.2).1 hsum
    constructor
    · unfold Update32 Update
      rw [e2]
    · unfold advanceInt32 advanceInt
      rw [e1]
  · constructor
    · unfold Update32 Update
      simp only
      by_cases hle : s.m_nNewEnergyAvailable ≤ 0
      · rw [if_pos hle, if_pos hle]
      · have hl : s.m_nLastEnergyRefreshTime = 0 := by
          by_contra hne
          exact hrun ⟨by omega, hne⟩
        rw [if_neg hle, if_neg hle, if_neg (by simp [hl]), if_neg (by simp [hl])]
    · unfold advanceInt32 advanceInt
      rw [if_neg hrun, if_neg hrun]

theorem Reachable32_reachable (s : State) (h : Reachable32 s) :
    Reachable s ∧ s.m_nNewEnergyAvailable < 2 ^ 31 := by
  induction h with
  | construct a c => exact ⟨Reachable.construct a c, by simp [construct]⟩
  | ingest samples a c _ hlt ih => exact ⟨Reachable.ingest samples a c ih.1, hlt⟩
  | @refresh s0 s1 now _ hnow hlt hrange hu ih =>
    have hinv := Reachable_inv s0 ih.1
    rw [(Update32_eq_Update s0 now hinv ih.2 hrange).1] at hu
    refine ⟨Reachable.refresh now ih.1 hnow hlt hu, ?_⟩
    obtain ⟨s', h1, _, h3, _, h5, _⟩ := Update_effect s0 now ih.1
    rw [h1] at hu
    cases hu
    rw [h5]
    omega

/-! ## The example trace with `int` arithmetic -/

theorem Update32_early (s : State) (now : ℕ) (h : s.m_nNewEnergyAvailable ≤ 0) :
    Update32 s now = some { s with m_nLastEnergyRefreshTime := now } := by
  unfold Update32
  simp only
  rw [if_pos h]

theorem Reachable32_stateFirstRefresh : Reachable32 stateFirstRefresh :=
  Reachable32.refresh 5 (Reachable32.construct 0 0) (Nat.zero_le 5) (by norm_num)
    (fun h => absurd h (lt_irrefl (0 : ℤ)))
    (Update32_early (construct 0 0) 5 (le_refl (0 : ℤ)))

theorem Reachable32_statePending : Reachable32 statePending :=
  Reachable32.ingest _ 0 0 Reachable32_stateFirstRefresh
    (by
      have h := statePending_fields.2.2.1
      unfold statePending at h
      rw [h]
      decide)

theorem floor_four : ⌊(4 : ℝ)⌋ = 4 := Int.floor_eq_iff.mpr ⟨by norm_num, by norm_num⟩

theorem refreshInRange_statePending_15 : refreshInRange statePending 15 := by
  intro _ _
  obtain ⟨_, _, f3, f4⟩ := statePending_fields
  rw [energyToAdvance_statePending_15, floor_four, f3, f4]
  exact ⟨by norm_num, by decide⟩

theorem floor_four_fifths : ⌊(4 / 5 : ℝ)⌋ = 0 :=
  Int.floor_eq_iff.mpr ⟨by norm_num, by norm_num⟩

theorem refreshInRange_statePending_7 : refreshInRange statePending 7 := by
  intro _ _
  obtain ⟨_, _, f3, f4⟩ := statePending_fields
  rw [energyToAdvance_statePending_7, floor_four_fifths, f3, f4]
  exact ⟨by norm_num, by decide⟩

/-- When the advancing block runs and the number of unread values caps the advance, the
scalar is left at the wanted advance less that number, which is at least 1. -/
theorem Update_capped (s : State) (now : ℕ) (hinv : Inv s)
    (hpos : 0 < s.m_nNewEnergyAvailable) (hl : s.m_nLastEnergyRefreshTime ≠ 0)
    (hcap : s.m_nNewEnergyAvailable < ⌊energyToAdvance s now⌋) (s' : State)
    (hu : Update s now = some s') :
    s'.m_fEnergyError = energyToAdvance s now - (s.m_nNewEnergyAvailable : ℝ)
      ∧ 1 ≤ s'.m_fEnergyError := by
  have h0 := energyToAdvance_nonneg s now hinv.error_nonneg
  have hmin : energySamplesToAdvance s now = s.m_nNewEnergyAvailable := by
    unfold energySamplesToAdvance
    rw [floatToInt_of_nonneg _ h0]
    exact min_eq_left (le_of_lt hcap)
  rw [Update_advance s now hinv (by omega) hl] at hu
  cases hu
  have herr : energyToAdvance s now - ((energySamplesToAdvance s now : ℤ) : ℝ)
      = energyToAdvance s now - (s.m_nNewEnergyAvailable : ℝ) := by rw [hmin]
  have h1 : ((s.m_nNewEnergyAvailable + 1 : ℤ) : ℝ) ≤ ((⌊energyToAdvance s now⌋ : ℤ) : ℝ) := by
    exact_mod_cast hcap
  have h2 : ((⌊energyToAdvance s now⌋ : ℤ) : ℝ) ≤ energyToAdvance s now := Int.floor_le _
  push_cast at h1
  simp only [advanceRefreshIndex]
  rw [herr]
  exact ⟨rfl, by linarith⟩

/-! ## The drift-correction scalar -/

/-- C4, as amended: as long as no `int` overflows, the drift-correction scalar is at least 0
in every reachable state, and a refresh succeeds and leaves it at least 0; it leaves it
below 1 whenever the whole part of the wanted advance does not exceed the number of unread
values; and when the advancing block runs (there are unread values and a previous refresh
time) with the number of unread values below that whole part, it leaves it at the wanted
advance less the number of unread values, which is at least 1. -/
theorem energyError_bounds (s : State) (hs : Reachable32 s) (now : ℕ)
    (hr : refreshInRange s now) :
    0 ≤ s.m_fEnergyError
      ∧ ∃ s', Update32 s now = some s'
        ∧ 0 ≤ s'.m_fEnergyError
        ∧ (⌊energyToAdvance s now⌋ ≤ s.m_nNewEnergyAvailable → s'.m_fEnergyError < 1)
        ∧ (0 < s.m_nNewEnergyAvailable → s.m_nLastEnergyRefreshTime ≠ 0 →
            s.m_nNewEnergyAvailable < ⌊energyToAdvance s now⌋ →
            s'.m_fEnergyError = energyToAdvance s now - (s.m_nNewEnergyAvailable : ℝ)
              ∧ 1 ≤ s'.m_fEnergyError) := by
  obtain ⟨hreach, hp⟩ := Reachable32_reachable s hs
  have hinv := Reachable_inv s hreach
  obtain ⟨s', h1, _, _, _, _, _, h7, h8, _⟩ := Update_effect s now hreach
  have hfl := floatToInt_of_nonneg _ (energyToAdvance_nonneg s now hinv.error_nonneg)
  rw [hfl] at h8
  refine ⟨hinv.error_nonneg, s', ?_, h7, h8, ?_⟩
  · rw [(Update32_eq_Update s now hinv hp hr).1]
    exact h1
  · intro hpos hl hcap
    exact Update_capped s now hinv hpos hl hcap s' h1

/-- C4, an instance: the refresh at tick count 7 of the state with one unread value that
was last refreshed at tick count 5. -/
theorem energyError_bounds_witness :
    Reachable32 statePending ∧ refreshInRange statePending 7
      ∧ 0 ≤ statePending.m_fEnergyError
      ∧ ∃ s', Update32 statePending 7 = some s'
        ∧ 0 ≤ s'.m_fEnergyError
        ∧ (⌊energyToAdvance statePending 7⌋ ≤ statePending.m_nNewEnergyAvailable →
            s'.m_fEnergyError < 1)
        ∧ (0 < statePending.m_nNewEnergyAvailable →
            statePending.m_nLastEnergyRefreshTime ≠ 0 →
            statePending.m_nNewEnergyAvailable < ⌊energyToAdvance statePending 7⌋ →
            s'.m_fEnergyError
                = energyToAdvance statePending 7 - (statePending.m_nNewEnergyAvailable : ℝ)
              ∧ 1 ≤ s'.m_fEnergyError) :=
  ⟨Reachable32_statePending, refreshInRange_statePending_7,
    energyError_bounds statePending Reachable32_statePending 7 refreshInRange_statePending_7⟩

/-- C4, as stated, fails: after the constructor, a refresh at tick count 5, one read of
forty samples and a refresh at tick count 15, no `int` having overflowed, the wanted
advance is 4 while only one value is unread; the cursor advances by 1 and the scalar is
left at 3. -/
theorem energyError_bounds_counterexample :
    ∃ s', Update32 statePending 15 = some s' ∧ Reachable32 s'
      ∧ s'.m_fEnergyError = 3 ∧ ¬ (0 ≤ s'.m_fEnergyError ∧ s'.m_fEnergyError < 1) := by
  obtain ⟨f1, f2, f3, f4⟩ := statePending_fields
  obtain ⟨hreach, hp⟩ := Reachable32_reachable statePending Reachable32_statePending
  have hinv := Reachable_inv statePending hreach
  have hu := Update_advance statePending 15 hinv (by rw [f3]; decide) (by rw [f2]; decide)
  rw [← (Update32_eq_Update statePending 15 hinv hp refreshInRange_statePending_15).1] at hu
  have hfl : floatToInt (4 : ℝ) = 4 := by
    rw [floatToInt_of_nonneg 4 (by norm_num)]
    exact floor_four
  have hadv : energySamplesToAdvance statePending 15 = 1 := by
    unfold energySamplesToAdvance
    rw [energyToAdvance_statePending_15, hfl, f3]
    decide
  refine ⟨_, hu, Reachable32.refresh 15 Reachable32_statePending (by rw [f2]; decide)
    (by norm_num) refreshInRange_statePending_15 hu, ?_, ?_⟩
  · simp only [advanceRefreshIndex, energyToAdvance_statePending_15, hadv]
    norm_num
  · simp only [advanceRefreshIndex, energyToAdvance_statePending_15, hadv]
    norm_num

/-! ## The ring indices -/

end CFaceBasics
